import Mathlib

/-!
Shallow embedding of the Insider Trading board-game rules engine
(JavaScript sources under src/), together with proofs settling the
frozen claims about it.

Conventions of the embedding:
* JS numbers that hold money or prices are modelled as `Int`
  (the engine only ever adds/subtracts integers on them);
  counts and indices are `Nat`.
* Resource-card colors are the closed enum `Color`: the
  `ResourceCard` constructor (src/unnamed/part_004) rejects any color
  outside `COLORS = ['Blue','Orange','Yellow','Purple']`, so every
  resource card in play carries one of these four colors.
* JS objects used as string-keyed maps (stock prices, sell
  selections) are association lists; `Map`/`Set` insertion-order
  semantics are mirrored by list order.
* Mutation is modelled by explicit state passing: each manager
  method becomes a function `GState → ... → GState`.
* Methods that would fault in JS on states the engine never
  produces (e.g. reading `phaseState.auction` while it is null)
  return the state unchanged; every theorem that relies on such a
  method carries the validation hypotheses under which the engine
  actually calls it.
-/

/-- The four resource colors, `COLORS` in src/src/utils/Constants.js. -/
inductive Color where
  | Blue
  | Orange
  | Yellow
  | Purple
deriving DecidableEq, Repr

/-- A resource card: immutable id plus color (src/unnamed/part_004, ResourceCard). -/
structure RCard where
  id : String
  color : Color
deriving DecidableEq, Repr

/-- Goal requirement facet, `metadata.goalParsed` of a goal card
(src/src/parsers/GoalParser.js): either a "none of color C" constraint
or a conjunction of "at least N of color C" constraints. -/
inductive GoalParsed where
  | noneOf (avoidColor : Color)
  | reqs (requirements : List (Color × Nat))
deriving DecidableEq, Repr

/-- Reward descriptor facet, `metadata.rewardParsed` of a goal card
(src/src/core/EventEmitter.js, RewardSystem). `amount`, `discount`,
`bonus` are optional numeric parameters; `none` models an absent JS
field (the code falls back with `|| 1`). -/
structure RewardParsed where
  rtype : String
  amount : Option Int
  discount : Option Int
  bonus : Option Int
  requiresTarget : Bool
  requiresChoice : Bool
deriving DecidableEq, Repr

/-- A goal card with its three pre-parsed facets.  The JS nests the
facets under `metadata`; the embedding flattens that one level.
`goalParsed` is optional because `GoalParser.checkGoal` guards against
cards missing it. -/
structure GoalCard where
  id : String
  revealed : Bool
  goalParsed : Option GoalParsed
  stockChangeParsed : List (Color × Int)
  rewardParsed : RewardParsed
deriving DecidableEq, Repr

/-- A player (src/src/utils/Constants.js, GameState.createInitialState). -/
structure Player where
  id : String
  name : String
  cash : Int
  hand : List RCard
  goalCards : List GoalCard
  sellBonus : Int
deriving DecidableEq, Repr

/-- A deck: ordered draw pile (front = top) plus discard pile. -/
structure Deck where
  drawPile : List RCard
  discardPile : List RCard
deriving DecidableEq, Repr

/-- Auction sub-state (src/src/managers/DeckManager.js, AuctionManager.initializeAuction).
`startingPlayer` is a derived display field in the JS and is read nowhere,
so it is omitted.  `activeBidders` is a JS `Set` kept in insertion order. -/
structure AuctionState where
  cardsToAuction : List RCard
  currentCardIndex : Nat
  currentCard : Option RCard
  currentBid : Int
  currentHighBidder : Option String
  activeBidders : List String
  currentPlayerIndex : Nat
  lastRaiserIndex : Option Nat
deriving DecidableEq, Repr

/-- A trade offer (src/unnamed/part_004, TradingManager.proposeTrade).
`requestingCards` is the list of `{color, count}` requirements. -/
structure Offer where
  offerId : String
  offeringPlayer : String
  offeringCards : List String
  offeringCash : Int
  requestingCards : List (Color × Nat)
  requestingCash : Int
  status : String
deriving DecidableEq, Repr

/-- Trading sub-state.  The real-time timer fields are presentation
concerns; only `timeRemaining` matters to `canAdvancePhase`. -/
structure TradingState where
  activeOffers : List Offer
  timeRemaining : Int
deriving DecidableEq, Repr

/-- One player's sell selection (src/src/managers/SellManager.js). -/
structure Selection where
  cardsToSell : List String
  committed : Bool
deriving DecidableEq, Repr

/-- Sell sub-state: selections keyed by player id (a JS object,
insertion order = player order), plus the all-committed latch. -/
structure SellState where
  playerSelections : List (String × Selection)
  allCommitted : Bool
deriving DecidableEq, Repr

/-- A goal reveal record pushed into `revealedGoals` (src/unnamed/part_005). -/
structure RevealedGoal where
  playerId : String
  goalCard : GoalCard
  goalMet : Bool
  rewardExecuted : Bool
deriving DecidableEq, Repr

/-- Pending interactive reward marker (src/unnamed/part_005). -/
structure PendingReward where
  playerId : String
  rewardType : String
  goalCard : GoalCard
deriving DecidableEq, Repr

/-- Goal-resolution sub-state. -/
structure GoalResState where
  currentPlayerIndex : Nat
  revealedGoals : List RevealedGoal
  pendingRewardExecution : Option PendingReward
deriving DecidableEq, Repr

/-- The per-phase working slots, `state.phaseState`. -/
structure PhaseState where
  auction : Option AuctionState
  trading : Option TradingState
  goalResolution : Option GoalResState
  sell : Option SellState
deriving DecidableEq, Repr

/-- Resolved game configuration (DEFAULT_CONFIG merged with overrides).
`maxStockPrice = none` models the JS `null` (no ceiling). -/
structure Config where
  minStockPrice : Int
  maxStockPrice : Option Int
  startingStockPrice : Int
  totalRounds : Nat
  tradingDuration : Int
deriving DecidableEq, Repr

/-- The whole mutable game state (src/src/utils/Constants.js, GameState). -/
structure GState where
  status : String
  currentRound : Nat
  currentPhase : String
  players : List Player
  stockPrices : List (Color × Int)
  resourceDeck : Deck
  goalDeckUndealt : List GoalCard
  phaseState : PhaseState
  turnOrder : List String
  currentPlayerIndex : Nat
  dealerIndex : Nat
  config : Config
deriving DecidableEq, Repr

/-! ### Small map/list helpers shared by the embedding -/

/-- Lookup in an association list keyed by color (a JS object read
`prices[color]`; `none` models `undefined`). -/
def lookupPrice (prices : List (Color × Int)) (c : Color) : Option Int :=
  (prices.find? (fun kv => kv.1 = c)).map (fun kv => kv.2)

/-- Overwrite the binding of color `c` (first occurrence, as a JS
object has a single slot per key). -/
def setPrice (prices : List (Color × Int)) (c : Color) (v : Int) : List (Color × Int) :=
  match prices with
  | [] => []
  | kv :: rest => if kv.1 = c then (c, v) :: rest else kv :: setPrice rest c v

/-- Update the first player whose id matches (JS mutates the single
object `getPlayer` returned, which is the first match of `find`). -/
def updateFirstPlayer (ps : List Player) (pid : String) (f : Player → Player) : List Player :=
  match ps with
  | [] => []
  | p :: rest => if p.id = pid then f p :: rest else p :: updateFirstPlayer rest pid f

/-- `GameState.getPlayer`: first player with the given id. -/
def getPlayer (s : GState) (pid : String) : Option Player :=
  s.players.find? (fun p => p.id = pid)

/-- `GameState.adjustPlayerCash`: add `amount` (possibly negative) to the
player's cash, then clamp below at 0; a missing player is a no-op. -/
def adjustPlayerCash (s : GState) (pid : String) (amount : Int) : GState :=
  { s with players := updateFirstPlayer s.players pid (fun p =>
      let c := p.cash + amount
      { p with cash := if c < 0 then 0 else c }) }

/-- `GameState.addCardToHand`: push a card onto the player's hand. -/
def addCardToHand (s : GState) (pid : String) (card : RCard) : GState :=
  { s with players := updateFirstPlayer s.players pid (fun p =>
      { p with hand := p.hand ++ [card] }) }

/-- Remove the first card with the given id from a hand, returning it. -/
def removeById (hand : List RCard) (cid : String) : Option (RCard × List RCard) :=
  match hand with
  | [] => none
  | c :: rest =>
    if c.id = cid then some (c, rest)
    else (removeById rest cid).map (fun r => (r.1, c :: r.2))

/-- `GameState.removeCardFromHand`: splice the first card with this id
out of the player's hand; returns the card (or `none`) and the new state. -/
def removeCardFromHand (s : GState) (pid : String) (cid : String) : Option RCard × GState :=
  match getPlayer s pid with
  | none => (none, s)
  | some p =>
    match removeById p.hand cid with
    | none => (none, s)
    | some (card, rest) =>
      (some card,
       { s with players := updateFirstPlayer s.players pid (fun q => { q with hand := rest }) })

/-- Remove the first `n` cards of a color from a hand (the JS collects
the cards of that color and splices out `min(count, available)` of them
one by one); returns removed cards in order plus the remaining hand. -/
def removeFirstOfColor (hand : List RCard) (c : Color) (n : Nat) : List RCard × List RCard :=
  match n with
  | 0 => ([], hand)
  | Nat.succ m =>
    match hand with
    | [] => ([], [])
    | card :: rest =>
      if card.color = c then
        let r := removeFirstOfColor rest c m
        (card :: r.1, r.2)
      else
        let r := removeFirstOfColor rest c (Nat.succ m)
        (r.1, card :: r.2)

/-- `GameState.removeCardsByColor`. -/
def removeCardsByColor (s : GState) (pid : String) (c : Color) (n : Nat) :
    List RCard × GState :=
  match getPlayer s pid with
  | none => ([], s)
  | some p =>
    let r := removeFirstOfColor p.hand c n
    (r.1, { s with players := updateFirstPlayer s.players pid (fun q => { q with hand := r.2 }) })

/-! ### Stock price system (src/src/systems/StockPriceSystem.js) -/

/-- `constrainPrice`: clamp below at `minStockPrice`, and above at
`maxStockPrice` when one is configured (`null` = no ceiling). -/
def constrainPrice (cfg : Config) (price : Int) : Int :=
  if price < cfg.minStockPrice then cfg.minStockPrice
  else
    match cfg.maxStockPrice with
    | some mx => if price > mx then mx else price
    | none => price

/-- `applyChanges`: copy the price map, then for each changed color that
is present in the map, add the delta and clamp.  Colors absent from the
map are skipped (`newPrices[color] !== undefined` guard). -/
def applyChanges (cfg : Config) (currentPrices : List (Color × Int))
    (changes : List (Color × Int)) : List (Color × Int) :=
  changes.foldl (fun prices ch =>
    match lookupPrice prices ch.1 with
    | none => prices
    | some p => setPrice prices ch.1 (constrainPrice cfg (p + ch.2))) currentPrices

/-- `calculateCardValue`: total the current price of each card, skipping
cards whose color has no price. -/
def calculateCardValue (cards : List RCard) (prices : List (Color × Int)) : Int :=
  cards.foldl (fun total card =>
    match lookupPrice prices card.color with
    | some p => total + p
    | none => total) 0

/-- `getLowestPriceColors`: all colors tied at the minimum price.
An empty price map yields no colors (JS `Math.min()` of nothing is
`Infinity`, matched by no entry). -/
def getLowestPriceColors (prices : List (Color × Int)) : List Color :=
  match (prices.map (fun kv => kv.2)).min? with
  | none => []
  | some m => (prices.filter (fun kv => kv.2 = m)).map (fun kv => kv.1)

/-! ### Deck service (src/src/managers/DeckManager.js) -/

/-- `draw`: remove up to `n` cards from the top (shortage degrades to
drawing all that remain). -/
def drawCards (d : Deck) (n : Nat) : List RCard × Deck :=
  (d.drawPile.take n, { d with drawPile := d.drawPile.drop n })

/-- `discard`: append to the discard pile. -/
def discardCards (d : Deck) (cards : List RCard) : Deck :=
  { d with discardPile := d.discardPile ++ cards }

/-- `rearrangeTop`: validate that the pile holds at least
`newOrder.length` cards and that every id is among the top
`newOrder.length` cards, then replace that prefix by the cards in the
requested id order.  Both errors are raised before the pile is touched,
so a caller keeping the old deck on `.error` models the JS exactly.
A JS `Map` built from duplicate ids keeps the last binding, hence the
reversed `find?`. -/
def rearrangeTop (d : Deck) (newOrder : List String) : Except String Deck :=
  let topCards := d.drawPile.take newOrder.length
  if topCards.length ≠ newOrder.length then
    Except.error "count mismatch"
  else if newOrder.any (fun cid => (topCards.find? (fun c => c.id = cid)).isNone) then
    Except.error "card id not found in top cards"
  else
    let reordered := newOrder.filterMap (fun cid => topCards.reverse.find? (fun c => c.id = cid))
    Except.ok { d with drawPile := reordered ++ d.drawPile.drop newOrder.length }

/-! ### Goal checking (src/src/parsers/GoalParser.js) -/

/-- Cards of a color in a hand. -/
def countColor (hand : List RCard) (c : Color) : Nat :=
  (hand.filter (fun card => card.color = c)).length

/-- `checkGoal`: a card without parsed metadata never passes; a
`none_of` goal requires zero cards of the avoided color; otherwise every
"at least N of color" requirement must be met by the hand. -/
def checkGoal (g : GoalCard) (hand : List RCard) : Bool :=
  match g.goalParsed with
  | none => false
  | some (GoalParsed.noneOf avoid) => !(hand.any (fun card => card.color = avoid))
  | some (GoalParsed.reqs reqs) => reqs.all (fun rq => countColor hand rq.1 ≥ rq.2)

/-! ### Phase names and state accessors -/

/-- Phase name constants (PHASES in Constants.js). -/
def phaseAuction : String := "auction"

def phaseTrading : String := "trading"

def phaseGoalResolution : String := "goal_resolution"

def phaseSell : String := "sell"

/-- Replace the auction slot. -/
def setAuction (s : GState) (au : Option AuctionState) : GState :=
  { s with phaseState := { s.phaseState with auction := au } }

/-- Replace the trading slot. -/
def setTrading (s : GState) (tr : Option TradingState) : GState :=
  { s with phaseState := { s.phaseState with trading := tr } }

/-- Replace the goal-resolution slot. -/
def setGoalRes (s : GState) (gr : Option GoalResState) : GState :=
  { s with phaseState := { s.phaseState with goalResolution := gr } }

/-- Replace the sell slot. -/
def setSell (s : GState) (sl : Option SellState) : GState :=
  { s with phaseState := { s.phaseState with sell := sl } }

/-- Player ids in seat order; `new Set(players.map(p => p.id))`
deduplicates keeping first occurrences. -/
def playerIds (s : GState) : List String :=
  (s.players.map (fun p => p.id)).dedup

/-! ### Auction manager (src/src/managers/DeckManager.js, AuctionManager) -/

/-- The rotation loop of `advanceToNextActiveBidder`: scan at most
`fuel` seats from `idx`, wrapping mod `n`, for a seat whose player is
still an active bidder (`turnOrder[i]` out of range is `undefined`,
which is never in the bidder set). -/
def findNextActiveIdx (turnOrder : List String) (active : List String) (n : Nat) :
    Nat → Nat → Option Nat
  | _, 0 => none
  | idx, Nat.succ fuel =>
    match turnOrder.get? idx with
    | some pid =>
      if active.contains pid then some idx
      else findNextActiveIdx turnOrder active n ((idx + 1) % n) fuel
    | none => findNextActiveIdx turnOrder active n ((idx + 1) % n) fuel

/-- `advanceToNextActiveBidder`: move the turn pointer to the next
active bidder clockwise; if none is found after a full loop the pointer
is left where it was (the JS logs a warning). -/
def advanceToNextActiveBidder (s : GState) (au : AuctionState) : AuctionState :=
  let n := s.players.length
  match findNextActiveIdx s.turnOrder au.activeBidders n ((au.currentPlayerIndex + 1) % n) n with
  | some i => { au with currentPlayerIndex := i }
  | none => au

/-- `initializeAuction`: draw `players + 2` cards into the auction
queue and reset the bidding fields. -/
def initAuction (s : GState) : GState :=
  let cardsPerAuction := s.players.length + 2
  let r := drawCards s.resourceDeck cardsPerAuction
  let cardsToAuction := r.1
  let s := { s with resourceDeck := r.2 }
  setAuction s (some
    { cardsToAuction := cardsToAuction
      currentCardIndex := 0
      currentCard := cardsToAuction.get? 0
      currentBid := 0
      currentHighBidder := none
      activeBidders := playerIds s
      currentPlayerIndex := s.dealerIndex
      lastRaiserIndex := none })

/-- `moveToNextCard`: bump the card index, rotate the dealer seat, and
either reset the bidding fields for the next queued card or leave the
auction in its completed configuration. -/
def moveToNextCard (s : GState) : GState :=
  match s.phaseState.auction with
  | none => s
  | some au =>
    let idx := au.currentCardIndex + 1
    let s := { s with dealerIndex := (s.dealerIndex + 1) % s.players.length }
    if idx < au.cardsToAuction.length then
      setAuction s (some
        { au with
          currentCardIndex := idx
          currentCard := au.cardsToAuction.get? idx
          currentBid := 0
          currentHighBidder := none
          activeBidders := playerIds s
          currentPlayerIndex := s.dealerIndex
          lastRaiserIndex := none })
    else
      setAuction s (some { au with currentCardIndex := idx })

/-- `completeCurrentCardAuction`: the winner is the current high bidder,
or, when nobody ever bid, the first remaining active bidder; the winner
pays the current bid and takes the current card.  (With no winner at
all — empty bidder set and no bid — the JS helpers degrade to no-ops;
the engine never calls the method in that configuration.) -/
def completeCurrentCardAuction (s : GState) : GState :=
  match s.phaseState.auction with
  | none => s
  | some au =>
    let winnerId : Option String :=
      match au.currentHighBidder with
      | some w => some w
      | none => au.activeBidders.head?
    let s :=
      match winnerId with
      | some w =>
        let s := adjustPlayerCash s w (-au.currentBid)
        match au.currentCard with
        | some c => addCardToHand s w c
        | none => s
      | none => s
    moveToNextCard s

/-- `placeBid`: record bid, bidder and raiser seat, then rotate the turn. -/
def placeBid (s : GState) (pid : String) (amount : Int) : GState :=
  match s.phaseState.auction with
  | none => s
  | some au =>
    let au := { au with
      currentBid := amount
      currentHighBidder := some pid
      lastRaiserIndex := some au.currentPlayerIndex }
    setAuction s (some (advanceToNextActiveBidder s au))

/-- `pass`: drop the player from the active-bidder set; with one bidder
left the card auction completes, with zero the card is discarded
unsold; otherwise the turn rotates and, if it lands back on the last
raiser while a high bid exists, the card auction completes. -/
def passAction (s : GState) (pid : String) : GState :=
  match s.phaseState.auction with
  | none => s
  | some au =>
    let active := au.activeBidders.filter (fun x => x ≠ pid)
    let au := { au with activeBidders := active }
    let s := setAuction s (some au)
    if active.length = 1 then
      completeCurrentCardAuction s
    else if active.length = 0 then
      let s :=
        match au.currentCard with
        | some c => { s with resourceDeck := discardCards s.resourceDeck [c] }
        | none => s
      moveToNextCard s
    else
      let au := advanceToNextActiveBidder s au
      let s := setAuction s (some au)
      match au.lastRaiserIndex with
      | some lr =>
        if lr = au.currentPlayerIndex ∧ au.currentHighBidder.isSome then
          completeCurrentCardAuction s
        else s
      | none => s

/-- `isAuctionComplete`. -/
def isAuctionComplete (s : GState) : Bool :=
  match s.phaseState.auction with
  | none => false
  | some au => au.currentCardIndex ≥ au.cardsToAuction.length

/-! ### Trading manager (src/unnamed/part_004, TradingManager) -/

/-- Offer status constants. -/
def statusActive : String := "active"

def statusAccepted : String := "accepted"

def statusCancelled : String := "cancelled"

/-- Mutate the first offer with the given id. -/
def updateFirstOffer (offers : List Offer) (oid : String) (f : Offer → Offer) : List Offer :=
  match offers with
  | [] => []
  | o :: rest => if o.offerId = oid then f o :: rest else o :: updateFirstOffer rest oid f

/-- `initializeTrading`. -/
def initTrading (s : GState) : GState :=
  setTrading s (some { activeOffers := [], timeRemaining := s.config.tradingDuration })

/-- `proposeTrade`: append a fresh active offer.  The uuid generation is
external input here (`oid`). -/
def proposeTrade (s : GState) (oid pid : String) (offeringCards : List String)
    (offeringCash : Int) (requestingCards : List (Color × Nat)) (requestingCash : Int) :
    GState :=
  match s.phaseState.trading with
  | none => s
  | some tr =>
    setTrading s (some { tr with activeOffers := tr.activeOffers ++
      [{ offerId := oid
         offeringPlayer := pid
         offeringCards := offeringCards
         offeringCash := offeringCash
         requestingCards := requestingCards
         requestingCash := requestingCash
         status := statusActive }] })

/-- `executeTrade`: move the offered cards proposer → acceptor, the
requested cards (by color and count) acceptor → proposer, then the two
cash legs, each leg only when its amount is positive. -/
def executeTrade (s : GState) (offer : Offer) (acceptingPlayer : String) : GState :=
  let offeringPlayer := offer.offeringPlayer
  let s := offer.offeringCards.foldl (fun st cid =>
    let r := removeCardFromHand st offeringPlayer cid
    match r.1 with
    | some card => addCardToHand r.2 acceptingPlayer card
    | none => r.2) s
  let s := offer.requestingCards.foldl (fun st rq =>
    let r := removeCardsByColor st acceptingPlayer rq.1 rq.2
    r.1.foldl (fun st2 card => addCardToHand st2 offeringPlayer card) r.2) s
  let s :=
    if offer.offeringCash > 0 then
      adjustPlayerCash (adjustPlayerCash s offeringPlayer (-offer.offeringCash))
        acceptingPlayer offer.offeringCash
    else s
  let s :=
    if offer.requestingCash > 0 then
      adjustPlayerCash (adjustPlayerCash s acceptingPlayer (-offer.requestingCash))
        offeringPlayer offer.requestingCash
    else s
  s

/-- `autoCancelInvalidOffers`: cancel every still-active offer of this
player that the player can no longer fund with cards and cash.  (With a
player id that matches no player the JS would fault on the first such
offer; the engine only passes ids of existing players.) -/
def autoCancelInvalidOffers (s : GState) (pid : String) : GState :=
  match s.phaseState.trading with
  | none => s
  | some tr =>
    match getPlayer s pid with
    | none => s
    | some player =>
      setTrading s (some { tr with activeOffers := tr.activeOffers.map (fun o =>
        if o.status = statusActive ∧ o.offeringPlayer = pid then
          let hasCards := o.offeringCards.all (fun cid => player.hand.any (fun c => c.id = cid))
          let hasCash := player.cash ≥ o.offeringCash
          if ¬hasCards ∨ ¬hasCash then { o with status := statusCancelled } else o
        else o) })

/-- `acceptTrade`: find the offer, mark it accepted, execute it, then
auto-cancel both participants' now-unfundable offers. -/
def acceptTrade (s : GState) (pid oid : String) : GState :=
  match s.phaseState.trading with
  | none => s
  | some tr =>
    match tr.activeOffers.find? (fun o => o.offerId = oid) with
    | none => s
    | some offer =>
      if offer.status ≠ statusActive then s
      else
        let s :=
          match s.phaseState.trading with
          | none => s
          | some tr2 =>
            let offers := updateFirstOffer tr2.activeOffers oid
              (fun o => { o with status := statusAccepted })
            setTrading s (some { tr2 with activeOffers := offers })
        let s := executeTrade s offer pid
        let s := autoCancelInvalidOffers s offer.offeringPlayer
        autoCancelInvalidOffers s pid

/-- `cancelTrade`. -/
def cancelTrade (s : GState) (oid : String) : GState :=
  match s.phaseState.trading with
  | none => s
  | some tr =>
    match tr.activeOffers.find? (fun o => o.offerId = oid) with
    | none => s
    | some offer =>
      if offer.status = statusActive then
        let offers := updateFirstOffer tr.activeOffers oid
          (fun o => { o with status := statusCancelled })
        setTrading s (some { tr with activeOffers := offers })
      else s

/-! ### Sell manager (src/src/managers/SellManager.js) -/

/-- Lookup a sell selection by player id. -/
def lookupSelection (sels : List (String × Selection)) (pid : String) : Option Selection :=
  (sels.find? (fun kv => kv.1 = pid)).map (fun kv => kv.2)

/-- Overwrite the first selection entry for a player. -/
def updateSelection (sels : List (String × Selection)) (pid : String)
    (f : Selection → Selection) : List (String × Selection) :=
  match sels with
  | [] => []
  | kv :: rest =>
    if kv.1 = pid then (kv.1, f kv.2) :: rest else kv :: updateSelection rest pid f

/-- `initializeSell`: one empty uncommitted selection slot per player id
(a JS object has one slot per distinct id). -/
def initSell (s : GState) : GState :=
  setSell s (some
    { playerSelections := (playerIds s).map (fun pid => (pid, { cardsToSell := [], committed := false }))
      allCommitted := false })

/-- `selectCardsToSell`: overwrite the player's recorded selection; a
player without a selection slot is ignored.  Nothing here consults the
`committed` flag. -/
def selectCardsToSell (s : GState) (pid : String) (cardIds : List String) : GState :=
  match s.phaseState.sell with
  | none => s
  | some sell =>
    match lookupSelection sell.playerSelections pid with
    | none => s
    | some _ =>
      let sels := updateSelection sell.playerSelections pid
        (fun sel => { sel with cardsToSell := cardIds })
      setSell s (some { sell with playerSelections := sels })

/-- One player's pass of `executeSells`: sell each selected card that is
still in the hand at the market price plus any positive sell bonus,
discard it, credit positive earnings, and reset a positive sell bonus.
`earnings : Option Int` models the JS number with `none` for `NaN` (a
card whose color has no price poisons the sum, and `NaN > 0` is false);
with the engine's full price table this never happens. -/
def executeSellsForPlayer (s : GState) (pid : String) (sel : Selection) : GState :=
  match getPlayer s pid with
  | none => s
  | some _ =>
    let r := sel.cardsToSell.foldl (fun (acc : GState × Option Int) cid =>
      let rm := removeCardFromHand acc.1 pid cid
      match rm.1 with
      | some card =>
        let st := { rm.2 with resourceDeck := discardCards rm.2.resourceDeck [card] }
        let bonus := ((getPlayer st pid).map (fun p => p.sellBonus)).getD 0
        match lookupPrice st.stockPrices card.color with
        | some price =>
          let salePrice := if bonus > 0 then price + bonus else price
          (st, acc.2.map (fun e => e + salePrice))
        | none => (st, none)
      | none => (rm.2, acc.2)) (s, some 0)
    let s := r.1
    let s :=
      match r.2 with
      | some earnings => if earnings > 0 then adjustPlayerCash s pid earnings else s
      | none => s
    { s with players := updateFirstPlayer s.players pid (fun p =>
        if p.sellBonus > 0 then { p with sellBonus := 0 } else p) }

/-- `executeSells`: run every player's committed selection in slot order. -/
def executeSells (s : GState) : GState :=
  match s.phaseState.sell with
  | none => s
  | some sell =>
    sell.playerSelections.foldl (fun st kv => executeSellsForPlayer st kv.1 kv.2) s

/-- `commitSell`: latch the player's committed flag; when that makes
every selection committed, latch `allCommitted` and execute all sells. -/
def commitSell (s : GState) (pid : String) : GState :=
  match s.phaseState.sell with
  | none => s
  | some sell =>
    match lookupSelection sell.playerSelections pid with
    | none => s
    | some _ =>
      let sels := updateSelection sell.playerSelections pid (fun sel => { sel with committed := true })
      let allC := sels.all (fun kv => kv.2.committed)
      if allC then
        executeSells (setSell s (some { sell with playerSelections := sels, allCommitted := true }))
      else
        setSell s (some { sell with playerSelections := sels })

/-- `areAllCommitted`. -/
def areAllCommitted (s : GState) : Bool :=
  match s.phaseState.sell with
  | none => false
  | some sell => sell.allCommitted

/-! ### Reward system (src/src/core/EventEmitter.js, RewardSystem) -/

/-- The JS fallback `rewardParsed.amount || 1`: an absent or zero (falsy)
amount becomes 1. -/
def amountOr1 (a : Option Int) : Int :=
  match a with
  | some v => if v = 0 then 1 else v
  | none => 1

/-- `executeGainCash`. -/
def executeGainCash (s : GState) (pid : String) (amount : Int) : GState :=
  adjustPlayerCash s pid amount

/-- `executeSellBonus`: record the per-round sell bonus on the player.
(The JS writes through the `getPlayer` reference, i.e. the first match.) -/
def executeSellBonus (s : GState) (pid : String) (bonus : Int) : GState :=
  { s with players := updateFirstPlayer s.players pid (fun p => { p with sellBonus := bonus }) }

/-- Remove the first draw-pile card of a color (the JS filters the pile
by color, takes element 0 and splices it out by position). -/
def removeFirstOfColorFromDraw (d : Deck) (c : Color) : Option RCard × Deck :=
  let r := removeFirstOfColor d.drawPile c 1
  match r.1 with
  | [card] => (some card, { d with drawPile := r.2 })
  | _ => (none, d)

/-- `executeGainLowestStock`: pick one of the lowest-priced colors
(`rand` stands for the `Math.random()` draw) and move the first
draw-pile card of that color into the player's hand, if any. -/
def executeGainLowestStock (s : GState) (pid : String) (rand : Nat) : GState :=
  let lowestColors := getLowestPriceColors s.stockPrices
  match lowestColors.get? (rand % lowestColors.length) with
  | none => s
  | some color =>
    let r := removeFirstOfColorFromDraw s.resourceDeck color
    match r.1 with
    | some card => addCardToHand { s with resourceDeck := r.2 } pid card
    | none => s

/-- Reward kinds that read player-supplied choices in their body. -/
def choiceReadingKinds : List String :=
  ["steal_cash", "adjust_stock", "look_at_hand", "peek_and_place",
   "swap_with_deck", "rearrange_top_5", "take_and_give_card", "buy_with_discount"]

/-- `executeReward` called with `choices = null`, the shape used from
`initiateRewardExecution`: a reward flagged as requiring a target or a
choice returns "not executed" (`none`), and the remaining kinds execute
synchronously.  The kinds in `choiceReadingKinds` dereference the null
choices object when their flags are unset — a fault in the JS — so this
model maps them to `none` and every theorem touching this path assumes
a well-formed reward (flags set whenever the kind reads choices). -/
def executeRewardNoChoice (s : GState) (pid : String) (r : RewardParsed) (rand : Nat) :
    Option GState :=
  if r.requiresTarget || r.requiresChoice then none
  else if r.rtype = "gain_cash" then some (executeGainCash s pid (amountOr1 r.amount))
  else if r.rtype = "sell_bonus" then
    some (executeSellBonus s pid (match r.bonus with | some b => if b = 0 then 1 else b | none => 1))
  else if r.rtype = "gain_lowest_stock" then some (executeGainLowestStock s pid rand)
  else if choiceReadingKinds.contains r.rtype then none
  else some s

/-! ### Goal resolution manager (src/unnamed/part_005, GoalResolutionManager) -/

/-- A reward is well formed when either it is flagged as needing input
or its kind does not read the choices object (external data contract of
the pre-parsed reward facet). -/
def rewardWellFormed (r : RewardParsed) : Prop :=
  r.requiresTarget = true ∨ r.requiresChoice = true ∨
    ¬ choiceReadingKinds.contains r.rtype

instance (r : RewardParsed) : Decidable (rewardWellFormed r) := by
  unfold rewardWellFormed; infer_instance

/-- The `choices` object of an EXECUTE_REWARD action, with one field per
read the handlers perform.  A JS action may omit fields; an absent field
either behaves like a non-matching value (ids, colors, placements - all
covered by quantifying over every field value) or makes the handler
fault before any mutation, leaving the state unchanged. -/
structure RewardChoices where
  targetPlayerId : String
  color : Color
  direction : Int
  placement : String
  cardId : String
  newOrder : List String
  cardIdToGive : String
deriving DecidableEq, Repr

/-- `executeStealCash`: cap at the target's cash, debit target, credit
executor.  (With a target id matching no player the JS faults on
`target.cash` before any mutation.) -/
def executeStealCash (s : GState) (pid targetPid : String) (amount : Int) : GState :=
  match getPlayer s targetPid with
  | none => s
  | some target =>
    let actualAmount := min amount target.cash
    adjustPlayerCash (adjustPlayerCash s targetPid (-actualAmount)) pid actualAmount

/-- `executeAdjustStock`: apply a single-color delta through the market
(`{[color]: direction}`). -/
def executeAdjustStock (s : GState) (color : Color) (direction : Int) : GState :=
  { s with stockPrices := applyChanges s.config s.stockPrices [(color, direction)] }

/-- `executePeekAndPlace`: on "bottom" move the top draw-pile card to the
bottom; any other placement (including "top") leaves the pile alone. -/
def executePeekAndPlace (s : GState) (placement : String) : GState :=
  match s.resourceDeck.drawPile with
  | [] => s
  | top :: rest =>
    if placement = "bottom" then
      { s with resourceDeck := { s.resourceDeck with drawPile := rest ++ [top] } }
    else s

/-- `executeSwapWithDeck`: splice the chosen card out of the hand; on an
empty deck (swapWithTop throws, caught) put it back, otherwise exchange
it with the top draw-pile card. -/
def executeSwapWithDeck (s : GState) (pid cid : String) : GState :=
  let r := removeCardFromHand s pid cid
  match r.1 with
  | none => r.2
  | some cardFromHand =>
    match r.2.resourceDeck.drawPile with
    | [] => addCardToHand r.2 pid cardFromHand
    | topCard :: rest =>
      addCardToHand { r.2 with resourceDeck := { r.2.resourceDeck with drawPile := cardFromHand :: rest } } pid topCard

/-- `executeRearrangeTop5`: run `rearrangeTop` and swallow its errors
(the JS try/catch only warns). -/
def executeRearrangeTop5 (s : GState) (newOrder : List String) : GState :=
  match rearrangeTop s.resourceDeck newOrder with
  | Except.ok d => { s with resourceDeck := d }
  | Except.error _ => s

/-- `executeTakeAndGiveCard`: take the card at a random index of the
target's hand (`rand` models `Math.random()`), removing it by id, give
it to the executor, then move the chosen give-back card (if owned) to
the target.  A missing target or an empty target hand is a no-op. -/
def executeTakeAndGiveCard (s : GState) (pid : String) (ch : RewardChoices) (rand : Nat) :
    GState :=
  match getPlayer s ch.targetPlayerId with
  | none => s
  | some target =>
    match target.hand.get? (rand % target.hand.length) with
    | none => s
    | some takenCard =>
      let s1 := (removeCardFromHand s ch.targetPlayerId takenCard.id).2
      let s2 := addCardToHand s1 pid takenCard
      let r := removeCardFromHand s2 pid ch.cardIdToGive
      match r.1 with
      | some cardToGive => addCardToHand r.2 ch.targetPlayerId cardToGive
      | none => r.2

/-- `executeBuyWithDiscount`: when the player can afford
`max 0 (price - discount)`, move the first draw-pile card of the color
into the hand and debit the discounted price.  A color missing from the
price map makes the JS price `NaN`: the affordability comparison is
then false so the purchase proceeds, and `cash + -NaN` poisons only the
cash (modelled as a 0 debit here - `Int` has no `NaN`; the engine's
price table covers every color, and the claims over this path concern
cards). -/
def executeBuyWithDiscount (s : GState) (pid : String) (color : Color) (discount : Int) :
    GState :=
  match getPlayer s pid with
  | none => s
  | some player =>
    match lookupPrice s.stockPrices color with
    | some price =>
      let discountedPrice := max 0 (price - discount)
      if player.cash < discountedPrice then s
      else
        let r := removeFirstOfColorFromDraw s.resourceDeck color
        match r.1 with
        | some card =>
          adjustPlayerCash (addCardToHand { s with resourceDeck := r.2 } pid card) pid
            (-discountedPrice)
        | none => s
    | none =>
      let r := removeFirstOfColorFromDraw s.resourceDeck color
      match r.1 with
      | some card => adjustPlayerCash (addCardToHand { s with resourceDeck := r.2 } pid card) pid 0
      | none => s

/-- `RewardSystem.executeReward` called with a (non-null) choices
object, the shape used by the EXECUTE_REWARD action: the flags guard
passes and every switch arm runs and reports executed. -/
def executeRewardWithChoices (s : GState) (pid : String) (r : RewardParsed)
    (ch : RewardChoices) (rand : Nat) : GState :=
  if r.rtype = "gain_cash" then executeGainCash s pid (amountOr1 r.amount)
  else if r.rtype = "steal_cash" then executeStealCash s pid ch.targetPlayerId (amountOr1 r.amount)
  else if r.rtype = "adjust_stock" then executeAdjustStock s ch.color ch.direction
  else if r.rtype = "look_at_hand" then s
  else if r.rtype = "peek_and_place" then executePeekAndPlace s ch.placement
  else if r.rtype = "swap_with_deck" then executeSwapWithDeck s pid ch.cardId
  else if r.rtype = "rearrange_top_5" then executeRearrangeTop5 s ch.newOrder
  else if r.rtype = "take_and_give_card" then executeTakeAndGiveCard s pid ch rand
  else if r.rtype = "buy_with_discount" then
    executeBuyWithDiscount s pid ch.color (match r.discount with | some d => if d = 0 then 1 else d | none => 1)
  else if r.rtype = "sell_bonus" then
    executeSellBonus s pid (match r.bonus with | some b => if b = 0 then 1 else b | none => 1)
  else if r.rtype = "gain_lowest_stock" then executeGainLowestStock s pid rand
  else s

/-- `initializeGoalResolution`. -/
def initGoalResolution (s : GState) : GState :=
  setGoalRes s (some { currentPlayerIndex := 0, revealedGoals := [], pendingRewardExecution := none })

/-- `advanceToNextPlayer`: bump the goal-resolution turn pointer. -/
def advanceToNextPlayer (s : GState) : GState :=
  match s.phaseState.goalResolution with
  | none => s
  | some gr => setGoalRes s (some { gr with currentPlayerIndex := gr.currentPlayerIndex + 1 })

/-- The `find` in `completeRewardExecution`: mark the first reveal
record of this player that has not executed its reward. -/
def markFirstUnexecuted (pid : String) : List RevealedGoal → List RevealedGoal
  | [] => []
  | g :: rest =>
    if g.playerId = pid ∧ ¬g.rewardExecuted then { g with rewardExecuted := true } :: rest
    else g :: markFirstUnexecuted pid rest

/-- `completeRewardExecution`: mark the player's first unexecuted reveal
record as executed, clear the pending slot, and advance the turn. -/
def completeRewardExecution (s : GState) (pid : String) : GState :=
  match s.phaseState.goalResolution with
  | none => s
  | some gr =>
    let s := setGoalRes s (some { gr with
      revealedGoals := markFirstUnexecuted pid gr.revealedGoals
      pendingRewardExecution := none })
    advanceToNextPlayer s

/-- `initiateRewardExecution`: try the reward without choices; on
success complete it, otherwise park it in the pending slot. -/
def initiateRewardExecution (s : GState) (pid : String) (gcard : GoalCard) (rand : Nat) : GState :=
  match executeRewardNoChoice s pid gcard.rewardParsed rand with
  | some s1 => completeRewardExecution s1 pid
  | none =>
    match s.phaseState.goalResolution with
    | none => s
    | some gr =>
      let pending : PendingReward :=
        { playerId := pid, rewardType := gcard.rewardParsed.rtype, goalCard := gcard }
      setGoalRes s (some { gr with pendingRewardExecution := some pending })

/-- `GoalResolutionManager.executeReward` (the EXECUTE_REWARD action):
run the pending reward with the supplied choices, then complete it.
With a populated choices object every reward kind executes, so the
completion always follows.  (A null-choices action either waits - flags
set, executed = false - or faults dereferencing the null choices before
any mutation; both leave the state unchanged.  A null goal-resolution
slot faults on the `pendingRewardExecution` read; validated actions
reach this only with the slot populated.) -/
def executeRewardAction (s : GState) (pid : String) (ch : RewardChoices) (rand : Nat) :
    GState :=
  match s.phaseState.goalResolution with
  | none => s
  | some gr =>
    match gr.pendingRewardExecution with
    | none => s
    | some pending =>
      let s1 := executeRewardWithChoices s pid pending.goalCard.rewardParsed ch rand
      completeRewardExecution s1 pid

/-- `applyStockChange`: apply the card's market deltas when the card
carries a non-empty delta map. -/
def applyStockChange (s : GState) (gcard : GoalCard) : GState :=
  if gcard.stockChangeParsed ≠ [] then
    { s with stockPrices := applyChanges s.config s.stockPrices gcard.stockChangeParsed }
  else s

/-- Flip the revealed flag of the player's first goal card with this id. -/
def setGoalRevealed (s : GState) (pid gid : String) : GState :=
  { s with players := updateFirstPlayer s.players pid (fun p =>
      { p with goalCards :=
          p.goalCards.map (fun g => if g.id = gid then { g with revealed := true } else g) }) }

/-- `revealGoal`: mark the card revealed, apply its market effect
immediately, check the owner's current hand against the goal
requirement, record the reveal, then either begin reward execution (goal
met) or advance the turn directly.  `rand` feeds any randomized
synchronous reward.  (JS mutation of the shared card object is modelled
by updating the card in the hand and using the updated copy locally;
`find` returns the first id match, so `setGoalRevealed` flips all and
`find?` reads the first — identical for the unique ids the loader
generates.) -/
def revealGoal (s : GState) (pid gid : String) (rand : Nat) : GState :=
  match getPlayer s pid with
  | none => s
  | some player =>
    match player.goalCards.find? (fun g => g.id = gid) with
    | none => s
    | some gcard0 =>
      let gcard := { gcard0 with revealed := true }
      let s := setGoalRevealed s pid gid
      let s := applyStockChange s gcard
      let goalMet := checkGoal gcard player.hand
      let s :=
        match s.phaseState.goalResolution with
        | none => s
        | some gr =>
          setGoalRes s (some { gr with revealedGoals := gr.revealedGoals ++
            [{ playerId := pid, goalCard := gcard, goalMet := goalMet, rewardExecuted := false }] })
      if goalMet then initiateRewardExecution s pid gcard rand
      else advanceToNextPlayer s

/-- `isGoalResolutionComplete`. -/
def isGoalResolutionComplete (s : GState) : Bool :=
  match s.phaseState.goalResolution with
  | none => false
  | some gr =>
    gr.currentPlayerIndex ≥ s.players.length ∧ gr.pendingRewardExecution.isNone

/-! ### Validation system (src/src/systems/ValidationSystem.js)

Each validator is a Boolean predicate mirroring the JS rule chain;
`true` means "valid".  Reading a null phase slot would fault in JS; the
model returns `false` there (the engine only reaches the read with the
slot populated, and a fault certainly does not validate the action). -/

/-- `validateBid`. -/
def validateBid (s : GState) (pid : String) (amount : Int) : Bool :=
  s.currentPhase = phaseAuction &&
    match getPlayer s pid with
    | none => false
    | some player =>
      match s.phaseState.auction with
      | none => false
      | some au =>
        au.activeBidders.contains pid &&
        amount > au.currentBid &&
        player.cash ≥ amount

/-- `validatePass`. -/
def validatePass (s : GState) (pid : String) : Bool :=
  s.currentPhase = phaseAuction &&
    match s.phaseState.auction with
    | none => false
    | some au => au.activeBidders.contains pid

/-- `validateTradeAcceptance`.  The JS truthiness guards become "≠ 0"
for cash and unconditional iteration for the (always-present) card
requirement array. -/
def validateTradeAcceptance (s : GState) (pid oid : String) : Bool :=
  s.currentPhase = phaseTrading &&
    match getPlayer s pid with
    | none => false
    | some player =>
      match s.phaseState.trading with
      | none => false
      | some tr =>
        match tr.activeOffers.find? (fun o => o.offerId = oid) with
        | none => false
        | some offer =>
          offer.status = statusActive &&
          offer.offeringPlayer ≠ pid &&
          !(offer.requestingCash ≠ 0 && player.cash < offer.requestingCash) &&
          offer.requestingCards.all (fun rq => countColor player.hand rq.1 ≥ rq.2)

/-- `validateGoalReveal`. -/
def validateGoalReveal (s : GState) (pid gid : String) : Bool :=
  s.currentPhase = phaseGoalResolution &&
    match getPlayer s pid with
    | none => false
    | some player =>
      match s.phaseState.goalResolution with
      | none => false
      | some gr =>
        s.turnOrder.get? gr.currentPlayerIndex = some pid &&
        match player.goalCards.find? (fun g => g.id = gid) with
        | none => false
        | some gcard => !gcard.revealed

/-- `validateRewardExecution`: phase, a pending reward, and that the
pending reward belongs to the acting player.  The choices object is not
inspected ("Additional validation would be reward-type specific"). -/
def validateRewardExecution (s : GState) (pid : String) : Bool :=
  s.currentPhase = phaseGoalResolution &&
    match s.phaseState.goalResolution with
    | none => false
    | some gr =>
      match gr.pendingRewardExecution with
      | none => false
      | some pending => pending.playerId = pid

/-- `validateSellSelection`: phase, player existence and card ownership
only — the committed flag is never consulted. -/
def validateSellSelection (s : GState) (pid : String) (cardIds : List String) : Bool :=
  s.currentPhase = phaseSell &&
    match getPlayer s pid with
    | none => false
    | some player =>
      cardIds.all (fun cid => player.hand.any (fun c => c.id = cid))

/-- `validateSellCommit`. -/
def validateSellCommit (s : GState) (pid : String) : Bool :=
  s.currentPhase = phaseSell &&
    match s.phaseState.sell with
    | none => false
    | some sell =>
      match lookupSelection sell.playerSelections pid with
      | none => false
      | some sel => !sel.committed

/-! ### Phase director (src/unnamed/part_007, TurnSystem) and action
dispatch (src/src/utils/Constants.js, GameEngine.executeAction). -/

/-- `TradingManager.isTimeExpired`. -/
def isTimeExpired (s : GState) : Bool :=
  match s.phaseState.trading with
  | none => false
  | some tr => tr.timeRemaining ≤ 0

/-- `canAdvancePhase`. -/
def canAdvancePhase (s : GState) : Bool :=
  if s.currentPhase = phaseAuction then isAuctionComplete s
  else if s.currentPhase = phaseTrading then isTimeExpired s
  else if s.currentPhase = phaseGoalResolution then isGoalResolutionComplete s
  else if s.currentPhase = phaseSell then areAllCommitted s
  else false

/-- `getNextPhase` (null = round complete). -/
def getNextPhase (phase : String) : Option String :=
  if phase = phaseAuction then some phaseTrading
  else if phase = phaseTrading then some phaseGoalResolution
  else if phase = phaseGoalResolution then some phaseSell
  else none

/-- `cleanupPhase`: null out the slot of the phase being left. -/
def cleanupPhase (s : GState) (phase : String) : GState :=
  if phase = phaseAuction then setAuction s none
  else if phase = phaseTrading then setTrading s none
  else if phase = phaseGoalResolution then setGoalRes s none
  else if phase = phaseSell then setSell s none
  else s

/-- `initializePhase`. -/
def initPhase (s : GState) (phase : String) : GState :=
  if phase = phaseAuction then initAuction s
  else if phase = phaseTrading then initTrading s
  else if phase = phaseGoalResolution then initGoalResolution s
  else if phase = phaseSell then initSell s
  else s

/-- `transitionToPhase`: cleanup the old slot, set the phase, run the
new phase's initializer. -/
def transitionToPhase (s : GState) (phase : String) : GState :=
  let s := cleanupPhase s s.currentPhase
  let s := { s with currentPhase := phase }
  initPhase s phase

/-- `GameState.advanceRound`. -/
def advanceRound (s : GState) : GState :=
  { s with
    currentRound := s.currentRound + 1
    dealerIndex := (s.dealerIndex + 1) % s.players.length }

/-- `TurnSystem.endGame`. -/
def endGame (s : GState) : GState :=
  { s with status := "completed" }

/-- `completeRound`: next round (back to auction) or game over. -/
def completeRound (s : GState) : GState :=
  if s.currentRound < s.config.totalRounds then
    transitionToPhase (advanceRound s) phaseAuction
  else endGame s

/-- `advancePhase`. -/
def advancePhase (s : GState) : GState :=
  match getNextPhase s.currentPhase with
  | none => completeRound s
  | some next => transitionToPhase s next

/-- The auto-advance step at the end of `GameEngine.executeAction`. -/
def autoAdvance (s : GState) : GState :=
  if canAdvancePhase s then advancePhase s else s

/-- `TurnSystem.manuallyEndPhase` (END_TRADING action). -/
def manuallyEndPhase (s : GState) : GState :=
  if s.currentPhase = phaseTrading then advancePhase s else s

/-! ### Player-scoped filtered view (GameState.filterForPlayer,
src/src/utils/Constants.js lines 453-480).

The JS replaces other players' hand cards by the literal record
`{type:'resource', color:'hidden'}` and their unrevealed goal cards by
`{type:'goal', revealed:false}`; an own or revealed card is spread
unchanged.  The view therefore holds values of a different shape than
the true state, modelled by the two view-card types below. -/

/-- A resource card as it appears in a filtered view. -/
inductive ViewResCard where
  | shown (c : RCard)
  | hiddenCard
deriving DecidableEq, Repr

/-- A goal card as it appears in a filtered view. -/
inductive ViewGoalCard where
  | shown (g : GoalCard)
  | hiddenUnrevealed
deriving DecidableEq, Repr

/-- One player row of the filtered view. -/
structure ViewPlayer where
  id : String
  name : String
  cash : Int
  sellBonus : Int
  hand : List ViewResCard
  goalCards : List ViewGoalCard
deriving DecidableEq, Repr

/-- The filtered state handed to a client. -/
structure ViewState where
  currentPhase : String
  stockPrices : List (Color × Int)
  players : List ViewPlayer
  drawPileHidden : List ViewResCard
  discardPile : List RCard
  goalDeckUndealtCount : Nat
deriving DecidableEq, Repr

/-- `filterForPlayer`: own cards in full; other players' hands replaced
per card by the opaque hidden marker (count preserved); other players'
goal cards shown only when revealed; the draw pile fully redacted; the
discard pile public; the undealt goal deck reduced to its count. -/
def filterForPlayer (s : GState) (pid : String) : ViewState :=
  { currentPhase := s.currentPhase
    stockPrices := s.stockPrices
    players := s.players.map (fun p =>
      if p.id = pid then
        { id := p.id
          name := p.name
          cash := p.cash
          sellBonus := p.sellBonus
          hand := p.hand.map ViewResCard.shown
          goalCards := p.goalCards.map ViewGoalCard.shown }
      else
        { id := p.id
          name := p.name
          cash := p.cash
          sellBonus := p.sellBonus
          hand := p.hand.map (fun _ => ViewResCard.hiddenCard)
          goalCards := p.goalCards.map (fun g =>
            if g.revealed then ViewGoalCard.shown g else ViewGoalCard.hiddenUnrevealed) })
    drawPileHidden := s.resourceDeck.drawPile.map (fun _ => ViewResCard.hiddenCard)
    discardPile := s.resourceDeck.discardPile
    goalDeckUndealtCount := s.goalDeckUndealt.length }

/-! ### Validated action steps at `GameEngine.executeAction`
granularity: validate, dispatch to the manager, then auto-advance the
phase when its completion predicate holds. -/

/-- PLACE_BID step. -/
def stepBid (s : GState) (pid : String) (amount : Int) : GState :=
  autoAdvance (placeBid s pid amount)

/-- PASS step. -/
def stepPass (s : GState) (pid : String) : GState :=
  autoAdvance (passAction s pid)

/-- PROPOSE_TRADE step. -/
def stepProposeTrade (s : GState) (oid pid : String) (offeringCards : List String)
    (offeringCash : Int) (requestingCards : List (Color × Nat)) (requestingCash : Int) : GState :=
  autoAdvance (proposeTrade s oid pid offeringCards offeringCash requestingCards requestingCash)

/-- ACCEPT_TRADE step. -/
def stepAcceptTrade (s : GState) (pid oid : String) : GState :=
  autoAdvance (acceptTrade s pid oid)

/-- CANCEL_TRADE step. -/
def stepCancelTrade (s : GState) (oid : String) : GState :=
  autoAdvance (cancelTrade s oid)

/-- END_TRADING step. -/
def stepEndTrading (s : GState) : GState :=
  autoAdvance (manuallyEndPhase s)

/-- REVEAL_GOAL step. -/
def stepRevealGoal (s : GState) (pid gid : String) (rand : Nat) : GState :=
  autoAdvance (revealGoal s pid gid rand)

/-- EXECUTE_REWARD step. -/
def stepExecuteReward (s : GState) (pid : String) (ch : RewardChoices) (rand : Nat) : GState :=
  autoAdvance (executeRewardAction s pid ch rand)

/-- SELECT_CARDS_TO_SELL step. -/
def stepSelectCards (s : GState) (pid : String) (cardIds : List String) : GState :=
  autoAdvance (selectCardsToSell s pid cardIds)

/-- COMMIT_SELL step. -/
def stepCommitSell (s : GState) (pid : String) : GState :=
  autoAdvance (commitSell s pid)

/-- One validated engine action: every arm of
`GameEngine.dispatchAction`, each guarded by its
`ValidationSystem` predicate.  The EXECUTE_REWARD arm quantifies over
every choices object; a null-choices action never changes the state
(see `executeRewardAction`) and so adds no transition beyond
reflexivity. -/
inductive Step : GState → GState → Prop where
  | bid (s : GState) (pid : String) (amount : Int)
      (hv : validateBid s pid amount = true) :
      Step s (stepBid s pid amount)
  | pass (s : GState) (pid : String)
      (hv : validatePass s pid = true) :
      Step s (stepPass s pid)
  | proposeTrade (s : GState) (oid pid : String) (offeringCards : List String)
      (offeringCash : Int) (requestingCards : List (Color × Nat)) (requestingCash : Int)
      (hphase : s.currentPhase = phaseTrading)
      (hplayer : (getPlayer s pid).isSome) :
      Step s (stepProposeTrade s oid pid offeringCards offeringCash requestingCards requestingCash)
  | acceptTrade (s : GState) (pid oid : String)
      (hv : validateTradeAcceptance s pid oid = true) :
      Step s (stepAcceptTrade s pid oid)
  | cancelTrade (s : GState) (oid : String)
      (hphase : s.currentPhase = phaseTrading) :
      Step s (stepCancelTrade s oid)
  | endTrading (s : GState) :
      Step s (stepEndTrading s)
  | revealGoal (s : GState) (pid gid : String) (rand : Nat)
      (hv : validateGoalReveal s pid gid = true) :
      Step s (stepRevealGoal s pid gid rand)
  | executeReward (s : GState) (pid : String) (ch : RewardChoices) (rand : Nat)
      (hv : validateRewardExecution s pid = true) :
      Step s (stepExecuteReward s pid ch rand)
  | selectCards (s : GState) (pid : String) (cardIds : List String)
      (hv : validateSellSelection s pid cardIds = true) :
      Step s (stepSelectCards s pid cardIds)
  | commitSell (s : GState) (pid : String)
      (hv : validateSellCommit s pid = true) :
      Step s (stepCommitSell s pid)

/-- Reachability by validated actions. -/
def Reach : GState → GState → Prop := Relation.ReflTransGen Step

/-- The provisos under which an EXECUTE_REWARD action conserves cards:
the rearrange order repeats no id (a duplicated id makes
`rearrangeTop` silently drop one top card and duplicate another - see
the counterexample), the acting player exists (guaranteed by the
engine: pendings are parked only by validated reveals), and the
take-and-give target's hand has duplicate-free card ids (guaranteed by
the loader's unique card ids; `takeAndGiveCard` picks a card by index
but removes by id). -/
def RewardChoicesOK (s : GState) (pid : String) (ch : RewardChoices) : Prop :=
  ch.newOrder.Nodup ∧ (getPlayer s pid).isSome = true ∧
    (∀ t, getPlayer s ch.targetPlayerId = some t → (t.hand.map (fun c => c.id)).Nodup)

/-- A conservative validated action: exactly the arms of `Step`, with
the EXECUTE_REWARD arm additionally required to satisfy
`RewardChoicesOK`.  Every `CStep` is a `Step`; the restriction is what
card conservation needs (and, per the counterexample, is necessary). -/
inductive CStep : GState → GState → Prop where
  | bid (s : GState) (pid : String) (amount : Int)
      (hv : validateBid s pid amount = true) :
      CStep s (stepBid s pid amount)
  | pass (s : GState) (pid : String)
      (hv : validatePass s pid = true) :
      CStep s (stepPass s pid)
  | proposeTrade (s : GState) (oid pid : String) (offeringCards : List String)
      (offeringCash : Int) (requestingCards : List (Color × Nat)) (requestingCash : Int)
      (hphase : s.currentPhase = phaseTrading)
      (hplayer : (getPlayer s pid).isSome) :
      CStep s (stepProposeTrade s oid pid offeringCards offeringCash requestingCards requestingCash)
  | acceptTrade (s : GState) (pid oid : String)
      (hv : validateTradeAcceptance s pid oid = true) :
      CStep s (stepAcceptTrade s pid oid)
  | cancelTrade (s : GState) (oid : String)
      (hphase : s.currentPhase = phaseTrading) :
      CStep s (stepCancelTrade s oid)
  | endTrading (s : GState) :
      CStep s (stepEndTrading s)
  | revealGoal (s : GState) (pid gid : String) (rand : Nat)
      (hv : validateGoalReveal s pid gid = true) :
      CStep s (stepRevealGoal s pid gid rand)
  | executeReward (s : GState) (pid : String) (ch : RewardChoices) (rand : Nat)
      (hv : validateRewardExecution s pid = true)
      (hok : RewardChoicesOK s pid ch) :
      CStep s (stepExecuteReward s pid ch rand)
  | selectCards (s : GState) (pid : String) (cardIds : List String)
      (hv : validateSellSelection s pid cardIds = true) :
      CStep s (stepSelectCards s pid cardIds)
  | commitSell (s : GState) (pid : String)
      (hv : validateSellCommit s pid = true) :
      CStep s (stepCommitSell s pid)

/-- Reachability by conservative validated actions. -/
def CReach : GState → GState → Prop := Relation.ReflTransGen CStep

/-! ### Card-conservation bookkeeping (claim C1) -/

/-- Auction cards drawn but not yet won or discarded: the queue from the
current card on. -/
def auctionPendingCards (s : GState) : List RCard :=
  match s.phaseState.auction with
  | none => []
  | some au => au.cardsToAuction.drop au.currentCardIndex

/-- Multiset of all cards held in hands. -/
def handsMS (ps : List Player) : Multiset RCard :=
  (ps.map (fun p => (p.hand : Multiset RCard))).sum

/-- The multiset of resource cards over the three spec locations:
all hands, the draw pile and the discard pile. -/
def threeLocCards (s : GState) : Multiset RCard :=
  handsMS s.players
    + (s.resourceDeck.drawPile : Multiset RCard)
    + (s.resourceDeck.discardPile : Multiset RCard)

/-- The multiset of resource cards over all four locations, counting the
pending auction queue as well. -/
def allCards (s : GState) : Multiset RCard :=
  threeLocCards s + (auctionPendingCards s : Multiset RCard)

/-- Auxiliary well-formedness that the engine maintains and that the
conservation argument leans on:
* the auction's current card is the queue entry at the current index;
* every active bidder and the current high bidder name existing players;
* every trade offer was proposed by an existing player;
* outside the auction phase the auction queue holds no pending card (the
  slot is stale: either cleaned up or fully resolved). -/
structure WF (s : GState) : Prop where
  auctionCard : ∀ au, s.phaseState.auction = some au →
    au.currentCard = au.cardsToAuction.get? au.currentCardIndex
  auctionBidders : ∀ au, s.phaseState.auction = some au →
    ∀ pid ∈ au.activeBidders, (getPlayer s pid).isSome
  auctionHigh : ∀ au, s.phaseState.auction = some au →
    ∀ pid, au.currentHighBidder = some pid → (getPlayer s pid).isSome
  offersProposer : ∀ tr, s.phaseState.trading = some tr →
    ∀ o ∈ tr.activeOffers, (getPlayer s o.offeringPlayer).isSome
  auctionStale : s.currentPhase ≠ phaseAuction → auctionPendingCards s = []

/-! ### Further definitions used by the claim statements -/

/-- `GameState.calculatePlayerWealth`: cash plus the current price of
every priced card in hand (unpriced colors are skipped). -/
def calculatePlayerWealth (s : GState) (pid : String) : Int :=
  match getPlayer s pid with
  | none => 0
  | some p => p.cash + calculateCardValue p.hand s.stockPrices

/-- A price within the configured floor/ceiling band:
within `[floor, ceiling]` with a ceiling configured, within
`[floor, ∞)` without one. -/
def priceInRange (cfg : Config) (p : Int) : Prop :=
  cfg.minStockPrice ≤ p ∧
    match cfg.maxStockPrice with
    | some mx => p ≤ mx
    | none => True

instance (cfg : Config) (p : Int) : Decidable (priceInRange cfg p) :=
  match hmx : cfg.maxStockPrice with
  | some mx =>
    decidable_of_iff (cfg.minStockPrice ≤ p ∧ p ≤ mx) (by unfold priceInRange; rw [hmx])
  | none =>
    decidable_of_iff (cfg.minStockPrice ≤ p) (by unfold priceInRange; rw [hmx]; simp)

/-- Every price of the map within the band. -/
def pricesInRange (cfg : Config) (prices : List (Color × Int)) : Prop :=
  ∀ kv ∈ prices, priceInRange cfg kv.2

instance (cfg : Config) (prices : List (Color × Int)) : Decidable (pricesInRange cfg prices) := by
  unfold pricesInRange
  exact List.decidableBAll (fun kv => priceInRange cfg kv.2) prices

/-- Largest player cash clamped to ℕ — the ceiling no validated bid can
exceed while hands and cash are untouched. -/
def maxCashNat (s : GState) : Nat :=
  (s.players.map (fun p => p.cash.toNat)).foldr max 0

/-- Termination measure for the bidding on one card: active bidders
weighted above the remaining head-room of the strictly increasing bid. -/
def auctionMeasure (s : GState) : Nat :=
  match s.phaseState.auction with
  | none => 0
  | some au =>
    au.activeBidders.length * (maxCashNat s + 1) + ((maxCashNat s : Int) - au.currentBid).toNat

/-- A validated bid or pass step (the only auction-phase actions). -/
inductive AuctionStep : GState → GState → Prop where
  | bid (s : GState) (pid : String) (amount : Int)
      (hv : validateBid s pid amount = true) :
      AuctionStep s (stepBid s pid amount)
  | pass (s : GState) (pid : String)
      (hv : validatePass s pid = true) :
      AuctionStep s (stepPass s pid)

/-- Both states are bidding on the same queued card: the auction
sub-state is present on each side with an unchanged card index. -/
def SameCardOpen (s s' : GState) : Prop :=
  ∃ au au', s.phaseState.auction = some au ∧ s'.phaseState.auction = some au' ∧
    au'.currentCardIndex = au.currentCardIndex

/-! ### Concrete fixtures used by counterexamples and witnesses -/

/-- The default configuration (DEFAULT_CONFIG). -/
def cfg0 : Config :=
  { minStockPrice := 0
    maxStockPrice := none
    startingStockPrice := 4
    totalRounds := 3
    tradingDuration := 120000 }

/-- All phase slots empty. -/
def emptyPhase : PhaseState :=
  { auction := none, trading := none, goalResolution := none, sell := none }

/-- A bare player. -/
def mkPlayer (pid : String) (cash : Int) (hand : List RCard) : Player :=
  { id := pid, name := pid, cash := cash, hand := hand, goalCards := [], sellBonus := 0 }

/-- The standard starting price table ($4 per color). -/
def basePrices : List (Color × Int) :=
  [(Color.Blue, 4), (Color.Orange, 4), (Color.Yellow, 4), (Color.Purple, 4)]

/-- A game state around the given players/deck/phase slots. -/
def mkState (phase : String) (players : List Player) (deck : Deck) (ph : PhaseState) : GState :=
  { status := "in_progress"
    currentRound := 1
    currentPhase := phase
    players := players
    stockPrices := basePrices
    resourceDeck := deck
    goalDeckUndealt := []
    phaseState := ph
    turnOrder := players.map (fun p => p.id)
    currentPlayerIndex := 0
    dealerIndex := 0
    config := cfg0 }

/-- A configuration with a price ceiling. -/
def cfgCeil : Config :=
  { minStockPrice := 0
    maxStockPrice := some 10
    startingStockPrice := 4
    totalRounds := 3
    tradingDuration := 120000 }

/-- Sell sub-state fixture for C6: "a" has committed `["h1"]`. -/
def c6Sell : SellState :=
  { playerSelections := [("a", { cardsToSell := ["h1"], committed := true })]
    allCommitted := false }

/-- Sell-phase fixture for C6: player "a" holds two cards and has
already committed the selection `["h1"]`. -/
def c6State : GState :=
  mkState phaseSell
    [mkPlayer "a" 5 [{ id := "h1", color := Color.Blue }, { id := "h2", color := Color.Orange }]]
    { drawPile := [], discardPile := [] }
    { emptyPhase with sell := some c6Sell }

/-- Sell sub-state fixture for the C6 witness: "b" uncommitted. -/
def c6SellW : SellState :=
  { playerSelections := [("b", { cardsToSell := [], committed := false })]
    allCommitted := false }

/-- Sell-phase fixture for the C6 witness: player "b" has not committed. -/
def c6StateW : GState :=
  mkState phaseSell
    [mkPlayer "b" 5 [{ id := "h1", color := Color.Blue }]]
    { drawPile := [], discardPile := [] }
    { emptyPhase with sell := some c6SellW }

/-- Goal-card lists agreeing on every revealed flag and on the full
content of every revealed card (unrevealed contents free). -/
def goalsHiddenEquiv (gs hs : List GoalCard) : Prop :=
  List.Forall₂ (fun g h => g.revealed = h.revealed ∧ (g.revealed = true → g = h)) gs hs

/-- Hands agreeing on card ids position by position (colors free). -/
def handsIdEquiv (h1 h2 : List RCard) : Prop :=
  List.Forall₂ (fun c d => c.id = d.id) h1 h2

/-- Two states that differ only in the colors of players other than
`pid`'s hand cards, or in the contents of those players' unrevealed
goal cards: everything else — including `pid`'s own rows — is equal. -/
def HiddenEquiv (pid : String) (s1 s2 : GState) : Prop :=
  s1.currentPhase = s2.currentPhase ∧
  s1.stockPrices = s2.stockPrices ∧
  s1.resourceDeck = s2.resourceDeck ∧
  s1.goalDeckUndealt = s2.goalDeckUndealt ∧
  List.Forall₂ (fun p q =>
    p.id = q.id ∧ p.name = q.name ∧ p.cash = q.cash ∧ p.sellBonus = q.sellBonus ∧
    (p.id = pid → p = q) ∧
    (p.id ≠ pid → handsIdEquiv p.hand q.hand ∧ goalsHiddenEquiv p.goalCards q.goalCards))
    s1.players s2.players

/-- An unrevealed goal card fixture. -/
def mkGoal (gid : String) (avoid : Color) : GoalCard :=
  { id := gid
    revealed := false
    goalParsed := some (GoalParsed.noneOf avoid)
    stockChangeParsed := [(Color.Blue, 1)]
    rewardParsed :=
      { rtype := "gain_cash", amount := some 1, discount := none, bonus := none
        requiresTarget := false, requiresChoice := false } }

/-- C9 fixture: viewer "a"; other player "b" holds a Blue card and an
unrevealed goal avoiding Orange. -/
def c9State1 : GState :=
  mkState phaseTrading
    [mkPlayer "a" 5 [{ id := "a1", color := Color.Yellow }],
     { mkPlayer "b" 7 [{ id := "b1", color := Color.Blue }] with goalCards := [mkGoal "g1" Color.Orange] }]
    { drawPile := [], discardPile := [] } emptyPhase

/-- C9 fixture: same as `c9State1` except "b"'s hand card is Purple and
"b"'s unrevealed goal avoids Yellow. -/
def c9State2 : GState :=
  mkState phaseTrading
    [mkPlayer "a" 5 [{ id := "a1", color := Color.Yellow }],
     { mkPlayer "b" 7 [{ id := "b1", color := Color.Purple }] with goalCards := [mkGoal "g1" Color.Yellow] }]
    { drawPile := [], discardPile := [] } emptyPhase

/-- The card under auction in the C2 counterexample. -/
def c2Card : RCard := { id := "x1", color := Color.Blue }

/-- Auction sub-state for the C2 counterexample: "a" is the current
high bidder at $3; only "a" and "b" are still active. -/
def c2Auction : AuctionState :=
  { cardsToAuction := [c2Card]
    currentCardIndex := 0
    currentCard := some c2Card
    currentBid := 3
    currentHighBidder := some "a"
    activeBidders := ["a", "b"]
    currentPlayerIndex := 0
    lastRaiserIndex := some 0 }

/-- C2 counterexample fixture around `c2Auction`. -/
def c2State : GState :=
  mkState phaseAuction
    [mkPlayer "a" 5 [], mkPlayer "b" 5 [], mkPlayer "c" 5 []]
    { drawPile := [], discardPile := [] }
    { emptyPhase with auction := some c2Auction }

/-- Auction sub-state for the C2 witness: nobody has bid; "a" and "b"
are active. -/
def c2AuctionW : AuctionState :=
  { cardsToAuction := [c2Card]
    currentCardIndex := 0
    currentCard := some c2Card
    currentBid := 0
    currentHighBidder := none
    activeBidders := ["a", "b"]
    currentPlayerIndex := 0
    lastRaiserIndex := none }

/-- C2 witness fixture: "a" passes, so the sole remaining bidder "b"
wins at $0. -/
def c2StateW : GState :=
  mkState phaseAuction
    [mkPlayer "a" 5 [], mkPlayer "b" 5 [], mkPlayer "c" 5 []]
    { drawPile := [], discardPile := [] }
    { emptyPhase with auction := some c2AuctionW }

/-- The goal card with the given id in the player's collection
(as the reveal flow reads it). -/
def findGoal (s : GState) (pid gid : String) : Option GoalCard :=
  match getPlayer s pid with
  | none => none
  | some p => p.goalCards.find? (fun g => g.id = gid)

/-- C7 fixture goal: market effect {Blue: +2}, requirement "2 Blue",
reward `adjust_stock` (requires a choice, so execution pauses pending
input). -/
def c7Goal : GoalCard :=
  { id := "g1"
    revealed := false
    goalParsed := some (GoalParsed.reqs [(Color.Blue, 2)])
    stockChangeParsed := [(Color.Blue, 2)]
    rewardParsed :=
      { rtype := "adjust_stock", amount := none, discount := none, bonus := none
        requiresTarget := false, requiresChoice := true } }

/-- Fresh goal-resolution sub-state. -/
def c7GoalRes : GoalResState :=
  { currentPlayerIndex := 0, revealedGoals := [], pendingRewardExecution := none }

/-- C7 fixture player: holds exactly 2 Blue cards and the unrevealed
`c7Goal`. -/
def c7PlayerA : Player :=
  { mkPlayer "a" 5 [{ id := "b1", color := Color.Blue }, { id := "b2", color := Color.Blue }] with
      goalCards := [c7Goal] }

/-- C7 fixture: goal-resolution phase, "a" to act first. -/
def c7State : GState :=
  mkState phaseGoalResolution
    [c7PlayerA, mkPlayer "b" 5 [], mkPlayer "c" 5 []]
    { drawPile := [], discardPile := [] }
    { emptyPhase with goalResolution := some c7GoalRes }

/-- C8 fixture cards. -/
def c8Card : RCard := { id := "r1", color := Color.Blue }

def c8Card2 : RCard := { id := "r2", color := Color.Orange }

/-- C8 fixture auction sub-state: three bidders on the first of two
queued cards, nobody has bid yet. -/
def c8Auction : AuctionState :=
  { cardsToAuction := [c8Card, c8Card2]
    currentCardIndex := 0
    currentCard := some c8Card
    currentBid := 0
    currentHighBidder := none
    activeBidders := ["a", "b", "c"]
    currentPlayerIndex := 0
    lastRaiserIndex := none }

/-- C8 fixture state around `c8Auction`. -/
def c8s0 : GState :=
  mkState phaseAuction [mkPlayer "a" 5 [], mkPlayer "b" 5 [], mkPlayer "c" 5 []]
    { drawPile := [], discardPile := [] }
    { emptyPhase with auction := some c8Auction }

/-- The state after "a" opens the bidding at $1 on `c8s0`. -/
def c8s1 : GState := stepBid c8s0 "a" 1

/-- A one-step auction run on `c8s0`. -/
def c8f : Nat → GState := fun n => if n = 0 then c8s0 else c8s1

/-- The market value one card contributes to a hand total (0 when its
color has no price row). -/
def priceOf (prices : List (Color × Int)) (card : RCard) : Int :=
  match lookupPrice prices card.color with
  | some p => p
  | none => 0

/-- C4 counterexample offer: "p" promises $5 (holding only $2) for one
Blue card. -/
def c4Offer : Offer :=
  { offerId := "o1"
    offeringPlayer := "p"
    offeringCards := []
    offeringCash := 5
    requestingCards := [(Color.Blue, 1)]
    requestingCash := 0
    status := "active" }

/-- C4 counterexample state: proposer "p" ($2, empty hand), acceptor
"q" ($3, one Blue card worth $4). -/
def c4State : GState :=
  mkState phaseTrading
    [mkPlayer "p" 2 [], mkPlayer "q" 3 [{ id := "b1", color := Color.Blue }]]
    { drawPile := [], discardPile := [] }
    { emptyPhase with trading := some { activeOffers := [c4Offer], timeRemaining := 100 } }

/-- C4 witness offer: a fully funded trade — one named card plus $1 for
one Blue card plus $1. -/
def c4OfferW : Offer :=
  { offerId := "o1"
    offeringPlayer := "p"
    offeringCards := ["c1"]
    offeringCash := 1
    requestingCards := [(Color.Blue, 1)]
    requestingCash := 1
    status := "active" }

/-- C4 witness state: both participants can fund the trade. -/
def c4StateW : GState :=
  mkState phaseTrading
    [mkPlayer "p" 5 [{ id := "c1", color := Color.Orange }],
     mkPlayer "q" 3 [{ id := "b1", color := Color.Blue }]]
    { drawPile := [], discardPile := [] }
    { emptyPhase with trading := some { activeOffers := [c4OfferW], timeRemaining := 100 } }

/-- Replace one player's hand (the common shape of the hand-splicing
updates). -/
def setHand (s : GState) (pid : String) (h : List RCard) : GState :=
  { s with players := updateFirstPlayer s.players pid (fun q => { q with hand := h }) }

/-- Bookkeeping bundle for the conservation induction: the step from
`s` to `s'` preserves the full card multiset, player existence, the
auction and trading slots and the phase tag. -/
def Pres (s s' : GState) : Prop :=
  allCards s' = allCards s ∧
  (∀ q, (getPlayer s' q).isSome = (getPlayer s q).isSome) ∧
  s'.phaseState.auction = s.phaseState.auction ∧
  s'.phaseState.trading = s.phaseState.trading ∧
  s'.currentPhase = s.currentPhase

/-- C1 fixture card. -/
def c1Card : RCard := { id := "c1x", color := Color.Blue }

/-- C1 fixture: a one-player sell-phase state with the selection still
uncommitted and one resource card left in the draw pile.  The commit
executes the (empty) sells, completes the round and deals the next
auction, moving the draw-pile card into the pending auction queue. -/
def c1s0 : GState :=
  mkState phaseSell [mkPlayer "a" 10 []]
    { drawPile := [c1Card], discardPile := [] }
    { emptyPhase with sell := some {
        playerSelections := [("a", { cardsToSell := [], committed := false })],
        allCommitted := false } }

/-- C1 reward-breach fixture cards. -/
def c1rCardA : RCard := { id := "ra", color := Color.Blue }

def c1rCardB : RCard := { id := "rb", color := Color.Orange }

/-- A rearrange-top-5 goal card whose reward is pending. -/
def c1rGoal : GoalCard :=
  { id := "gr1"
    revealed := true
    goalParsed := some (GoalParsed.reqs [])
    stockChangeParsed := []
    rewardParsed :=
      { rtype := "rearrange_top_5", amount := none, discount := none, bonus := none
        requiresTarget := false, requiresChoice := true } }

/-- An EXECUTE_REWARD choices object whose rearrange order repeats the
id of the top card. -/
def c1rChoices : RewardChoices :=
  { targetPlayerId := "a", color := Color.Blue, direction := 1, placement := "top"
    cardId := "", newOrder := ["ra", "ra"], cardIdToGive := "" }

/-- C1 reward-breach fixture: goal-resolution phase with a pending
rearrange-top-5 reward for "a" and a two-card draw pile. -/
def c1r0 : GState :=
  mkState phaseGoalResolution [mkPlayer "a" 10 []]
    { drawPile := [c1rCardA, c1rCardB], discardPile := [] }
    { emptyPhase with goalResolution := some {
        currentPlayerIndex := 0,
        revealedGoals := [],
        pendingRewardExecution := some {
          playerId := "a", rewardType := "rearrange_top_5", goalCard := c1rGoal } } }

-- THEOREMS BELOW ------------------------------------------------------

/-! ### Helper lemmas about the list primitives -/

theorem updateFirstPlayer_of_find?_none (ps : List Player) (pid : String) (f : Player → Player)
    (h : ps.find? (fun q => q.id = pid) = none) :
    updateFirstPlayer ps pid f = ps := by
  induction ps with
  | nil => rfl
  | cons a rest ih =>
    rw [List.find?_eq_none] at h
    have ha : ¬ a.id = pid := by
      have := h a (List.mem_cons_self a rest)
      simpa using this
    have hrest : rest.find? (fun q => q.id = pid) = none := by
      rw [List.find?_eq_none]
      intro x hx
      exact h x (List.mem_cons_of_mem a hx)
    simp only [updateFirstPlayer, if_neg ha, ih hrest]

theorem find?_updateFirstPlayer_self (ps : List Player) (pid : String) (f : Player → Player)
    (p : Player) (hp : ps.find? (fun q => q.id = pid) = some p) (hid : (f p).id = p.id) :
    (updateFirstPlayer ps pid f).find? (fun q => q.id = pid) = some (f p) := by
  induction ps with
  | nil => simp at hp
  | cons a rest ih =>
    by_cases ha : a.id = pid
    · rw [List.find?_cons_of_pos rest (by simpa using ha)] at hp
      have hap : a = p := by injection hp
      subst hap
      simp only [updateFirstPlayer, if_pos ha]
      exact List.find?_cons_of_pos rest (by simpa using (hid.trans ha))
    · rw [List.find?_cons_of_neg rest (by simpa using ha)] at hp
      simp only [updateFirstPlayer, if_neg ha]
      rw [List.find?_cons_of_neg _ (by simpa using ha)]
      exact ih hp

theorem find?_updateFirstPlayer_other (ps : List Player) (pid qid : String) (f : Player → Player)
    (hne : qid ≠ pid) (hid : ∀ p, (f p).id = p.id) :
    (updateFirstPlayer ps pid f).find? (fun q => q.id = qid)
      = ps.find? (fun q => q.id = qid) := by
  induction ps with
  | nil => rfl
  | cons a rest ih =>
    by_cases ha : a.id = pid
    · have hfa : (f a).id = a.id := hid a
      have haq : ¬ a.id = qid := fun h => hne (h.symm.trans ha)
      have haq' : ¬ (f a).id = qid := fun h => haq (hfa ▸ h)
      simp only [updateFirstPlayer, if_pos ha]
      rw [List.find?_cons_of_neg _ (by simpa using haq'),
        List.find?_cons_of_neg _ (by simpa using haq)]
    · simp only [updateFirstPlayer, if_neg ha]
      by_cases haq : a.id = qid
      · rw [List.find?_cons_of_pos _ (by simpa using haq),
          List.find?_cons_of_pos _ (by simpa using haq)]
      · rw [List.find?_cons_of_neg _ (by simpa using haq),
          List.find?_cons_of_neg _ (by simpa using haq)]
        exact ih

theorem mem_updateFirstPlayer (ps : List Player) (pid : String) (f : Player → Player)
    (q : Player) (hq : q ∈ updateFirstPlayer ps pid f) :
    q ∈ ps ∨ ∃ p ∈ ps, q = f p := by
  induction ps with
  | nil => simp [updateFirstPlayer] at hq
  | cons a rest ih =>
    by_cases ha : a.id = pid
    · simp [updateFirstPlayer, ha] at hq
      rcases hq with h | h
      · exact Or.inr ⟨a, List.mem_cons_self a rest, h⟩
      · exact Or.inl (List.mem_cons_of_mem a h)
    · simp [updateFirstPlayer, ha] at hq
      rcases hq with h | h
      · exact Or.inl (h ▸ List.mem_cons_self a rest)
      · rcases ih h with h' | ⟨p, hp, hfp⟩
        · exact Or.inl (List.mem_cons_of_mem a h')
        · exact Or.inr ⟨p, List.mem_cons_of_mem a hp, hfp⟩

theorem ids_updateFirstPlayer (ps : List Player) (pid : String) (f : Player → Player)
    (hid : ∀ p, (f p).id = p.id) :
    (updateFirstPlayer ps pid f).map (fun p => p.id) = ps.map (fun p => p.id) := by
  induction ps with
  | nil => rfl
  | cons a rest ih =>
    by_cases ha : a.id = pid
    · simp [updateFirstPlayer, ha, hid]
    · simp [updateFirstPlayer, ha, ih]

/-- C10: every cash adjustment goes through the clamping helper: for any
player present in the state and any (possibly negative) amount, the
player's cash after `adjustPlayerCash` is exactly `max 0 (cash + amount)`
(an over-debit silently floors at 0 instead of failing), every other
player id reads unchanged, and non-negativity of all cash balances is
preserved — so no engine operation routed through this helper can leave
any player's cash negative. -/
theorem C10_cash_clamping (s : GState) (pid : String) (amount : Int) (p : Player)
    (hp : getPlayer s pid = some p) :
    getPlayer (adjustPlayerCash s pid amount) pid
        = some { p with cash := max 0 (p.cash + amount) } ∧
    (∀ qid, qid ≠ pid → getPlayer (adjustPlayerCash s pid amount) qid = getPlayer s qid) ∧
    ((∀ q ∈ s.players, 0 ≤ q.cash) → ∀ q ∈ (adjustPlayerCash s pid amount).players, 0 ≤ q.cash) := by
  unfold getPlayer at hp ⊢
  unfold adjustPlayerCash
  refine ⟨?_, ?_, ?_⟩
  · have := find?_updateFirstPlayer_self s.players pid
      (fun q => { q with cash := if q.cash + amount < 0 then 0 else q.cash + amount }) p hp rfl
    simp only [this]
    congr 1
    by_cases hc : p.cash + amount < 0
    · simp [hc]
      omega
    · simp [hc]
      omega
  · intro qid hne
    exact find?_updateFirstPlayer_other s.players pid qid _ hne (fun _ => rfl)
  · intro hall q hq
    rcases mem_updateFirstPlayer _ _ _ q hq with h | ⟨r, hr, hqr⟩
    · exact hall q h
    · subst hqr
      by_cases hc : r.cash + amount < 0
      · simp [hc]
      · simp [hc]
        omega

/-- Witness for C10 at a concrete state: a $5 debit against a $3
balance leaves exactly $0, and all balances stay non-negative. -/
theorem C10_cash_clamping_witness :
    getPlayer (adjustPlayerCash (mkState phaseSell
        [mkPlayer "a" 3 [], mkPlayer "b" 4 []]
        { drawPile := [], discardPile := [] } emptyPhase) "a" (-5)) "a"
      = some { mkPlayer "a" 3 [] with cash := max 0 ((3 : Int) + (-5)) } := by
  have h := C10_cash_clamping (mkState phaseSell
      [mkPlayer "a" 3 [], mkPlayer "b" 4 []]
      { drawPile := [], discardPile := [] } emptyPhase) "a" (-5) (mkPlayer "a" 3 [])
    (by decide)
  exact h.1

/-! ### C3: price clamping -/

theorem constrainPrice_in_range (cfg : Config)
    (hcfg : ∀ mx, cfg.maxStockPrice = some mx → cfg.minStockPrice ≤ mx) (p : Int) :
    priceInRange cfg (constrainPrice cfg p) := by
  have hmin : cfg.minStockPrice ≤ constrainPrice cfg p := by
    unfold constrainPrice
    by_cases h1 : p < cfg.minStockPrice
    · simp [h1]
    · cases hmx : cfg.maxStockPrice with
      | none => simp [h1]; omega
      | some mx =>
        by_cases h2 : p > mx
        · simp [h1, h2]
          exact hcfg mx hmx
        · simp [h1, h2]
          omega
  have hmax : ∀ mx, cfg.maxStockPrice = some mx → constrainPrice cfg p ≤ mx := by
    intro mx hmx
    unfold constrainPrice
    rw [hmx]
    by_cases h1 : p < cfg.minStockPrice
    · simp [h1]
      exact hcfg mx hmx
    · by_cases h2 : p > mx
      · simp [h1, h2]
      · simp [h1, h2]
        omega
  unfold priceInRange
  cases hmx : cfg.maxStockPrice with
  | none => exact ⟨hmin, trivial⟩
  | some mx => exact ⟨hmin, hmax mx hmx⟩

theorem mem_setPrice (prices : List (Color × Int)) (c : Color) (v : Int) (kv : Color × Int)
    (h : kv ∈ setPrice prices c v) : kv ∈ prices ∨ kv = (c, v) := by
  induction prices with
  | nil => simp [setPrice] at h
  | cons a rest ih =>
    by_cases hac : a.1 = c
    · rw [setPrice, if_pos hac] at h
      rcases List.mem_cons.mp h with h' | h'
      · exact Or.inr h'
      · exact Or.inl (List.mem_cons_of_mem a h')
    · rw [setPrice, if_neg hac] at h
      rcases List.mem_cons.mp h with h' | h'
      · exact Or.inl (h' ▸ List.mem_cons_self a rest)
      · rcases ih h' with h'' | h''
        · exact Or.inl (List.mem_cons_of_mem a h'')
        · exact Or.inr h''

theorem applyChanges_in_range (cfg : Config)
    (hcfg : ∀ mx, cfg.maxStockPrice = some mx → cfg.minStockPrice ≤ mx)
    (changes : List (Color × Int)) :
    ∀ prices, pricesInRange cfg prices → pricesInRange cfg (applyChanges cfg prices changes) := by
  induction changes with
  | nil => intro prices h; exact h
  | cons ch rest ih =>
    intro prices h
    have hstep : pricesInRange cfg
        (match lookupPrice prices ch.1 with
         | none => prices
         | some p => setPrice prices ch.1 (constrainPrice cfg (p + ch.2))) := by
      cases hl : lookupPrice prices ch.1 with
      | none => simpa using h
      | some p =>
        intro kv hkv
        rcases mem_setPrice _ _ _ kv (by simpa using hkv) with h' | h'
        · exact h kv h'
        · rw [h']
          exact constrainPrice_in_range cfg hcfg (p + ch.2)
    have : applyChanges cfg prices (ch :: rest)
        = applyChanges cfg
            (match lookupPrice prices ch.1 with
             | none => prices
             | some p => setPrice prices ch.1 (constrainPrice cfg (p + ch.2))) rest := by
      unfold applyChanges
      rfl
    rw [this]
    exact ih _ hstep

/-- C3 (amended): provided every starting price lies within the
configured band (as the engine's initial prices do) and the floor does
not exceed the ceiling, every finite sequence of delta applications via
`applyChanges` keeps every price of every color in the map within
`[floor, ceiling]` (or `[floor, ∞)` with no ceiling configured),
regardless of delta magnitude; the operation is total (never rejects a
delta) and returns a fresh map, leaving its input untouched. -/
theorem C3_price_clamping (cfg : Config)
    (hcfg : ∀ mx, cfg.maxStockPrice = some mx → cfg.minStockPrice ≤ mx)
    (start : List (Color × Int)) (hstart : pricesInRange cfg start)
    (deltaSeq : List (List (Color × Int))) :
    pricesInRange cfg (deltaSeq.foldl (applyChanges cfg) start) := by
  induction deltaSeq generalizing start with
  | nil => exact hstart
  | cons d rest ih =>
    rw [List.foldl_cons]
    exact ih (applyChanges cfg start d) (applyChanges_in_range cfg hcfg d start hstart)

/-- C3 counterexample: with the default configuration (floor 0, no
ceiling) and the starting price map `{Blue: -5, Orange: 4}`, the
sequence consisting of the single delta application `{Orange: +1}`
leaves the known color Blue at -5, outside `[0, ∞)` — the claim's
quantification over every starting price map fails, because a color
that never receives a delta is never clamped. -/
theorem C3_counterexample :
    ¬ pricesInRange cfg0
        ([[(Color.Orange, 1)]].foldl (applyChanges cfg0) [(Color.Blue, -5), (Color.Orange, 4)]) := by
  decide

/-- Witness for C3 at a concrete instance: from the standard $4 start
under a floor-0/ceiling-10 configuration, the delta sequence
`[{Blue: -100}, {Orange: +100}]` keeps all prices inside `[0, 10]`. -/
theorem C3_price_clamping_witness :
    pricesInRange cfgCeil
      ([[(Color.Blue, -100)], [(Color.Orange, 100)]].foldl (applyChanges cfgCeil) basePrices) := by
  have h := C3_price_clamping cfgCeil
    (by intro mx h; cases h; decide)
    basePrices (by decide)
    [[(Color.Blue, -100)], [(Color.Orange, 100)]]
  exact h

/-! ### C5: rearrangeTop error behavior -/

theorem length_filterMap_of_isSome {α β : Type} (f : α → Option β) (l : List α)
    (h : ∀ x ∈ l, (f x).isSome) : (l.filterMap f).length = l.length := by
  induction l with
  | nil => rfl
  | cons a rest ih =>
    have ha := h a (List.mem_cons_self a rest)
    rcases Option.isSome_iff_exists.mp ha with ⟨b, hb⟩
    rw [List.filterMap_cons, hb]
    simp only [List.length_cons]
    rw [ih (fun x hx => h x (List.mem_cons_of_mem a hx))]

theorem rearrangeTop_count_mismatch (d : Deck) (order : List String)
    (h : ¬ order.length ≤ d.drawPile.length) :
    rearrangeTop d order = Except.error "count mismatch" := by
  unfold rearrangeTop
  rw [if_pos]
  simp only [List.length_take]
  omega

theorem rearrangeTop_id_missing (d : Deck) (order : List String)
    (h1 : order.length ≤ d.drawPile.length)
    (h2 : ¬ ∀ cid ∈ order, ∃ c ∈ d.drawPile.take order.length, c.id = cid) :
    rearrangeTop d order = Except.error "card id not found in top cards" := by
  unfold rearrangeTop
  rw [if_neg, if_pos]
  · push_neg at h2
    rcases h2 with ⟨cid, hcid, hnone⟩
    rw [List.any_eq_true]
    refine ⟨cid, hcid, ?_⟩
    rw [Option.isNone_iff_eq_none, List.find?_eq_none]
    intro c hc
    simpa using hnone c hc
  · simp only [List.length_take]
    omega

theorem rearrangeTop_success (d : Deck) (order : List String)
    (h1 : order.length ≤ d.drawPile.length)
    (h2 : ∀ cid ∈ order, ∃ c ∈ d.drawPile.take order.length, c.id = cid) :
    rearrangeTop d order = Except.ok
      { d with drawPile :=
          order.filterMap (fun cid =>
            (d.drawPile.take order.length).reverse.find? (fun c => c.id = cid))
          ++ d.drawPile.drop order.length } := by
  unfold rearrangeTop
  rw [if_neg, if_neg]
  · rw [List.any_eq_true]
    push_neg
    intro cid hcid
    rcases h2 cid hcid with ⟨c, hc, hcc⟩
    intro hnone
    rw [Option.isNone_iff_eq_none, List.find?_eq_none] at hnone
    exact (hnone c hc) (by simpa using hcc)
  · simp only [List.length_take]
    omega

/-- C5 (amended): `rearrangeTop` fails with an error exactly when the
id order is longer than the whole draw pile (count mismatch) or when
some supplied id is not among the top `len(order)` cards; both errors
are raised before the pile is touched, so on error the pile is
unchanged (no silent partial reorder).  A shorter order over a longer
pile is not an error: in particular a 3-id order on a 4-card draw pile
succeeds, reordering exactly the top 3 cards — on success the discard
pile, the pile length, and every card below the reordered prefix are
untouched. -/
theorem C5_rearrangeTop_errors (d : Deck) (order : List String) :
    ((∃ d', rearrangeTop d order = Except.ok d') ↔
        (order.length ≤ d.drawPile.length ∧
         ∀ cid ∈ order, ∃ c ∈ d.drawPile.take order.length, c.id = cid)) ∧
    (∀ d', rearrangeTop d order = Except.ok d' →
        d'.discardPile = d.discardPile ∧
        d'.drawPile.length = d.drawPile.length ∧
        d'.drawPile.drop order.length = d.drawPile.drop order.length) := by
  by_cases h1 : order.length ≤ d.drawPile.length
  · by_cases h2 : ∀ cid ∈ order, ∃ c ∈ d.drawPile.take order.length, c.id = cid
    · have hok := rearrangeTop_success d order h1 h2
      have hlenMap : (order.filterMap (fun cid =>
          (d.drawPile.take order.length).reverse.find? (fun c => c.id = cid))).length
          = order.length := by
        apply length_filterMap_of_isSome
        intro cid hcid
        rcases h2 cid hcid with ⟨c, hc, hcc⟩
        rw [List.find?_isSome]
        exact ⟨c, List.mem_reverse.mpr hc, by simpa using hcc⟩
      constructor
      · exact ⟨fun _ => ⟨h1, h2⟩, fun _ => ⟨_, hok⟩⟩
      · intro d' hd'
        rw [hok] at hd'
        injection hd' with hd''
        subst hd''
        refine ⟨rfl, ?_, ?_⟩
        · simp only [List.length_append, hlenMap, List.length_drop]
          omega
        · exact List.drop_left' hlenMap
    · have herr := rearrangeTop_id_missing d order h1 h2
      constructor
      · constructor
        · rintro ⟨d', hd'⟩
          rw [herr] at hd'
          cases hd'
        · rintro ⟨_, hall⟩
          exact absurd hall h2
      · intro d' hd'
        rw [herr] at hd'
        cases hd'
  · have herr := rearrangeTop_count_mismatch d order h1
    constructor
    · constructor
      · rintro ⟨d', hd'⟩
        rw [herr] at hd'
        cases hd'
      · rintro ⟨hle, _⟩
        exact absurd hle h1
    · intro d' hd'
      rw [herr] at hd'
      cases hd'

/-- C5 counterexample: calling `rearrangeTop` with a 3-id order on a
4-card draw pile does NOT produce a count-mismatch error — it succeeds
and reorders the top 3 cards, leaving the 4th in place (the code only
errors when the pile holds fewer cards than the order names). -/
theorem C5_counterexample :
    rearrangeTop
        { drawPile := [{ id := "c1", color := Color.Blue }, { id := "c2", color := Color.Orange },
                       { id := "c3", color := Color.Yellow }, { id := "c4", color := Color.Purple }]
          discardPile := [] }
        ["c3", "c2", "c1"]
      = Except.ok
        { drawPile := [{ id := "c3", color := Color.Yellow }, { id := "c2", color := Color.Orange },
                       { id := "c1", color := Color.Blue }, { id := "c4", color := Color.Purple }]
          discardPile := [] } := by
  rfl

/-- Witness for C5 at a concrete instance: a 5-id order on that same
4-card pile is refused (no `Except.ok` result exists), which is the
genuine count-mismatch case. -/
theorem C5_rearrangeTop_errors_witness :
    ¬ ∃ d', rearrangeTop
        { drawPile := [{ id := "c1", color := Color.Blue }, { id := "c2", color := Color.Orange },
                       { id := "c3", color := Color.Yellow }, { id := "c4", color := Color.Purple }]
          discardPile := [] }
        ["c1", "c2", "c3", "c4", "c5"] = Except.ok d' := by
  intro hex
  have h := (C5_rearrangeTop_errors
      { drawPile := [{ id := "c1", color := Color.Blue }, { id := "c2", color := Color.Orange },
                     { id := "c3", color := Color.Yellow }, { id := "c4", color := Color.Purple }]
        discardPile := [] }
      ["c1", "c2", "c3", "c4", "c5"]).1.mp hex
  have := h.1
  simp at this

/-! ### C6: sell selections and the committed flag -/

theorem lookupSelection_updateSelection_self (sels : List (String × Selection)) (pid : String)
    (f : Selection → Selection) (sel : Selection)
    (h : lookupSelection sels pid = some sel) :
    lookupSelection (updateSelection sels pid f) pid = some (f sel) := by
  induction sels with
  | nil => simp [lookupSelection] at h
  | cons kv rest ih =>
    by_cases hk : kv.1 = pid
    · unfold lookupSelection at h
      rw [List.find?_cons_of_pos rest (by simpa using hk)] at h
      simp only [Option.map_some'] at h
      have h2 : kv.2 = sel := by injection h
      unfold updateSelection
      rw [if_pos hk]
      unfold lookupSelection
      rw [List.find?_cons_of_pos _ (by simpa using hk)]
      simp [h2]
    · unfold lookupSelection at h
      rw [List.find?_cons_of_neg rest (by simpa using hk)] at h
      unfold updateSelection
      rw [if_neg hk]
      unfold lookupSelection
      rw [List.find?_cons_of_neg _ (by simpa using hk)]
      exact ih h

/-- C6 (amended): a select-cards-to-sell action that passes validation
overwrites the player's recorded selection regardless of the committed
flag — before AND after the player has committed (neither the manager
nor the validator consults `committed` for selections); what the commit
latch does guard is committing itself: a second commit by the same
player fails validation.  The selection that executes at payout is
therefore the last one recorded before the final player's commit, not
necessarily the one in force at this player's own commit. -/
theorem C6_sell_selection_overwrites (s : GState) (pid : String) (cardIds : List String)
    (sell : SellState) (sel : Selection)
    (hv : validateSellSelection s pid cardIds = true)
    (hs : s.phaseState.sell = some sell)
    (hsel : lookupSelection sell.playerSelections pid = some sel) :
    (∃ sell', (selectCardsToSell s pid cardIds).phaseState.sell = some sell' ∧
        lookupSelection sell'.playerSelections pid
          = some { cardsToSell := cardIds, committed := sel.committed }) ∧
    (sel.committed = true → validateSellCommit s pid = false) := by
  constructor
  · let sels' := updateSelection sell.playerSelections pid
      (fun q => { q with cardsToSell := cardIds })
    refine ⟨{ sell with playerSelections := sels' }, ?_, ?_⟩
    · simp only [selectCardsToSell, hs, hsel, setSell]
    · have := lookupSelection_updateSelection_self sell.playerSelections pid
        (fun q => { q with cardsToSell := cardIds }) sel hsel
      simpa [sels'] using this
  · intro hcom
    simp [validateSellCommit, hs, hsel, hcom]

/-- C6 counterexample: in a sell-phase state where player "a" has
already committed the selection `["h1"]`, the select action `["h2"]`
still passes validation and changes the recorded selection to `["h2"]`
— contradicting "after the player has committed, no
select-cards-to-sell action by that player changes their recorded
selection". -/
theorem C6_counterexample :
    validateSellSelection c6State "a" ["h2"] = true ∧
    ((selectCardsToSell c6State "a" ["h2"]).phaseState.sell.map
        (fun st => lookupSelection st.playerSelections "a"))
      = some (some { cardsToSell := ["h2"], committed := true }) := by
  constructor
  · decide
  · decide

/-- Witness for C6 at a concrete instance: an uncommitted player
revises `[]` to `["h1"]` and the revision is recorded. -/
theorem C6_sell_selection_overwrites_witness :
    ∃ sell', (selectCardsToSell c6StateW "b" ["h1"]).phaseState.sell = some sell' ∧
      lookupSelection sell'.playerSelections "b"
        = some { cardsToSell := ["h1"], committed := false } := by
  have h := C6_sell_selection_overwrites c6StateW "b" ["h1"]
    { playerSelections := [("b", { cardsToSell := [], committed := false })]
      allCommitted := false }
    { cardsToSell := [], committed := false }
    (by decide) (by decide) (by decide)
  exact h.1

/-! ### C9: player-scoped filtered view redaction -/

theorem viewGoals_eq_of_hiddenEquiv (gs hs : List GoalCard)
    (h : goalsHiddenEquiv gs hs) :
    gs.map (fun g => if g.revealed then ViewGoalCard.shown g else ViewGoalCard.hiddenUnrevealed)
      = hs.map (fun g => if g.revealed then ViewGoalCard.shown g else ViewGoalCard.hiddenUnrevealed) := by
  induction h with
  | nil => rfl
  | cons hgh _ ih =>
    rename_i g h' gs' hs' _
    simp only [List.map_cons, ih]
    rcases hgh with ⟨hrev, hcont⟩
    by_cases hg : g.revealed
    · rw [if_pos hg, if_pos (hrev ▸ hg), hcont hg]
    · rw [if_neg hg, if_neg (fun hh => hg (hrev ▸ hh))]

theorem viewPlayers_eq_of_hiddenEquiv (pid : String) (ps qs : List Player)
    (h : List.Forall₂ (fun p q =>
      p.id = q.id ∧ p.name = q.name ∧ p.cash = q.cash ∧ p.sellBonus = q.sellBonus ∧
      (p.id = pid → p = q) ∧
      (p.id ≠ pid → handsIdEquiv p.hand q.hand ∧ goalsHiddenEquiv p.goalCards q.goalCards)) ps qs) :
    ps.map (fun p =>
      if p.id = pid then
        ({ id := p.id, name := p.name, cash := p.cash, sellBonus := p.sellBonus
           hand := p.hand.map ViewResCard.shown
           goalCards := p.goalCards.map ViewGoalCard.shown } : ViewPlayer)
      else
        { id := p.id, name := p.name, cash := p.cash, sellBonus := p.sellBonus
          hand := p.hand.map (fun _ => ViewResCard.hiddenCard)
          goalCards := p.goalCards.map (fun g =>
            if g.revealed then ViewGoalCard.shown g else ViewGoalCard.hiddenUnrevealed) })
      = qs.map (fun p =>
      if p.id = pid then
        ({ id := p.id, name := p.name, cash := p.cash, sellBonus := p.sellBonus
           hand := p.hand.map ViewResCard.shown
           goalCards := p.goalCards.map ViewGoalCard.shown } : ViewPlayer)
      else
        { id := p.id, name := p.name, cash := p.cash, sellBonus := p.sellBonus
          hand := p.hand.map (fun _ => ViewResCard.hiddenCard)
          goalCards := p.goalCards.map (fun g =>
            if g.revealed then ViewGoalCard.shown g else ViewGoalCard.hiddenUnrevealed) }) := by
  induction h with
  | nil => rfl
  | cons hpq _ ih =>
    rename_i p q ps' qs' _
    simp only [List.map_cons, ih]
    rcases hpq with ⟨hid, hname, hcash, hbonus, hown, hother⟩
    by_cases hp : p.id = pid
    · rw [hown hp]
    · have hq : ¬ q.id = pid := fun hh => hp (hid ▸ hh)
      rcases hother hp with ⟨hhand, hgoals⟩
      rw [if_neg hp, if_neg hq]
      have hlen : p.hand.length = q.hand.length := hhand.length_eq
      have hhands : p.hand.map (fun _ => ViewResCard.hiddenCard)
          = q.hand.map (fun _ => ViewResCard.hiddenCard) := by
        rw [List.map_const', List.map_const', hlen]
      have hgs := viewGoals_eq_of_hiddenEquiv _ _ hgoals
      rw [hid, hname, hcash, hbonus, hhands, hgs]

/-- C9: the filtered view for a player P preserves every other player's
hand size while replacing each of their cards by the opaque hidden
marker, shows their revealed goal cards in full but reduces each
unrevealed one to a content-free revealed=false marker, and shows P's
own cards in full.  Consequently two states that differ only in the
colors of other players' hand cards or in the contents of other
players' unrevealed goal cards produce identical filtered views for P. -/
theorem C9_filtered_view (s1 s2 : GState) (pid : String) :
    (∀ i p, s1.players.get? i = some p →
      ∃ vp, (filterForPlayer s1 pid).players.get? i = some vp ∧
        vp.id = p.id ∧ vp.cash = p.cash ∧
        vp.hand.length = p.hand.length ∧ vp.goalCards.length = p.goalCards.length ∧
        (p.id = pid → vp.hand = p.hand.map ViewResCard.shown ∧
          vp.goalCards = p.goalCards.map ViewGoalCard.shown) ∧
        (p.id ≠ pid →
          (∀ vc ∈ vp.hand, vc = ViewResCard.hiddenCard) ∧
          ∀ j g, p.goalCards.get? j = some g →
            vp.goalCards.get? j
              = some (if g.revealed then ViewGoalCard.shown g else ViewGoalCard.hiddenUnrevealed))) ∧
    (HiddenEquiv pid s1 s2 → filterForPlayer s1 pid = filterForPlayer s2 pid) := by
  constructor
  · intro i p hp
    simp only [filterForPlayer, List.get?_map, hp, Option.map_some']
    by_cases hid : p.id = pid
    · refine ⟨_, rfl, ?_⟩
      rw [if_pos hid]
      refine ⟨rfl, rfl, by simp, by simp, fun _ => ⟨rfl, rfl⟩, fun hne => absurd hid hne⟩
    · refine ⟨_, rfl, ?_⟩
      rw [if_neg hid]
      refine ⟨rfl, rfl, by simp, by simp, fun hh => absurd hh hid, fun _ => ⟨?_, ?_⟩⟩
      · intro vc hvc
        rcases List.mem_map.mp hvc with ⟨c, _, hc⟩
        exact hc.symm
      · intro j g hg
        rw [List.get?_map, hg]
        rfl
  · rintro ⟨hphase, hprices, hdeck, hgoaldeck, hplayers⟩
    unfold filterForPlayer
    rw [hphase, hprices, hdeck, hgoaldeck]
    congr 1
    exact viewPlayers_eq_of_hiddenEquiv pid s1.players s2.players hplayers

/-- Witness for C9 at concrete states: `c9State1` and `c9State2` differ
only in the color of "b"'s hand card and the content of "b"'s
unrevealed goal, and viewer "a" receives identical filtered views. -/
theorem C9_filtered_view_witness :
    filterForPlayer c9State1 "a" = filterForPlayer c9State2 "a" := by
  apply (C9_filtered_view c9State1 c9State2 "a").2
  refine ⟨rfl, rfl, rfl, rfl, ?_⟩
  refine List.Forall₂.cons ?_ (List.Forall₂.cons ?_ List.Forall₂.nil)
  · exact ⟨rfl, rfl, rfl, rfl, fun _ => rfl, fun hne => absurd rfl hne⟩
  · refine ⟨rfl, rfl, rfl, rfl, fun hh => absurd hh (by decide), fun _ => ⟨?_, ?_⟩⟩
    · exact List.Forall₂.cons rfl List.Forall₂.nil
    · exact List.Forall₂.cons ⟨rfl, fun hh => by cases hh⟩ List.Forall₂.nil

/-! ### C2: who wins when a pass leaves one active bidder -/

theorem getPlayer_eq_of_players_eq (s s' : GState) (pid : String)
    (h : s'.players = s.players) : getPlayer s' pid = getPlayer s pid := by
  unfold getPlayer
  rw [h]

theorem players_moveToNextCard (s : GState) : (moveToNextCard s).players = s.players := by
  unfold moveToNextCard
  cases s.phaseState.auction with
  | none => rfl
  | some au =>
    by_cases h : au.currentCardIndex + 1 < au.cardsToAuction.length
    · simp only [h, if_true, setAuction]
    · simp only [h, if_false, setAuction]

theorem getPlayer_adjustPlayerCash_self (s : GState) (pid : String) (amount : Int) (p : Player)
    (hp : getPlayer s pid = some p) :
    getPlayer (adjustPlayerCash s pid amount) pid
      = some { p with cash := if p.cash + amount < 0 then 0 else p.cash + amount } := by
  unfold getPlayer at hp ⊢
  unfold adjustPlayerCash
  exact find?_updateFirstPlayer_self s.players pid _ p hp rfl

theorem getPlayer_adjustPlayerCash_other (s : GState) (pid qid : String) (amount : Int)
    (hne : qid ≠ pid) :
    getPlayer (adjustPlayerCash s pid amount) qid = getPlayer s qid := by
  unfold getPlayer adjustPlayerCash
  exact find?_updateFirstPlayer_other s.players pid qid _ hne (fun _ => rfl)

theorem getPlayer_addCardToHand_self (s : GState) (pid : String) (c : RCard) (p : Player)
    (hp : getPlayer s pid = some p) :
    getPlayer (addCardToHand s pid c) pid = some { p with hand := p.hand ++ [c] } := by
  unfold getPlayer at hp ⊢
  unfold addCardToHand
  exact find?_updateFirstPlayer_self s.players pid _ p hp rfl

theorem getPlayer_addCardToHand_other (s : GState) (pid qid : String) (c : RCard)
    (hne : qid ≠ pid) :
    getPlayer (addCardToHand s pid c) qid = getPlayer s qid := by
  unfold getPlayer addCardToHand
  exact find?_updateFirstPlayer_other s.players pid qid _ hne (fun _ => rfl)

theorem passAction_to_one (s : GState) (pid : String) (au : AuctionState) (q : String)
    (hau : s.phaseState.auction = some au)
    (hone : au.activeBidders.filter (fun x => x ≠ pid) = [q]) :
    passAction s pid
      = completeCurrentCardAuction (setAuction s (some { au with activeBidders := [q] })) := by
  unfold passAction
  rw [hau]
  simp only [hone]
  rfl

theorem completeCurrentCardAuction_effect (s : GState) (au : AuctionState) (c : RCard)
    (w : String) (pw : Player)
    (hau : s.phaseState.auction = some au)
    (hcard : au.currentCard = some c)
    (hwid : (match au.currentHighBidder with
             | some h => some h
             | none => au.activeBidders.head?) = some w)
    (hpw : getPlayer s w = some pw) :
    getPlayer (completeCurrentCardAuction s) w
      = some { pw with
          cash := if pw.cash + -au.currentBid < 0 then 0 else pw.cash + -au.currentBid
          hand := pw.hand ++ [c] } ∧
    (∀ qid, qid ≠ w → getPlayer (completeCurrentCardAuction s) qid = getPlayer s qid) := by
  unfold completeCurrentCardAuction
  simp only [hau, hwid, hcard]
  constructor
  · rw [getPlayer_eq_of_players_eq _ _ _ (players_moveToNextCard _)]
    have h1 := getPlayer_adjustPlayerCash_self s w (-au.currentBid) pw hpw
    have h2 := getPlayer_addCardToHand_self _ w c _ h1
    exact h2
  · intro qid hqw
    rw [getPlayer_eq_of_players_eq _ _ _ (players_moveToNextCard _)]
    rw [getPlayer_addCardToHand_other _ w qid c hqw, getPlayer_adjustPlayerCash_other _ w qid _ hqw]

/-- C2 (amended): when a validated pass reduces the active-bidder set
to exactly one player, the card auction completes immediately — but the
winner is the CURRENT HIGH BIDDER when one exists, and only otherwise
(nobody ever bid) the one remaining active bidder, who then pays the
current bid ($0 when nobody bid).  In particular, when the player who
passed was the current high bidder, that passer — not the remaining
bidder — receives the card and pays the bid; every player other than
the winner is untouched. -/
theorem C2_pass_winner (s : GState) (pid : String) (au : AuctionState) (c : RCard)
    (q w : String) (pw : Player)
    (hau : s.phaseState.auction = some au)
    (hv : validatePass s pid = true)
    (hone : au.activeBidders.filter (fun x => x ≠ pid) = [q])
    (hcard : au.currentCard = some c)
    (hw : w = au.currentHighBidder.getD q)
    (hpw : getPlayer s w = some pw) :
    getPlayer (passAction s pid) w
      = some { pw with
          cash := if pw.cash + -au.currentBid < 0 then 0 else pw.cash + -au.currentBid
          hand := pw.hand ++ [c] } ∧
    (∀ qid, qid ≠ w → getPlayer (passAction s pid) qid = getPlayer s qid) := by
  rw [passAction_to_one s pid au q hau hone]
  have hau1 : (setAuction s (some { au with activeBidders := [q] })).phaseState.auction
      = some { au with activeBidders := [q] } := rfl
  have hwid : (match ({ au with activeBidders := [q] } : AuctionState).currentHighBidder with
      | some h => some h
      | none => ({ au with activeBidders := [q] } : AuctionState).activeBidders.head?)
      = some w := by
    show (match au.currentHighBidder with
      | some h => some h
      | none => ([q] : List String).head?) = some w
    cases hhb : au.currentHighBidder with
    | some h =>
      rw [hhb, Option.getD_some] at hw
      simp only [hhb, hw]
    | none =>
      rw [hhb, Option.getD_none] at hw
      simp only [hhb, List.head?, hw]
  have heff := completeCurrentCardAuction_effect
    (setAuction s (some { au with activeBidders := [q] }))
    { au with activeBidders := [q] } c w pw hau1 hcard hwid hpw
  exact heff

/-- C2 counterexample: in `c2State` ("a" is high bidder at $3, actives
{a, b}), the validated pass by "a" leaves "b" as the only active
bidder, yet the card goes to "a" — the passer — whose cash drops from
$5 to $2, while the remaining bidder "b" gets nothing and pays
nothing.  The claim that the one remaining active bidder wins
(including when the passer was the high bidder) is false on the code. -/
theorem C2_counterexample :
    validatePass c2State "a" = true ∧
    (getPlayer (passAction c2State "a") "a").map (fun p => (p.hand, p.cash))
      = some ([c2Card], 2) ∧
    (getPlayer (passAction c2State "a") "b").map (fun p => (p.hand, p.cash))
      = some ([], 5) := by
  refine ⟨by decide, by decide, by decide⟩

/-- Witness for C2 at a concrete instance: in `c2StateW` nobody has
bid; "a"'s validated pass leaves "b" alone, and "b" wins the card for
$0. -/
theorem C2_pass_winner_witness :
    getPlayer (passAction c2StateW "a") "b"
      = some { mkPlayer "b" 5 [] with
          cash := if (5 : Int) + -(0 : Int) < 0 then 0 else (5 : Int) + -(0 : Int)
          hand := [] ++ [c2Card] } := by
  have h := C2_pass_winner c2StateW "a" c2AuctionW c2Card "b" "b" (mkPlayer "b" 5 [])
    (by decide) (by decide) (by decide) (by decide) (by decide) (by decide)
  exact h.1

/-! ### C7: validated goal reveal -/

theorem find?_setRevealed (gs : List GoalCard) (gid : String) :
    (gs.map (fun g => if g.id = gid then { g with revealed := true } else g)).find?
        (fun g => g.id = gid)
      = (gs.find? (fun g => g.id = gid)).map (fun g => { g with revealed := true }) := by
  induction gs with
  | nil => rfl
  | cons g rest ih =>
    by_cases hg : g.id = gid
    · rw [List.map_cons, if_pos hg]
      rw [List.find?_cons_of_pos _ (by simpa using hg),
        List.find?_cons_of_pos _ (by simpa using hg)]
      rfl
    · rw [List.map_cons, if_neg hg]
      rw [List.find?_cons_of_neg _ (by simpa using hg),
        List.find?_cons_of_neg _ (by simpa using hg)]
      exact ih

theorem find?_updateFirstPlayer_map {α : Type} (ps : List Player) (pid : String)
    (f : Player → Player) (g : Player → α)
    (hid : ∀ p, (f p).id = p.id) (hg : ∀ p, g (f p) = g p) (qid : String) :
    ((updateFirstPlayer ps pid f).find? (fun p => p.id = qid)).map g
      = (ps.find? (fun p => p.id = qid)).map g := by
  induction ps with
  | nil => rfl
  | cons a rest ih =>
    by_cases hap : a.id = pid
    · simp only [updateFirstPlayer, if_pos hap]
      by_cases haq : a.id = qid
      · rw [List.find?_cons_of_pos _ (by simp [hid]; exact haq),
          List.find?_cons_of_pos _ (by simpa using haq)]
        simp [hg]
      · rw [List.find?_cons_of_neg _ (by simp [hid]; exact haq),
          List.find?_cons_of_neg _ (by simpa using haq)]
    · simp only [updateFirstPlayer, if_neg hap]
      by_cases haq : a.id = qid
      · rw [List.find?_cons_of_pos _ (by simpa using haq),
          List.find?_cons_of_pos _ (by simpa using haq)]
      · rw [List.find?_cons_of_neg _ (by simpa using haq),
          List.find?_cons_of_neg _ (by simpa using haq)]
        exact ih

theorem findGoal_players_update (s : GState) (ps' : List Player) (pid qid gid : String)
    (f : Player → Player)
    (hid : ∀ p, (f p).id = p.id) (hgc : ∀ p, (f p).goalCards = p.goalCards)
    (hps : ps' = updateFirstPlayer s.players pid f) :
    findGoal { s with players := ps' } qid gid = findGoal s qid gid := by
  have key := find?_updateFirstPlayer_map s.players pid f
    (fun p => p.goalCards.find? (fun g => g.id = gid)) hid
    (fun p => by simp only [hgc]) qid
  unfold findGoal getPlayer
  simp only [hps]
  cases h1 : (updateFirstPlayer s.players pid f).find? (fun p => p.id = qid) with
  | none =>
    rw [h1] at key
    cases h2 : s.players.find? (fun p => p.id = qid) with
    | none => rfl
    | some p =>
      rw [h2] at key
      simp at key
  | some p =>
    rw [h1] at key
    cases h2 : s.players.find? (fun p => p.id = qid) with
    | none =>
      rw [h2] at key
      simp at key
    | some p' =>
      rw [h2] at key
      simpa using key

theorem markFirstUnexecuted_append (pid : String) (rs : List RevealedGoal) (rec : RevealedGoal)
    (hrs : ∀ g ∈ rs, g.playerId = pid → g.rewardExecuted = true)
    (hpid : rec.playerId = pid) (hex : rec.rewardExecuted = false) :
    markFirstUnexecuted pid (rs ++ [rec]) = rs ++ [{ rec with rewardExecuted := true }] := by
  induction rs with
  | nil =>
    simp only [List.nil_append, markFirstUnexecuted]
    rw [if_pos ⟨hpid, by simp [hex]⟩]
  | cons g rest ih =>
    have hg : ¬ (g.playerId = pid ∧ ¬g.rewardExecuted = true) := by
      rintro ⟨h1, h2⟩
      exact h2 (hrs g (List.mem_cons_self g rest) h1)
    have hstep : markFirstUnexecuted pid ((g :: rest) ++ [rec])
        = g :: markFirstUnexecuted pid (rest ++ [rec]) := by
      show markFirstUnexecuted pid (g :: (rest ++ [rec]))
        = g :: markFirstUnexecuted pid (rest ++ [rec])
      conv_lhs => rw [markFirstUnexecuted]
      rw [if_neg hg]
    rw [hstep, ih (fun x hx h => hrs x (List.mem_cons_of_mem g hx) h), List.cons_append]

theorem phaseState_applyStockChange (s : GState) (g : GoalCard) :
    (applyStockChange s g).phaseState = s.phaseState := by
  unfold applyStockChange
  split <;> rfl

theorem players_applyStockChange (s : GState) (g : GoalCard) :
    (applyStockChange s g).players = s.players := by
  unfold applyStockChange
  split <;> rfl

theorem stockPrices_applyStockChange (s : GState) (g : GoalCard) :
    (applyStockChange s g).stockPrices
      = (if g.stockChangeParsed ≠ [] then
          applyChanges s.config s.stockPrices g.stockChangeParsed
         else s.stockPrices) := by
  unfold applyStockChange
  split <;> simp_all

theorem players_advanceToNextPlayer (s : GState) :
    (advanceToNextPlayer s).players = s.players := by
  unfold advanceToNextPlayer
  cases s.phaseState.goalResolution <;> rfl

theorem stockPrices_advanceToNextPlayer (s : GState) :
    (advanceToNextPlayer s).stockPrices = s.stockPrices := by
  unfold advanceToNextPlayer
  cases s.phaseState.goalResolution <;> rfl

theorem findGoal_eq_of_players_eq (s s' : GState) (qid gid : String)
    (h : s'.players = s.players) : findGoal s' qid gid = findGoal s qid gid := by
  unfold findGoal getPlayer
  rw [h]

theorem findGoal_addCardToHand (s : GState) (pid qid gid : String) (card : RCard) :
    findGoal (addCardToHand s pid card) qid gid = findGoal s qid gid := by
  unfold addCardToHand
  exact findGoal_players_update s _ pid qid gid
    (fun p => { p with hand := p.hand ++ [card] }) (fun _ => rfl) (fun _ => rfl) rfl

theorem findGoal_adjustPlayerCash (s : GState) (pid qid gid : String) (amount : Int) :
    findGoal (adjustPlayerCash s pid amount) qid gid = findGoal s qid gid := by
  unfold adjustPlayerCash
  exact findGoal_players_update s _ pid qid gid
    (fun p =>
      let c := p.cash + amount
      { p with cash := if c < 0 then 0 else c })
    (fun _ => rfl) (fun _ => rfl) rfl

theorem findGoal_executeSellBonus (s : GState) (pid qid gid : String) (bonus : Int) :
    findGoal (executeSellBonus s pid bonus) qid gid = findGoal s qid gid := by
  unfold executeSellBonus
  exact findGoal_players_update s _ pid qid gid
    (fun p => { p with sellBonus := bonus }) (fun _ => rfl) (fun _ => rfl) rfl

theorem executeGainLowestStock_preserves (s : GState) (pid : String) (rand : Nat) :
    (executeGainLowestStock s pid rand).phaseState = s.phaseState ∧
    (executeGainLowestStock s pid rand).stockPrices = s.stockPrices ∧
    (∀ qid gid, findGoal (executeGainLowestStock s pid rand) qid gid = findGoal s qid gid) := by
  unfold executeGainLowestStock
  dsimp only
  cases hm : (getLowestPriceColors s.stockPrices).get?
      (rand % (getLowestPriceColors s.stockPrices).length) with
  | none => exact ⟨rfl, rfl, fun _ _ => rfl⟩
  | some color =>
    dsimp only
    cases hr : (removeFirstOfColorFromDraw s.resourceDeck color).1 with
    | none => exact ⟨rfl, rfl, fun _ _ => rfl⟩
    | some card =>
      refine ⟨rfl, rfl, fun qid gid => ?_⟩
      rw [findGoal_addCardToHand]
      rfl

theorem executeRewardNoChoice_preserves (s : GState) (pid : String) (r : RewardParsed)
    (rand : Nat) (s4 : GState) (h : executeRewardNoChoice s pid r rand = some s4) :
    s4.phaseState = s.phaseState ∧ s4.stockPrices = s.stockPrices ∧
    (∀ qid gid, findGoal s4 qid gid = findGoal s qid gid) := by
  unfold executeRewardNoChoice at h
  by_cases hflags : (r.requiresTarget || r.requiresChoice) = true
  · rw [if_pos hflags] at h
    cases h
  · rw [if_neg hflags] at h
    by_cases h1 : r.rtype = "gain_cash"
    · rw [if_pos h1] at h
      injection h with h'
      subst h'
      refine ⟨rfl, rfl, fun qid gid => ?_⟩
      exact findGoal_adjustPlayerCash s pid qid gid _
    · rw [if_neg h1] at h
      by_cases h2 : r.rtype = "sell_bonus"
      · rw [if_pos h2] at h
        injection h with h'
        subst h'
        refine ⟨rfl, rfl, fun qid gid => ?_⟩
        exact findGoal_executeSellBonus s pid qid gid _
      · rw [if_neg h2] at h
        by_cases h3 : r.rtype = "gain_lowest_stock"
        · rw [if_pos h3] at h
          injection h with h'
          subst h'
          exact executeGainLowestStock_preserves s pid rand
        · rw [if_neg h3] at h
          by_cases h4 : choiceReadingKinds.contains r.rtype
          · rw [if_pos h4] at h
            cases h
          · rw [if_neg h4] at h
            injection h with h'
            subst h'
            exact ⟨rfl, rfl, fun _ _ => rfl⟩

theorem executeRewardNoChoice_isSome (s : GState) (pid : String) (r : RewardParsed) (rand : Nat)
    (hflags : (r.requiresTarget || r.requiresChoice) = false)
    (hwf : rewardWellFormed r) :
    ∃ s4, executeRewardNoChoice s pid r rand = some s4 := by
  unfold executeRewardNoChoice
  rw [hflags]
  simp only [Bool.false_eq_true, if_false]
  by_cases h1 : r.rtype = "gain_cash"
  · rw [if_pos h1]
    exact ⟨_, rfl⟩
  · rw [if_neg h1]
    by_cases h2 : r.rtype = "sell_bonus"
    · rw [if_pos h2]
      exact ⟨_, rfl⟩
    · rw [if_neg h2]
      by_cases h3 : r.rtype = "gain_lowest_stock"
      · rw [if_pos h3]
        exact ⟨_, rfl⟩
      · rw [if_neg h3]
        have hnc : ¬ choiceReadingKinds.contains r.rtype = true := by
          rcases hwf with hw | hw | hw
          · rw [hw] at hflags
            simp at hflags
          · rw [hw] at hflags
            simp at hflags
          · simpa using hw
        rw [if_neg hnc]
        exact ⟨_, rfl⟩

theorem findGoal_setGoalRevealed (s : GState) (pid gid : String) (player : Player)
    (gcard : GoalCard)
    (hp : getPlayer s pid = some player)
    (hg : player.goalCards.find? (fun g => g.id = gid) = some gcard) :
    findGoal (setGoalRevealed s pid gid) pid gid = some { gcard with revealed := true } := by
  unfold getPlayer at hp
  have hupd := find?_updateFirstPlayer_self s.players pid
    (fun p =>
      { p with goalCards :=
          p.goalCards.map (fun g => if g.id = gid then { g with revealed := true } else g) })
    player hp rfl
  unfold findGoal setGoalRevealed getPlayer
  simp only [hupd]
  rw [find?_setRevealed, hg]
  rfl

theorem initiateRewardExecution_spec (s : GState) (pid : String) (gcard : GoalCard) (rand : Nat)
    (gr : GoalResState)
    (hgr : s.phaseState.goalResolution = some gr)
    (hwf : rewardWellFormed gcard.rewardParsed) :
    (∀ qid gid, findGoal (initiateRewardExecution s pid gcard rand) qid gid = findGoal s qid gid) ∧
    (initiateRewardExecution s pid gcard rand).stockPrices = s.stockPrices ∧
    (∃ gr', (initiateRewardExecution s pid gcard rand).phaseState.goalResolution = some gr' ∧
      (if gcard.rewardParsed.requiresTarget || gcard.rewardParsed.requiresChoice then
        gr'.revealedGoals = gr.revealedGoals ∧
        gr'.pendingRewardExecution
          = some { playerId := pid, rewardType := gcard.rewardParsed.rtype, goalCard := gcard } ∧
        gr'.currentPlayerIndex = gr.currentPlayerIndex
      else
        gr'.revealedGoals = markFirstUnexecuted pid gr.revealedGoals ∧
        gr'.pendingRewardExecution = none ∧
        gr'.currentPlayerIndex = gr.currentPlayerIndex + 1)) := by
  by_cases hflags : (gcard.rewardParsed.requiresTarget || gcard.rewardParsed.requiresChoice) = true
  · have hnone : executeRewardNoChoice s pid gcard.rewardParsed rand = none := by
      unfold executeRewardNoChoice
      rw [if_pos hflags]
    unfold initiateRewardExecution
    simp only [hnone, hgr]
    refine ⟨fun _ _ => rfl, rfl, _, rfl, ?_⟩
    rw [if_pos hflags]
    exact ⟨rfl, rfl, rfl⟩
  · have hflags' : (gcard.rewardParsed.requiresTarget || gcard.rewardParsed.requiresChoice) = false := by
      simpa using hflags
    rcases executeRewardNoChoice_isSome s pid gcard.rewardParsed rand hflags' hwf with ⟨s4, hs4⟩
    rcases executeRewardNoChoice_preserves s pid gcard.rewardParsed rand s4 hs4 with
      ⟨hps, hpr, hfg⟩
    have hgr4 : s4.phaseState.goalResolution = some gr := by
      rw [hps]
      exact hgr
    unfold initiateRewardExecution
    simp only [hs4]
    unfold completeRewardExecution
    simp only [hgr4]
    refine ⟨?_, ?_, ?_⟩
    · intro qid gid
      have h1 : (advanceToNextPlayer (setGoalRes s4 (some { gr with
          revealedGoals := markFirstUnexecuted pid gr.revealedGoals
          pendingRewardExecution := none }))).players = s4.players := by
        rw [players_advanceToNextPlayer]
        rfl
      rw [findGoal_eq_of_players_eq s4 _ qid gid h1]
      exact hfg qid gid
    · have h1 : (advanceToNextPlayer (setGoalRes s4 (some { gr with
          revealedGoals := markFirstUnexecuted pid gr.revealedGoals
          pendingRewardExecution := none }))).stockPrices = s4.stockPrices := by
        rw [stockPrices_advanceToNextPlayer]
        rfl
      rw [h1]
      exact hpr
    · unfold advanceToNextPlayer
      refine ⟨_, rfl, ?_⟩
      rw [if_neg hflags]
      exact ⟨rfl, rfl, rfl⟩

/-- C7: on every validated goal reveal the goal card's revealed flag is
set, the card's market-change deltas are applied to the market
immediately (the reveal itself finishes with the prices updated, before
any other player's reveal), and the owner's current hand is checked
against the goal requirement via `checkGoal` (all "at least N of color"
constraints, or zero cards of the avoided color); when the requirement
is met reward execution begins — the reward either pauses in the
pending-reward slot awaiting the player's choice, or executes
synchronously and is marked executed with the turn advancing — and when
it is not met the turn advances directly.  Assumes the pre-parsed
reward facet is well formed (a kind that reads choices is flagged as
requiring them) and that the player has no earlier unexecuted reveal
record this phase (the engine advances the turn only after rewards
complete). -/
theorem C7_goal_reveal (s : GState) (pid gid : String) (rand : Nat)
    (player : Player) (gcard : GoalCard) (gr : GoalResState)
    (hv : validateGoalReveal s pid gid = true)
    (hp : getPlayer s pid = some player)
    (hg : player.goalCards.find? (fun g => g.id = gid) = some gcard)
    (hgr : s.phaseState.goalResolution = some gr)
    (hwf : rewardWellFormed gcard.rewardParsed)
    (hrec : ∀ g ∈ gr.revealedGoals, g.playerId = pid → g.rewardExecuted = true) :
    findGoal (revealGoal s pid gid rand) pid gid = some { gcard with revealed := true } ∧
    (revealGoal s pid gid rand).stockPrices
      = (if gcard.stockChangeParsed ≠ [] then
          applyChanges s.config s.stockPrices gcard.stockChangeParsed
         else s.stockPrices) ∧
    (∃ gr', (revealGoal s pid gid rand).phaseState.goalResolution = some gr' ∧
      ∃ rc, gr'.revealedGoals.get? gr.revealedGoals.length = some rc ∧
        rc.playerId = pid ∧
        rc.goalMet = checkGoal gcard player.hand ∧
        (if checkGoal gcard player.hand then
          (if gcard.rewardParsed.requiresTarget || gcard.rewardParsed.requiresChoice then
            (∃ pr, gr'.pendingRewardExecution = some pr ∧ pr.playerId = pid ∧
              pr.rewardType = gcard.rewardParsed.rtype) ∧
            gr'.currentPlayerIndex = gr.currentPlayerIndex
          else
            rc.rewardExecuted = true ∧
            gr'.pendingRewardExecution = none ∧
            gr'.currentPlayerIndex = gr.currentPlayerIndex + 1)
        else
          rc.rewardExecuted = false ∧
          gr'.pendingRewardExecution = gr.pendingRewardExecution ∧
          gr'.currentPlayerIndex = gr.currentPlayerIndex + 1)) := by
  have hgrmid : (applyStockChange (setGoalRevealed s pid gid)
      { gcard with revealed := true }).phaseState.goalResolution = some gr := by
    rw [phaseState_applyStockChange]
    exact hgr
  have hchk : checkGoal { gcard with revealed := true } player.hand
      = checkGoal gcard player.hand := rfl
  have hred : revealGoal s pid gid rand
      = (if checkGoal { gcard with revealed := true } player.hand then
          initiateRewardExecution
            (setGoalRes (applyStockChange (setGoalRevealed s pid gid) { gcard with revealed := true })
              (some { gr with revealedGoals := gr.revealedGoals ++
                [{ playerId := pid, goalCard := { gcard with revealed := true },
                   goalMet := checkGoal { gcard with revealed := true } player.hand,
                   rewardExecuted := false }] }))
            pid { gcard with revealed := true } rand
        else
          advanceToNextPlayer
            (setGoalRes (applyStockChange (setGoalRevealed s pid gid) { gcard with revealed := true })
              (some { gr with revealedGoals := gr.revealedGoals ++
                [{ playerId := pid, goalCard := { gcard with revealed := true },
                   goalMet := checkGoal { gcard with revealed := true } player.hand,
                   rewardExecuted := false }] }))) := by
    unfold revealGoal
    simp only [hp, hg, hgrmid]
  have hfgmid : findGoal
      (setGoalRes (applyStockChange (setGoalRevealed s pid gid) { gcard with revealed := true })
        (some { gr with revealedGoals := gr.revealedGoals ++
          [{ playerId := pid, goalCard := { gcard with revealed := true },
             goalMet := checkGoal { gcard with revealed := true } player.hand,
             rewardExecuted := false }] }))
      pid gid = some { gcard with revealed := true } := by
    have h1 : (setGoalRes (applyStockChange (setGoalRevealed s pid gid)
        { gcard with revealed := true })
        (some { gr with revealedGoals := gr.revealedGoals ++
          [{ playerId := pid, goalCard := { gcard with revealed := true },
             goalMet := checkGoal { gcard with revealed := true } player.hand,
             rewardExecuted := false }] })).players
        = (setGoalRevealed s pid gid).players := by
      show (applyStockChange (setGoalRevealed s pid gid)
        { gcard with revealed := true }).players = (setGoalRevealed s pid gid).players
      exact players_applyStockChange _ _
    rw [findGoal_eq_of_players_eq (setGoalRevealed s pid gid) _ pid gid h1]
    exact findGoal_setGoalRevealed s pid gid player gcard hp hg
  have hprmid : (setGoalRes (applyStockChange (setGoalRevealed s pid gid)
      { gcard with revealed := true })
      (some { gr with revealedGoals := gr.revealedGoals ++
        [{ playerId := pid, goalCard := { gcard with revealed := true },
           goalMet := checkGoal { gcard with revealed := true } player.hand,
           rewardExecuted := false }] })).stockPrices
      = (if gcard.stockChangeParsed ≠ [] then
          applyChanges s.config s.stockPrices gcard.stockChangeParsed
         else s.stockPrices) := by
    show (applyStockChange (setGoalRevealed s pid gid)
        { gcard with revealed := true }).stockPrices = _
    rw [stockPrices_applyStockChange]
    rfl
  rw [hred]
  by_cases hmetb : checkGoal { gcard with revealed := true } player.hand = true
  · rw [if_pos hmetb]
    have hwfR : rewardWellFormed ({ gcard with revealed := true } : GoalCard).rewardParsed := hwf
    rcases initiateRewardExecution_spec
        (setGoalRes (applyStockChange (setGoalRevealed s pid gid) { gcard with revealed := true })
          (some { gr with revealedGoals := gr.revealedGoals ++
            [{ playerId := pid, goalCard := { gcard with revealed := true },
               goalMet := checkGoal { gcard with revealed := true } player.hand,
               rewardExecuted := false }] }))
        pid { gcard with revealed := true } rand
        { gr with revealedGoals := gr.revealedGoals ++
          [{ playerId := pid, goalCard := { gcard with revealed := true },
             goalMet := checkGoal { gcard with revealed := true } player.hand,
             rewardExecuted := false }] }
        rfl hwfR with ⟨hfg, hpr, gr', hgr', hbranch⟩
    have hmetb' : checkGoal gcard player.hand = true := hmetb
    refine ⟨?_, ?_, gr', hgr', ?_⟩
    · rw [hfg]
      exact hfgmid
    · rw [hpr]
      exact hprmid
    · by_cases hflags : (gcard.rewardParsed.requiresTarget
          || gcard.rewardParsed.requiresChoice) = true
      · have hflagsR : (({ gcard with revealed := true } : GoalCard).rewardParsed.requiresTarget
            || ({ gcard with revealed := true } : GoalCard).rewardParsed.requiresChoice)
            = true := hflags
        rw [if_pos hflagsR] at hbranch
        rcases hbranch with ⟨hrg, hpend, hidx⟩
        refine ⟨⟨pid, { gcard with revealed := true },
          checkGoal { gcard with revealed := true } player.hand, false⟩, ?_, rfl, hchk, ?_⟩
        · rw [hrg]
          exact List.get?_concat_length _ _
        · rw [if_pos hmetb', if_pos hflags]
          exact ⟨⟨_, hpend, rfl, rfl⟩, hidx⟩
      · have hflagsR : ¬ (({ gcard with revealed := true } : GoalCard).rewardParsed.requiresTarget
            || ({ gcard with revealed := true } : GoalCard).rewardParsed.requiresChoice)
            = true := hflags
        rw [if_neg hflagsR] at hbranch
        rcases hbranch with ⟨hrg, hpend, hidx⟩
        have hmark : markFirstUnexecuted pid (gr.revealedGoals ++
            [⟨pid, { gcard with revealed := true },
              checkGoal { gcard with revealed := true } player.hand, false⟩])
            = gr.revealedGoals ++
              [⟨pid, { gcard with revealed := true },
                checkGoal { gcard with revealed := true } player.hand, true⟩] :=
          markFirstUnexecuted_append pid gr.revealedGoals _ hrec rfl rfl
        refine ⟨⟨pid, { gcard with revealed := true },
          checkGoal { gcard with revealed := true } player.hand, true⟩, ?_, rfl, hchk, ?_⟩
        · rw [hrg, hmark]
          exact List.get?_concat_length _ _
        · rw [if_pos hmetb', if_neg hflags]
          exact ⟨rfl, hpend, hidx⟩
  · rw [if_neg hmetb]
    have hmetb' : ¬ checkGoal gcard player.hand = true := hmetb
    refine ⟨?_, ?_, ?_⟩
    · have h1 : (advanceToNextPlayer
          (setGoalRes (applyStockChange (setGoalRevealed s pid gid) { gcard with revealed := true })
            (some { gr with revealedGoals := gr.revealedGoals ++
              [{ playerId := pid, goalCard := { gcard with revealed := true },
                 goalMet := checkGoal { gcard with revealed := true } player.hand,
                 rewardExecuted := false }] }))).players
          = (setGoalRevealed s pid gid).players := by
        rw [players_advanceToNextPlayer]
        show (applyStockChange (setGoalRevealed s pid gid)
          { gcard with revealed := true }).players = _
        exact players_applyStockChange _ _
      rw [findGoal_eq_of_players_eq (setGoalRevealed s pid gid) _ pid gid h1]
      exact findGoal_setGoalRevealed s pid gid player gcard hp hg
    · rw [stockPrices_advanceToNextPlayer]
      exact hprmid
    · unfold advanceToNextPlayer
      refine ⟨_, rfl, ?_⟩
      refine ⟨⟨pid, { gcard with revealed := true },
        checkGoal { gcard with revealed := true } player.hand, false⟩, ?_, rfl, hchk, ?_⟩
      · exact List.get?_concat_length _ _
      · rw [if_neg hmetb']
        exact ⟨rfl, rfl, rfl⟩

theorem C7_goal_reveal_witness :
    validateGoalReveal c7State "a" "g1" = true ∧
    (findGoal (revealGoal c7State "a" "g1" 0) "a" "g1" = some { c7Goal with revealed := true } ∧
    (revealGoal c7State "a" "g1" 0).stockPrices
      = (if c7Goal.stockChangeParsed ≠ [] then
          applyChanges c7State.config c7State.stockPrices c7Goal.stockChangeParsed
         else c7State.stockPrices) ∧
    (∃ gr', (revealGoal c7State "a" "g1" 0).phaseState.goalResolution = some gr' ∧
      ∃ rc, gr'.revealedGoals.get? c7GoalRes.revealedGoals.length = some rc ∧
        rc.playerId = "a" ∧
        rc.goalMet = checkGoal c7Goal c7PlayerA.hand ∧
        (if checkGoal c7Goal c7PlayerA.hand then
          (if c7Goal.rewardParsed.requiresTarget || c7Goal.rewardParsed.requiresChoice then
            (∃ pr, gr'.pendingRewardExecution = some pr ∧ pr.playerId = "a" ∧
              pr.rewardType = c7Goal.rewardParsed.rtype) ∧
            gr'.currentPlayerIndex = c7GoalRes.currentPlayerIndex
          else
            rc.rewardExecuted = true ∧
            gr'.pendingRewardExecution = none ∧
            gr'.currentPlayerIndex = c7GoalRes.currentPlayerIndex + 1)
        else
          rc.rewardExecuted = false ∧
          gr'.pendingRewardExecution = c7GoalRes.pendingRewardExecution ∧
          gr'.currentPlayerIndex = c7GoalRes.currentPlayerIndex + 1))) :=
  ⟨by decide,
   C7_goal_reveal c7State "a" "g1" 0 c7PlayerA c7Goal c7GoalRes
     (by decide) (by decide) (by decide) rfl (by decide) (by decide)⟩

/-! ### C8: auction termination -/

theorem mem_le_foldr_max (l : List Nat) (x : Nat) (hx : x ∈ l) :
    x ≤ l.foldr max 0 := by
  induction l with
  | nil => cases hx
  | cons a t ih =>
    rcases List.mem_cons.mp hx with h | h
    · subst h
      simp only [List.foldr_cons]
      exact le_max_left _ _
    · simp only [List.foldr_cons]
      exact le_trans (ih h) (le_max_right _ _)

theorem length_filter_lt_of_mem_not {α : Type} (p : α → Bool) (l : List α) (x : α)
    (hx : x ∈ l) (hpx : p x = false) : (l.filter p).length < l.length := by
  induction l with
  | nil => cases hx
  | cons a t ih =>
    rcases List.mem_cons.mp hx with h | h
    · subst h
      simp only [List.filter_cons, hpx, Bool.false_eq_true, if_false, List.length_cons]
      exact Nat.lt_succ_of_le (List.length_filter_le p t)
    · cases hpa : p a
      · simp only [List.filter_cons, hpa, Bool.false_eq_true, if_false, List.length_cons]
        exact Nat.lt_succ_of_lt (ih h)
      · simp only [List.filter_cons, hpa, if_true, List.length_cons]
        exact Nat.succ_lt_succ (ih h)

theorem cash_le_maxCashNat (s : GState) (p : Player) (hp : p ∈ s.players) :
    p.cash ≤ (maxCashNat s : Int) := by
  have h1 : p.cash.toNat ∈ s.players.map (fun q => q.cash.toNat) :=
    List.mem_map_of_mem _ hp
  have h2 : p.cash.toNat ≤ maxCashNat s := mem_le_foldr_max _ _ h1
  omega

theorem maxCashNat_eq_of_players (s s' : GState) (h : s'.players = s.players) :
    maxCashNat s' = maxCashNat s := by
  unfold maxCashNat
  rw [h]

theorem advanceToNextActiveBidder_shape (s : GState) (au : AuctionState) :
    ∃ i, advanceToNextActiveBidder s au = { au with currentPlayerIndex := i } := by
  unfold advanceToNextActiveBidder
  dsimp only
  cases findNextActiveIdx s.turnOrder au.activeBidders s.players.length
      ((au.currentPlayerIndex + 1) % s.players.length) s.players.length with
  | none => exact ⟨au.currentPlayerIndex, rfl⟩
  | some i => exact ⟨i, rfl⟩

theorem players_placeBid (s : GState) (pid : String) (amount : Int) :
    (placeBid s pid amount).players = s.players := by
  unfold placeBid
  cases s.phaseState.auction <;> rfl

theorem currentPhase_placeBid (s : GState) (pid : String) (amount : Int) :
    (placeBid s pid amount).currentPhase = s.currentPhase := by
  unfold placeBid
  cases s.phaseState.auction <;> rfl

theorem currentPhase_moveToNextCard (s : GState) :
    (moveToNextCard s).currentPhase = s.currentPhase := by
  unfold moveToNextCard
  cases s.phaseState.auction with
  | none => rfl
  | some au =>
    dsimp only
    split <;> rfl

theorem moveToNextCard_auction (s : GState) (au : AuctionState)
    (hau : s.phaseState.auction = some au) :
    ∃ au', (moveToNextCard s).phaseState.auction = some au' ∧
      au'.currentCardIndex = au.currentCardIndex + 1 := by
  unfold moveToNextCard
  simp only [hau]
  split
  · exact ⟨_, rfl, rfl⟩
  · exact ⟨_, rfl, rfl⟩

theorem currentPhase_completeCurrentCardAuction (s : GState) :
    (completeCurrentCardAuction s).currentPhase = s.currentPhase := by
  unfold completeCurrentCardAuction
  cases s.phaseState.auction with
  | none => rfl
  | some au =>
    dsimp only
    cases (match au.currentHighBidder with
           | some w => some w
           | none => au.activeBidders.head?) with
    | none => exact currentPhase_moveToNextCard _
    | some w =>
      cases au.currentCard with
      | none => exact currentPhase_moveToNextCard _
      | some c => exact currentPhase_moveToNextCard _

theorem completeCurrentCardAuction_auction (s : GState) (au : AuctionState)
    (hau : s.phaseState.auction = some au) :
    ∃ au', (completeCurrentCardAuction s).phaseState.auction = some au' ∧
      au'.currentCardIndex = au.currentCardIndex + 1 := by
  unfold completeCurrentCardAuction
  simp only [hau]
  cases (match au.currentHighBidder with
         | some w => some w
         | none => au.activeBidders.head?) with
  | none => exact moveToNextCard_auction s au hau
  | some w =>
    cases au.currentCard with
    | none => exact moveToNextCard_auction _ au hau
    | some c => exact moveToNextCard_auction _ au hau

theorem auction_advancePhase (s : GState) (h : s.currentPhase = phaseAuction) :
    (advancePhase s).phaseState.auction = none := by
  unfold advancePhase
  have hg : getNextPhase s.currentPhase = some phaseTrading := by
    rw [h]
    unfold getNextPhase
    rw [if_pos rfl]
  simp only [hg]
  unfold transitionToPhase
  dsimp only
  unfold initPhase
  rw [if_neg (by decide : ¬ (phaseTrading = phaseAuction)), if_pos rfl]
  show (cleanupPhase s s.currentPhase).phaseState.auction = none
  unfold cleanupPhase
  rw [h, if_pos rfl]
  rfl

theorem autoAdvance_auction_cases (s : GState) (h : s.currentPhase = phaseAuction) :
    (autoAdvance s).phaseState.auction = none ∨ autoAdvance s = s := by
  unfold autoAdvance
  by_cases hc : canAdvancePhase s = true
  · rw [if_pos hc]
    exact Or.inl (auction_advancePhase s h)
  · rw [if_neg hc]
    exact Or.inr rfl

theorem sameCardOpen_no_bump (s s' : GState) (au : AuctionState)
    (hau : s.phaseState.auction = some au)
    (hsame : SameCardOpen s s')
    (h' : s'.phaseState.auction = none ∨
      ∃ au', s'.phaseState.auction = some au' ∧
        au'.currentCardIndex = au.currentCardIndex + 1) : False := by
  rcases hsame with ⟨au1, au2, h1, h2, h3⟩
  rw [hau] at h1
  injection h1 with h1
  subst h1
  rcases h' with hn | ⟨au', ha', hidx⟩
  · rw [h2] at hn
    cases hn
  · rw [h2] at ha'
    injection ha' with ha'
    subst ha'
    omega

theorem autoAdvance_bump_absurd (s X : GState) (au : AuctionState)
    (hau : s.phaseState.auction = some au)
    (hphX : X.currentPhase = phaseAuction)
    (hX : ∃ au', X.phaseState.auction = some au' ∧
      au'.currentCardIndex = au.currentCardIndex + 1)
    (hsame : SameCardOpen s (autoAdvance X)) : False := by
  rcases autoAdvance_auction_cases X hphX with hnone | heq
  · exact sameCardOpen_no_bump s (autoAdvance X) au hau hsame (Or.inl hnone)
  · refine sameCardOpen_no_bump s (autoAdvance X) au hau hsame (Or.inr ?_)
    rcases hX with ⟨au', ha', hidx⟩
    exact ⟨au', by rw [heq]; exact ha', hidx⟩

theorem validateBid_spec (s : GState) (pid : String) (amount : Int)
    (hv : validateBid s pid amount = true) :
    s.currentPhase = phaseAuction ∧
    ∃ player au, getPlayer s pid = some player ∧ s.phaseState.auction = some au ∧
      pid ∈ au.activeBidders ∧ au.currentBid < amount ∧ amount ≤ player.cash := by
  unfold validateBid at hv
  rw [Bool.and_eq_true] at hv
  obtain ⟨h1, h2⟩ := hv
  refine ⟨by simpa using h1, ?_⟩
  cases hp : getPlayer s pid with
  | none =>
    simp only [hp] at h2
    cases h2
  | some player =>
    simp only [hp] at h2
    cases hau : s.phaseState.auction with
    | none =>
      simp only [hau] at h2
      cases h2
    | some au =>
      simp only [hau] at h2
      rw [Bool.and_eq_true, Bool.and_eq_true] at h2
      obtain ⟨⟨hc, hgt⟩, hcash⟩ := h2
      exact ⟨player, au, rfl, rfl, by simpa using hc, by simpa using hgt,
        by simpa using hcash⟩

theorem validatePass_spec (s : GState) (pid : String)
    (hv : validatePass s pid = true) :
    s.currentPhase = phaseAuction ∧
    ∃ au, s.phaseState.auction = some au ∧ pid ∈ au.activeBidders := by
  unfold validatePass at hv
  rw [Bool.and_eq_true] at hv
  obtain ⟨h1, h2⟩ := hv
  refine ⟨by simpa using h1, ?_⟩
  cases hau : s.phaseState.auction with
  | none =>
    simp only [hau] at h2
    cases h2
  | some au =>
    simp only [hau] at h2
    exact ⟨au, rfl, by simpa using h2⟩

theorem auction_setAuction (s : GState) (o : Option AuctionState) :
    (setAuction s o).phaseState.auction = o := rfl

theorem currentPhase_setAuction (s : GState) (o : Option AuctionState) :
    (setAuction s o).currentPhase = s.currentPhase := rfl

theorem players_setAuction (s : GState) (o : Option AuctionState) :
    (setAuction s o).players = s.players := rfl

theorem passAction_cases (s : GState) (pid : String) (au : AuctionState)
    (hau : s.phaseState.auction = some au) (hmem : pid ∈ au.activeBidders) :
    ((passAction s pid).currentPhase = s.currentPhase ∧
     ∃ au', (passAction s pid).phaseState.auction = some au' ∧
       au'.currentCardIndex = au.currentCardIndex + 1) ∨
    ((passAction s pid).currentPhase = s.currentPhase ∧
     (passAction s pid).players = s.players ∧
     ∃ act i, act.length < au.activeBidders.length ∧
       (passAction s pid).phaseState.auction = some
         { au with activeBidders := act, currentPlayerIndex := i }) := by
  have hlt : (au.activeBidders.filter (fun x => x ≠ pid)).length
      < au.activeBidders.length :=
    length_filter_lt_of_mem_not _ _ pid hmem (by simp)
  unfold passAction
  simp only [hau]
  split
  · left
    refine ⟨?_, ?_⟩
    · rw [currentPhase_completeCurrentCardAuction]
      rfl
    · exact completeCurrentCardAuction_auction _
        { au with activeBidders := au.activeBidders.filter (fun x => x ≠ pid) } rfl
  · split
    · cases au.currentCard with
      | none =>
        left
        refine ⟨?_, ?_⟩
        · rw [currentPhase_moveToNextCard]
          rfl
        · exact moveToNextCard_auction _
            { au with currentCard := none, activeBidders := au.activeBidders.filter (fun x => x ≠ pid) } rfl
      | some c =>
        left
        refine ⟨?_, ?_⟩
        · rw [currentPhase_moveToNextCard]
          rfl
        · exact moveToNextCard_auction _
            { au with currentCard := some c, activeBidders := au.activeBidders.filter (fun x => x ≠ pid) } rfl
    · obtain ⟨i, hshape⟩ := advanceToNextActiveBidder_shape
        (setAuction s (some { au with
          activeBidders := au.activeBidders.filter (fun x => x ≠ pid) }))
        { au with activeBidders := au.activeBidders.filter (fun x => x ≠ pid) }
      rw [hshape]
      dsimp only
      cases hlr : au.lastRaiserIndex with
      | none =>
        right
        exact ⟨rfl, rfl, au.activeBidders.filter (fun x => x ≠ pid), i, hlt, rfl⟩
      | some lr =>
        dsimp only
        split
        · left
          refine ⟨?_, ?_⟩
          · rw [currentPhase_completeCurrentCardAuction]
            rfl
          · exact completeCurrentCardAuction_auction _
              { au with lastRaiserIndex := some lr, activeBidders := au.activeBidders.filter (fun x => x ≠ pid), currentPlayerIndex := i } rfl
        · right
          exact ⟨rfl, rfl, au.activeBidders.filter (fun x => x ≠ pid), i, hlt, rfl⟩

theorem measure_decrease_bid (s : GState) (pid : String) (amount : Int)
    (hv : validateBid s pid amount = true)
    (hsame : SameCardOpen s (stepBid s pid amount)) :
    auctionMeasure (stepBid s pid amount) < auctionMeasure s := by
  obtain ⟨hph, player, au, hp, hau, hmem, hgt, hcash⟩ := validateBid_spec s pid amount hv
  obtain ⟨i, hshape⟩ := advanceToNextActiveBidder_shape s { au with currentBid := amount, currentHighBidder := some pid, lastRaiserIndex := some au.currentPlayerIndex }
  have hpb : placeBid s pid amount = setAuction s (some { au with currentBid := amount, currentHighBidder := some pid, lastRaiserIndex := some au.currentPlayerIndex, currentPlayerIndex := i }) := by
    unfold placeBid
    simp only [hau]
    rw [hshape]
  have hph1 : (placeBid s pid amount).currentPhase = phaseAuction := by
    rw [currentPhase_placeBid]
    exact hph
  have hsb0 : stepBid s pid amount = autoAdvance (placeBid s pid amount) := rfl
  rcases autoAdvance_auction_cases (placeBid s pid amount) hph1 with hnone | heq
  · exfalso
    rcases hsame with ⟨au1, au2, h1, h2, h3⟩
    rw [hsb0, hnone] at h2
    cases h2
  · have hsb : stepBid s pid amount = setAuction s (some { au with currentBid := amount, currentHighBidder := some pid, lastRaiserIndex := some au.currentPlayerIndex, currentPlayerIndex := i }) := by
      rw [hsb0, heq, hpb]
    have hM : maxCashNat (stepBid s pid amount) = maxCashNat s := by
      apply maxCashNat_eq_of_players
      rw [hsb]
      exact players_setAuction _ _
    have hm1 : auctionMeasure (stepBid s pid amount)
        = au.activeBidders.length * (maxCashNat s + 1)
          + ((maxCashNat s : Int) - amount).toNat := by
      unfold auctionMeasure
      rw [hM]
      rw [hsb, auction_setAuction]
    have hm0 : auctionMeasure s
        = au.activeBidders.length * (maxCashNat s + 1)
          + ((maxCashNat s : Int) - au.currentBid).toNat := by
      unfold auctionMeasure
      rw [hau]
    have hle : amount ≤ (maxCashNat s : Int) :=
      le_trans hcash (cash_le_maxCashNat s player (List.mem_of_find?_eq_some hp))
    have hkey : ((maxCashNat s : Int) - amount).toNat
        < ((maxCashNat s : Int) - au.currentBid).toNat := by
      omega
    rw [hm1, hm0]
    exact Nat.add_lt_add_left hkey _

theorem measure_decrease_pass (s : GState) (pid : String)
    (hv : validatePass s pid = true)
    (hsame : SameCardOpen s (stepPass s pid)) :
    auctionMeasure (stepPass s pid) < auctionMeasure s := by
  obtain ⟨hph, au, hau, hmem⟩ := validatePass_spec s pid hv
  have hsp0 : stepPass s pid = autoAdvance (passAction s pid) := rfl
  rcases passAction_cases s pid au hau hmem with ⟨hphX, hbump⟩ | ⟨hphX, hpl, act, i, hlt, hauX⟩
  · exfalso
    refine autoAdvance_bump_absurd s (passAction s pid) au hau ?_ hbump ?_
    · rw [hphX]
      exact hph
    · rw [← hsp0]
      exact hsame
  · have hphX2 : (passAction s pid).currentPhase = phaseAuction := by
      rw [hphX]
      exact hph
    rcases autoAdvance_auction_cases (passAction s pid) hphX2 with hnone | heq
    · exfalso
      rcases hsame with ⟨au1, au2, h1, h2, h3⟩
      rw [hsp0, hnone] at h2
      cases h2
    · have hsp : stepPass s pid = passAction s pid := by
        rw [hsp0, heq]
      have hM : maxCashNat (stepPass s pid) = maxCashNat s := by
        apply maxCashNat_eq_of_players
        rw [hsp]
        exact hpl
      have hm1 : auctionMeasure (stepPass s pid)
          = act.length * (maxCashNat s + 1)
            + ((maxCashNat s : Int) - au.currentBid).toNat := by
        unfold auctionMeasure
        rw [hM]
        rw [hsp, hauX]
      have hm0 : auctionMeasure s
          = au.activeBidders.length * (maxCashNat s + 1)
            + ((maxCashNat s : Int) - au.currentBid).toNat := by
        unfold auctionMeasure
        rw [hau]
      rw [hm1, hm0]
      exact Nat.add_lt_add_right
        (mul_lt_mul_of_pos_right hlt (Nat.succ_pos (maxCashNat s))) _

/-- C8: auction turn-closure termination — along any run of validated
bid/pass actions that keeps the same queued card under auction (the
auction sub-state stays populated with an unchanged card index, i.e.
the card has not yet been won or discarded), every step strictly
decreases the measure |activeBidders|·(maxCash+1) + (maxCash − bid)⁺,
so any such run of length k satisfies k ≤ that measure of its start:
bidding on one card cannot go on forever, and the auction for the card
ends — by the one-bidder/zero-bidder pass rules or by the rotation
returning to the last raiser — after finitely many validated actions. -/
theorem C8_auction_termination (f : Nat → GState) (k : Nat)
    (hsteps : ∀ n, n < k →
      AuctionStep (f n) (f (n + 1)) ∧ SameCardOpen (f n) (f (n + 1))) :
    k ≤ auctionMeasure (f 0) := by
  have key : ∀ n, n ≤ k → n + auctionMeasure (f n) ≤ auctionMeasure (f 0) := by
    intro n
    induction n with
    | zero => intro _; simp
    | succ m ih =>
      intro hm
      have hmk : m < k := lt_of_lt_of_le (Nat.lt_succ_self m) hm
      obtain ⟨hstep, hsame⟩ := hsteps m hmk
      have hdec : auctionMeasure (f (m + 1)) < auctionMeasure (f m) := by
        revert hstep hsame
        generalize f (m + 1) = t
        intro hstep hsame
        cases hstep with
        | bid pid amount hv => exact measure_decrease_bid (f m) pid amount hv hsame
        | pass pid hv => exact measure_decrease_pass (f m) pid hv hsame
      have hih := ih (le_of_lt hmk)
      omega
  have hk := key k le_rfl
  omega

theorem C8_auction_termination_witness : 1 ≤ auctionMeasure (c8f 0) := by
  apply C8_auction_termination c8f 1
  intro n hn
  have h0 : n = 0 := Nat.lt_one_iff.mp hn
  subst h0
  constructor
  · show AuctionStep c8s0 c8s1
    exact AuctionStep.bid c8s0 "a" 1 (by decide)
  · show SameCardOpen c8s0 c8s1
    exact ⟨c8Auction, _, rfl, rfl, by decide⟩

/-! ### C4: trade value conservation -/

theorem calculateCardValue_eq (prices : List (Color × Int)) :
    ∀ (cards : List RCard) (a : Int),
      cards.foldl (fun total card =>
        match lookupPrice prices card.color with
        | some p => total + p
        | none => total) a = a + (cards.map (priceOf prices)).sum := by
  intro cards
  induction cards with
  | nil => intro a; simp
  | cons c rest ih =>
    intro a
    rw [List.foldl_cons, List.map_cons, List.sum_cons, ih]
    unfold priceOf
    cases lookupPrice prices c.color with
    | none => ring
    | some p => ring

theorem calculateCardValue_sum (cards : List RCard) (prices : List (Color × Int)) :
    calculateCardValue cards prices = (cards.map (priceOf prices)).sum := by
  unfold calculateCardValue
  rw [calculateCardValue_eq]
  ring

theorem calculateCardValue_append (h t : List RCard) (prices : List (Color × Int)) :
    calculateCardValue (h ++ t) prices
      = calculateCardValue h prices + calculateCardValue t prices := by
  simp [calculateCardValue_sum]

theorem calculateCardValue_perm (l1 l2 : List RCard) (prices : List (Color × Int))
    (hperm : l1.Perm l2) :
    calculateCardValue l1 prices = calculateCardValue l2 prices := by
  rw [calculateCardValue_sum, calculateCardValue_sum]
  exact List.Perm.sum_eq (hperm.map _)

theorem removeById_perm (hand : List RCard) (cid : String) (c : RCard) (rest : List RCard)
    (h : removeById hand cid = some (c, rest)) : hand.Perm (c :: rest) := by
  induction hand generalizing rest with
  | nil => cases h
  | cons a t ih =>
    unfold removeById at h
    by_cases ha : a.id = cid
    · rw [if_pos ha] at h
      injection h with h
      injection h with h1 h2
      subst h1
      subst h2
      exact List.Perm.refl _
    · rw [if_neg ha] at h
      cases hr : removeById t cid with
      | none =>
        rw [hr] at h
        cases h
      | some pr =>
        rw [hr] at h
        injection h with h
        injection h with h1 h2
        subst h1
        subst h2
        exact List.Perm.trans (List.Perm.cons a (ih pr.2 hr)) (List.Perm.swap _ _ _)

theorem removeFirstOfColor_perm (c : Color) :
    ∀ (hand : List RCard) (n : Nat),
      hand.Perm ((removeFirstOfColor hand c n).1 ++ (removeFirstOfColor hand c n).2) := by
  intro hand
  induction hand with
  | nil =>
    intro n
    cases n <;> exact List.Perm.refl _
  | cons card rest ih =>
    intro n
    cases n with
    | zero => exact List.Perm.refl _
    | succ m =>
      simp only [removeFirstOfColor]
      by_cases hc : card.color = c
      · rw [if_pos hc]
        exact List.Perm.cons card (ih m)
      · rw [if_neg hc]
        exact List.Perm.trans (List.Perm.cons card (ih (Nat.succ m))) List.perm_middle.symm

theorem wealth_setTrading (s : GState) (tr : Option TradingState) (q : String) :
    calculatePlayerWealth (setTrading s tr) q = calculatePlayerWealth s q := rfl

theorem getPlayer_setTrading (s : GState) (tr : Option TradingState) (q : String) :
    getPlayer (setTrading s tr) q = getPlayer s q := rfl

theorem wealth_autoCancel (s : GState) (pid q : String) :
    calculatePlayerWealth (autoCancelInvalidOffers s pid) q = calculatePlayerWealth s q := by
  unfold autoCancelInvalidOffers
  cases s.phaseState.trading with
  | none => rfl
  | some tr =>
    cases getPlayer s pid with
    | none => rfl
    | some player => rfl

theorem stockPrices_addCardToHand (s : GState) (pid : String) (c : RCard) :
    (addCardToHand s pid c).stockPrices = s.stockPrices := rfl

theorem stockPrices_adjustPlayerCash (s : GState) (pid : String) (amount : Int) :
    (adjustPlayerCash s pid amount).stockPrices = s.stockPrices := rfl

theorem wealth_eq_of_getPlayer (s : GState) (q : String) (p : Player)
    (hp : getPlayer s q = some p) :
    calculatePlayerWealth s q = p.cash + calculateCardValue p.hand s.stockPrices := by
  unfold calculatePlayerWealth
  rw [hp]

theorem cashLeg (st : GState) (X Y : String) (hne : X ≠ Y) (amt : Int)
    (x y : Player) (hx : getPlayer st X = some x) (hy : getPlayer st Y = some y)
    (hxc : amt ≤ x.cash) (hyc : 0 ≤ y.cash) (hamt : 0 < amt) :
    ∃ x' y',
      getPlayer (adjustPlayerCash (adjustPlayerCash st X (-amt)) Y amt) X = some x' ∧
      getPlayer (adjustPlayerCash (adjustPlayerCash st X (-amt)) Y amt) Y = some y' ∧
      x'.cash = x.cash - amt ∧ x'.hand = x.hand ∧
      y'.cash = y.cash + amt ∧ y'.hand = y.hand ∧
      (adjustPlayerCash (adjustPlayerCash st X (-amt)) Y amt).stockPrices = st.stockPrices ∧
      calculatePlayerWealth (adjustPlayerCash (adjustPlayerCash st X (-amt)) Y amt) X
        + calculatePlayerWealth (adjustPlayerCash (adjustPlayerCash st X (-amt)) Y amt) Y
        = calculatePlayerWealth st X + calculatePlayerWealth st Y := by
  have hx1 : getPlayer (adjustPlayerCash st X (-amt)) X
      = some { x with cash := if x.cash + -amt < 0 then 0 else x.cash + -amt } :=
    getPlayer_adjustPlayerCash_self st X (-amt) x hx
  have hy1 : getPlayer (adjustPlayerCash st X (-amt)) Y = getPlayer st Y :=
    getPlayer_adjustPlayerCash_other st X Y (-amt) (Ne.symm hne)
  have hy2 : getPlayer (adjustPlayerCash (adjustPlayerCash st X (-amt)) Y amt) Y
      = some { y with cash := if y.cash + amt < 0 then 0 else y.cash + amt } :=
    getPlayer_adjustPlayerCash_self _ Y amt y (hy1.trans hy)
  have hx2 : getPlayer (adjustPlayerCash (adjustPlayerCash st X (-amt)) Y amt) X
      = some { x with cash := if x.cash + -amt < 0 then 0 else x.cash + -amt } := by
    rw [getPlayer_adjustPlayerCash_other _ Y X amt hne]
    exact hx1
  refine ⟨_, _, hx2, hy2, ?_, rfl, ?_, rfl, rfl, ?_⟩
  · simp only
    rw [if_neg (by omega)]
    omega
  · simp only
    rw [if_neg (by omega)]
  · rw [wealth_eq_of_getPlayer _ _ _ hx2, wealth_eq_of_getPlayer _ _ _ hy2,
      wealth_eq_of_getPlayer _ _ _ hx, wealth_eq_of_getPlayer _ _ _ hy]
    simp only
    rw [if_neg (by omega : ¬ x.cash + -amt < 0), if_neg (by omega : ¬ y.cash + amt < 0)]
    have hpr : (adjustPlayerCash (adjustPlayerCash st X (-amt)) Y amt).stockPrices
        = st.stockPrices := rfl
    rw [hpr]
    ring

theorem addFoldP (P A : String) (hne : P ≠ A) :
    ∀ (cards : List RCard) (st : GState) (p a : Player),
      getPlayer st P = some p → getPlayer st A = some a →
      getPlayer (cards.foldl (fun st2 card => addCardToHand st2 P card) st) P
          = some { p with hand := p.hand ++ cards } ∧
      getPlayer (cards.foldl (fun st2 card => addCardToHand st2 P card) st) A = some a ∧
      (cards.foldl (fun st2 card => addCardToHand st2 P card) st).stockPrices
          = st.stockPrices := by
  intro cards
  induction cards with
  | nil =>
    intro st p a hp ha
    refine ⟨?_, ha, rfl⟩
    simp only [List.foldl_nil, List.append_nil]
    exact hp
  | cons card rest ih =>
    intro st p a hp ha
    rw [List.foldl_cons]
    have hp1 : getPlayer (addCardToHand st P card) P = some { p with hand := p.hand ++ [card] } :=
      getPlayer_addCardToHand_self st P card p hp
    have ha1 : getPlayer (addCardToHand st P card) A = getPlayer st A :=
      getPlayer_addCardToHand_other st P A card (Ne.symm hne)
    obtain ⟨h1, h2, h3⟩ := ih (addCardToHand st P card) _ a hp1 (ha1.trans ha)
    refine ⟨?_, h2, h3.trans rfl⟩
    rw [h1]
    simp [List.append_assoc]

theorem getPlayer_setHand_self (st : GState) (P : String) (h : List RCard) (p : Player)
    (hp : getPlayer st P = some p) :
    getPlayer (setHand st P h) P = some { p with hand := h } := by
  unfold getPlayer setHand
  exact find?_updateFirstPlayer_self st.players P _ p hp rfl

theorem getPlayer_setHand_other (st : GState) (P q : String) (h : List RCard)
    (hne : q ≠ P) :
    getPlayer (setHand st P h) q = getPlayer st q := by
  unfold getPlayer setHand
  exact find?_updateFirstPlayer_other st.players P q _ hne (fun _ => rfl)

theorem offeredFold (P A : String) (hne : P ≠ A) :
    ∀ (cids : List String) (st : GState) (p a : Player),
      getPlayer st P = some p → getPlayer st A = some a →
      ∃ p' a',
        getPlayer (cids.foldl (fun st2 cid =>
          match (removeCardFromHand st2 P cid).1 with
          | some card => addCardToHand (removeCardFromHand st2 P cid).2 A card
          | none => (removeCardFromHand st2 P cid).2) st) P = some p' ∧
        getPlayer (cids.foldl (fun st2 cid =>
          match (removeCardFromHand st2 P cid).1 with
          | some card => addCardToHand (removeCardFromHand st2 P cid).2 A card
          | none => (removeCardFromHand st2 P cid).2) st) A = some a' ∧
        p'.cash = p.cash ∧ a'.cash = a.cash ∧
        calculatePlayerWealth (cids.foldl (fun st2 cid =>
          match (removeCardFromHand st2 P cid).1 with
          | some card => addCardToHand (removeCardFromHand st2 P cid).2 A card
          | none => (removeCardFromHand st2 P cid).2) st) P
          + calculatePlayerWealth (cids.foldl (fun st2 cid =>
            match (removeCardFromHand st2 P cid).1 with
            | some card => addCardToHand (removeCardFromHand st2 P cid).2 A card
            | none => (removeCardFromHand st2 P cid).2) st) A
          = calculatePlayerWealth st P + calculatePlayerWealth st A := by
  intro cids
  induction cids with
  | nil =>
    intro st p a hp ha
    exact ⟨p, a, hp, ha, rfl, rfl, rfl⟩
  | cons cid rest ih =>
    intro st p a hp ha
    rw [List.foldl_cons]
    cases hrb : removeById p.hand cid with
    | none =>
      have hstep : (match (removeCardFromHand st P cid).1 with
          | some card => addCardToHand (removeCardFromHand st P cid).2 A card
          | none => (removeCardFromHand st P cid).2) = st := by
        unfold removeCardFromHand
        simp only [hp, hrb]
      rw [hstep]
      exact ih st p a hp ha
    | some pr =>
      obtain ⟨card, restH⟩ := pr
      have hstep : (match (removeCardFromHand st P cid).1 with
          | some card2 => addCardToHand (removeCardFromHand st P cid).2 A card2
          | none => (removeCardFromHand st P cid).2)
          = addCardToHand (setHand st P restH) A card := by
        unfold removeCardFromHand setHand
        simp only [hp, hrb]
      rw [hstep]
      have hpR : getPlayer (setHand st P restH) P = some { p with hand := restH } :=
        getPlayer_setHand_self st P restH p hp
      have haR : getPlayer (setHand st P restH) A = getPlayer st A :=
        getPlayer_setHand_other st P A restH (Ne.symm hne)
      have hp1 : getPlayer (addCardToHand (setHand st P restH) A card) A
          = some { a with hand := a.hand ++ [card] } :=
        getPlayer_addCardToHand_self _ A card a (haR.trans ha)
      have ha1 : getPlayer (addCardToHand (setHand st P restH) A card) P
          = some { p with hand := restH } := by
        rw [getPlayer_addCardToHand_other _ A P card hne]
        exact hpR
      obtain ⟨p', a', hP', hA', hcp, hca, hW⟩ := ih _ _ _ ha1 hp1
      refine ⟨p', a', hP', hA', hcp, hca, ?_⟩
      rw [hW]
      have hval : calculateCardValue p.hand st.stockPrices
          = priceOf st.stockPrices card + calculateCardValue restH st.stockPrices := by
        have hperm := removeById_perm p.hand cid card restH hrb
        rw [calculateCardValue_perm _ _ _ hperm, calculateCardValue_sum, calculateCardValue_sum]
        simp
      rw [wealth_eq_of_getPlayer _ _ _ ha1, wealth_eq_of_getPlayer _ _ _ hp1,
        wealth_eq_of_getPlayer _ _ _ hp, wealth_eq_of_getPlayer _ _ _ ha]
      have hpr2 : (addCardToHand (setHand st P restH) A card).stockPrices
          = st.stockPrices := rfl
      rw [hpr2]
      simp only
      rw [calculateCardValue_append]
      have hone : calculateCardValue [card] st.stockPrices = priceOf st.stockPrices card := by
        rw [calculateCardValue_sum]
        simp
      rw [hone, hval]
      ring

theorem requestedFold (P A : String) (hne : P ≠ A) :
    ∀ (rqs : List (Color × Nat)) (st : GState) (p a : Player),
      getPlayer st P = some p → getPlayer st A = some a →
      ∃ p' a',
        getPlayer (rqs.foldl (fun st2 rq =>
          (removeCardsByColor st2 A rq.1 rq.2).1.foldl
            (fun st3 card => addCardToHand st3 P card)
            (removeCardsByColor st2 A rq.1 rq.2).2) st) P = some p' ∧
        getPlayer (rqs.foldl (fun st2 rq =>
          (removeCardsByColor st2 A rq.1 rq.2).1.foldl
            (fun st3 card => addCardToHand st3 P card)
            (removeCardsByColor st2 A rq.1 rq.2).2) st) A = some a' ∧
        p'.cash = p.cash ∧ a'.cash = a.cash ∧
        calculatePlayerWealth (rqs.foldl (fun st2 rq =>
          (removeCardsByColor st2 A rq.1 rq.2).1.foldl
            (fun st3 card => addCardToHand st3 P card)
            (removeCardsByColor st2 A rq.1 rq.2).2) st) P
          + calculatePlayerWealth (rqs.foldl (fun st2 rq =>
            (removeCardsByColor st2 A rq.1 rq.2).1.foldl
              (fun st3 card => addCardToHand st3 P card)
              (removeCardsByColor st2 A rq.1 rq.2).2) st) A
          = calculatePlayerWealth st P + calculatePlayerWealth st A := by
  intro rqs
  induction rqs with
  | nil =>
    intro st p a hp ha
    exact ⟨p, a, hp, ha, rfl, rfl, rfl⟩
  | cons rq rest ih =>
    intro st p a hp ha
    rw [List.foldl_cons]
    have hrc : removeCardsByColor st A rq.1 rq.2
        = ((removeFirstOfColor a.hand rq.1 rq.2).1,
           setHand st A (removeFirstOfColor a.hand rq.1 rq.2).2) := by
      unfold removeCardsByColor setHand
      simp only [ha]
    rw [hrc]
    have haR : getPlayer (setHand st A (removeFirstOfColor a.hand rq.1 rq.2).2) A
        = some { a with hand := (removeFirstOfColor a.hand rq.1 rq.2).2 } :=
      getPlayer_setHand_self st A _ a ha
    have hpR : getPlayer (setHand st A (removeFirstOfColor a.hand rq.1 rq.2).2) P
        = getPlayer st P :=
      getPlayer_setHand_other st A P _ hne
    obtain ⟨hfp, hfa, hfpr⟩ := addFoldP P A hne (removeFirstOfColor a.hand rq.1 rq.2).1
      (setHand st A (removeFirstOfColor a.hand rq.1 rq.2).2) p
      { a with hand := (removeFirstOfColor a.hand rq.1 rq.2).2 }
      (hpR.trans hp) haR
    obtain ⟨p', a', hP', hA', hcp, hca, hW⟩ := ih _ _ _ hfp hfa
    refine ⟨p', a', hP', hA', hcp, hca, ?_⟩
    rw [hW]
    rw [wealth_eq_of_getPlayer _ _ _ hfp, wealth_eq_of_getPlayer _ _ _ hfa,
      wealth_eq_of_getPlayer _ _ _ hp, wealth_eq_of_getPlayer _ _ _ ha]
    rw [hfpr]
    have hpr2 : (setHand st A (removeFirstOfColor a.hand rq.1 rq.2).2).stockPrices
        = st.stockPrices := rfl
    rw [hpr2]
    simp only
    rw [calculateCardValue_append]
    have hsplit : calculateCardValue a.hand st.stockPrices
        = calculateCardValue (removeFirstOfColor a.hand rq.1 rq.2).1 st.stockPrices
          + calculateCardValue (removeFirstOfColor a.hand rq.1 rq.2).2 st.stockPrices := by
      rw [calculateCardValue_perm _ _ _ (removeFirstOfColor_perm rq.1 a.hand rq.2)]
      exact calculateCardValue_append _ _ _
    rw [hsplit]
    ring

theorem cashLegs_conserves (st : GState) (P A : String) (hne : P ≠ A) (oc rc : Int)
    (p a : Player) (hp : getPlayer st P = some p) (ha : getPlayer st A = some a)
    (hsolv : oc ≤ p.cash) (hpc : 0 ≤ p.cash) (hac : 0 ≤ a.cash)
    (hrc : rc ≠ 0 → rc ≤ a.cash) :
    calculatePlayerWealth (if rc > 0 then
        adjustPlayerCash (adjustPlayerCash
          (if oc > 0 then adjustPlayerCash (adjustPlayerCash st P (-oc)) A oc else st)
          A (-rc)) P rc
      else (if oc > 0 then adjustPlayerCash (adjustPlayerCash st P (-oc)) A oc else st)) P
    + calculatePlayerWealth (if rc > 0 then
        adjustPlayerCash (adjustPlayerCash
          (if oc > 0 then adjustPlayerCash (adjustPlayerCash st P (-oc)) A oc else st)
          A (-rc)) P rc
      else (if oc > 0 then adjustPlayerCash (adjustPlayerCash st P (-oc)) A oc else st)) A
    = calculatePlayerWealth st P + calculatePlayerWealth st A := by
  by_cases h1 : oc > 0
  · simp only [if_pos h1]
    obtain ⟨p1, a1, hp1, ha1, hcp1, hhp1, hca1, hha1, hpr1, hW1⟩ :=
      cashLeg st P A hne oc p a hp ha hsolv hac h1
    by_cases h2 : rc > 0
    · simp only [if_pos h2]
      obtain ⟨a2, p2, ha2, hp2, hca2, hha2, hcp2, hhp2, hpr2, hW2⟩ :=
        cashLeg _ A P (Ne.symm hne) rc a1 p1 ha1 hp1
          (by have := hrc (ne_of_gt h2); omega) (by omega) h2
      omega
    · simp only [if_neg h2]
      omega
  · simp only [if_neg h1]
    by_cases h2 : rc > 0
    · simp only [if_pos h2]
      obtain ⟨a2, p2, ha2, hp2, hca2, hha2, hcp2, hhp2, hpr2, hW2⟩ :=
        cashLeg st A P (Ne.symm hne) rc a p ha hp
          (hrc (ne_of_gt h2)) hpc h2
      omega
    · simp only [if_neg h2]

theorem executeTrade_conserves (st : GState) (offer : Offer) (A : String)
    (hne : offer.offeringPlayer ≠ A)
    (p a : Player)
    (hp : getPlayer st offer.offeringPlayer = some p)
    (ha : getPlayer st A = some a)
    (hsolv : offer.offeringCash ≤ p.cash)
    (hpc : 0 ≤ p.cash) (hac : 0 ≤ a.cash)
    (hrc : offer.requestingCash ≠ 0 → offer.requestingCash ≤ a.cash) :
    calculatePlayerWealth (executeTrade st offer A) offer.offeringPlayer
      + calculatePlayerWealth (executeTrade st offer A) A
      = calculatePlayerWealth st offer.offeringPlayer + calculatePlayerWealth st A := by
  obtain ⟨p1, a1, hp1, ha1, hcp1, hca1, hW1⟩ :=
    offeredFold offer.offeringPlayer A hne offer.offeringCards st p a hp ha
  obtain ⟨p2, a2, hp2, ha2, hcp2, hca2, hW2⟩ :=
    requestedFold offer.offeringPlayer A hne offer.requestingCards _ p1 a1 hp1 ha1
  have hlegs := cashLegs_conserves _ offer.offeringPlayer A hne
    offer.offeringCash offer.requestingCash p2 a2 hp2 ha2
    (by omega) (by omega) (by omega) (fun h => by have := hrc h; omega)
  have hET : calculatePlayerWealth (executeTrade st offer A) offer.offeringPlayer
      + calculatePlayerWealth (executeTrade st offer A) A
      = calculatePlayerWealth st offer.offeringPlayer + calculatePlayerWealth st A := by
    refine Eq.trans ?_ (hlegs.trans (hW2.trans hW1))
    rfl
  exact hET

theorem validateTradeAcceptance_spec (s : GState) (pid oid : String)
    (tr : TradingState) (offer : Offer) (acceptor : Player)
    (hv : validateTradeAcceptance s pid oid = true)
    (htr : s.phaseState.trading = some tr)
    (hoff : tr.activeOffers.find? (fun o => o.offerId = oid) = some offer)
    (hacc : getPlayer s pid = some acceptor) :
    offer.status = statusActive ∧ offer.offeringPlayer ≠ pid ∧
    (offer.requestingCash ≠ 0 → offer.requestingCash ≤ acceptor.cash) := by
  unfold validateTradeAcceptance at hv
  rw [Bool.and_eq_true] at hv
  obtain ⟨h1, h2⟩ := hv
  simp only [hacc, htr, hoff] at h2
  rw [Bool.and_eq_true, Bool.and_eq_true, Bool.and_eq_true] at h2
  obtain ⟨⟨⟨hst, hne⟩, hguard⟩, hcards⟩ := h2
  refine ⟨by simpa using hst, by simpa using hne, ?_⟩
  intro h0
  have hnlt : ¬ (acceptor.cash < offer.requestingCash) := by
    intro hlt
    simp [h0, hlt] at hguard
  omega

theorem acceptTrade_eq (s : GState) (pid oid : String) (tr : TradingState) (offer : Offer)
    (htr : s.phaseState.trading = some tr)
    (hoff : tr.activeOffers.find? (fun o => o.offerId = oid) = some offer)
    (hst : offer.status = statusActive) :
    acceptTrade s pid oid
      = autoCancelInvalidOffers (autoCancelInvalidOffers
          (executeTrade (setTrading s (some { tr with activeOffers := updateFirstOffer tr.activeOffers oid (fun o => { o with status := statusAccepted }) })) offer pid)
          offer.offeringPlayer) pid := by
  unfold acceptTrade
  simp only [htr, hoff]
  rw [if_neg (by simp [hst])]

/-- C4 (corrected): an accepted trade that passes validation conserves
the two participants' combined cash-plus-portfolio value at current
prices PROVIDED the proposer can still fund the promised cash
(`offeringCash ≤ proposer.cash`) and both balances are non-negative
(as engine-reachable balances are).  Acceptance validation does not
re-check the proposer's cash, and `adjustPlayerCash` silently clamps
the payer at $0, so without the solvency proviso an accepted trade can
create value out of thin air (see the counterexample). -/
theorem C4_trade_conservation (s : GState) (pid oid : String)
    (tr : TradingState) (offer : Offer) (proposer acceptor : Player)
    (hv : validateTradeAcceptance s pid oid = true)
    (htr : s.phaseState.trading = some tr)
    (hoff : tr.activeOffers.find? (fun o => o.offerId = oid) = some offer)
    (hprop : getPlayer s offer.offeringPlayer = some proposer)
    (hacc : getPlayer s pid = some acceptor)
    (hsolv : offer.offeringCash ≤ proposer.cash)
    (hpc : 0 ≤ proposer.cash) (hac : 0 ≤ acceptor.cash) :
    calculatePlayerWealth (acceptTrade s pid oid) offer.offeringPlayer
      + calculatePlayerWealth (acceptTrade s pid oid) pid
    = calculatePlayerWealth s offer.offeringPlayer + calculatePlayerWealth s pid := by
  obtain ⟨hst, hne, hrcb⟩ :=
    validateTradeAcceptance_spec s pid oid tr offer acceptor hv htr hoff hacc
  rw [acceptTrade_eq s pid oid tr offer htr hoff hst]
  simp only [wealth_autoCancel]
  have hp1 : getPlayer (setTrading s (some { tr with activeOffers := updateFirstOffer tr.activeOffers oid (fun o => { o with status := statusAccepted }) })) offer.offeringPlayer = some proposer := by
    rw [getPlayer_setTrading]
    exact hprop
  have ha1 : getPlayer (setTrading s (some { tr with activeOffers := updateFirstOffer tr.activeOffers oid (fun o => { o with status := statusAccepted }) })) pid = some acceptor := by
    rw [getPlayer_setTrading]
    exact hacc
  have h := executeTrade_conserves _ offer pid hne proposer acceptor hp1 ha1 hsolv hpc hac hrcb
  rw [h]
  simp only [wealth_setTrading]

theorem C4_counterexample :
    validateTradeAcceptance c4State "q" "o1" = true ∧
    calculatePlayerWealth c4State "p" + calculatePlayerWealth c4State "q" = 9 ∧
    calculatePlayerWealth (acceptTrade c4State "q" "o1") "p"
      + calculatePlayerWealth (acceptTrade c4State "q" "o1") "q" = 12 := by
  refine ⟨by decide, by decide, by decide⟩

theorem C4_trade_conservation_witness :
    validateTradeAcceptance c4StateW "q" "o1" = true ∧
    calculatePlayerWealth (acceptTrade c4StateW "q" "o1") "p"
      + calculatePlayerWealth (acceptTrade c4StateW "q" "o1") "q"
    = calculatePlayerWealth c4StateW "p" + calculatePlayerWealth c4StateW "q" :=
  ⟨by decide,
   C4_trade_conservation c4StateW "q" "o1"
     { activeOffers := [c4OfferW], timeRemaining := 100 } c4OfferW
     (mkPlayer "p" 5 [{ id := "c1", color := Color.Orange }])
     (mkPlayer "q" 3 [{ id := "b1", color := Color.Blue }])
     (by decide) (by decide) (by decide) (by decide) (by decide) (by decide)
     (by decide) (by decide)⟩

/-! ### C1: card conservation toolbox -/

theorem find?_isSome_updateFirstPlayer (ps : List Player) (x q : String) (f : Player → Player)
    (hid : ∀ p, (f p).id = p.id) :
    ((updateFirstPlayer ps x f).find? (fun p => p.id = q)).isSome
      = (ps.find? (fun p => p.id = q)).isSome := by
  by_cases hq : q = x
  · subst hq
    cases hp : ps.find? (fun p => p.id = q) with
    | none => rw [updateFirstPlayer_of_find?_none _ _ _ hp, hp]
    | some p =>
      rw [find?_updateFirstPlayer_self _ _ _ p hp (hid p)]
      rfl
  · rw [find?_updateFirstPlayer_other _ _ _ _ hq hid]

theorem isSome_getPlayer_update (s : GState) (x q : String) (f : Player → Player)
    (hid : ∀ p, (f p).id = p.id) :
    (getPlayer { s with players := updateFirstPlayer s.players x f } q).isSome
      = (getPlayer s q).isSome := by
  unfold getPlayer
  exact find?_isSome_updateFirstPlayer s.players x q f hid

theorem handsMS_cons (p : Player) (ps : List Player) :
    handsMS (p :: ps) = (p.hand : Multiset RCard) + handsMS ps := by
  simp [handsMS]

theorem handsMS_update (ps : List Player) (pid : String) (f : Player → Player) (p : Player)
    (hp : ps.find? (fun q => q.id = pid) = some p) :
    handsMS (updateFirstPlayer ps pid f) + (p.hand : Multiset RCard)
      = handsMS ps + ((f p).hand : Multiset RCard) := by
  induction ps with
  | nil => simp at hp
  | cons a rest ih =>
    by_cases ha : a.id = pid
    · rw [List.find?_cons_of_pos _ (by simpa using ha)] at hp
      injection hp with hp
      subst hp
      simp only [updateFirstPlayer, if_pos ha]
      rw [handsMS_cons, handsMS_cons]
      abel
    · rw [List.find?_cons_of_neg _ (by simpa using ha)] at hp
      simp only [updateFirstPlayer, if_neg ha]
      rw [handsMS_cons, handsMS_cons, add_assoc, add_assoc, ih hp]

theorem addShuffle (a b u v d c q : Multiset RCard) (h : a + u = b + v) :
    a + d + c + q + u = b + d + c + q + v := by
  have h1 : a + d + c + q + u = (a + u) + (d + c + q) := by abel
  have h2 : b + d + c + q + v = (b + v) + (d + c + q) := by abel
  rw [h1, h2, h]

theorem allCards_players_update (s : GState) (x : String) (f : Player → Player) (p : Player)
    (hp : getPlayer s x = some p) :
    allCards { s with players := updateFirstPlayer s.players x f } + (p.hand : Multiset RCard)
      = allCards s + ((f p).hand : Multiset RCard) := by
  unfold getPlayer at hp
  have h := handsMS_update s.players x f p hp
  have hq : auctionPendingCards { s with players := updateFirstPlayer s.players x f }
      = auctionPendingCards s := rfl
  unfold allCards threeLocCards
  rw [hq]
  exact addShuffle _ _ _ _ _ _ _ h

theorem allCards_players_update_handkeep (s : GState) (x : String) (f : Player → Player)
    (hf : ∀ q, (f q).hand = q.hand) :
    allCards { s with players := updateFirstPlayer s.players x f } = allCards s := by
  cases hp : getPlayer s x with
  | none =>
    unfold getPlayer at hp
    rw [updateFirstPlayer_of_find?_none _ _ _ hp]
  | some p =>
    have h := allCards_players_update s x f p hp
    rw [hf p] at h
    exact add_right_cancel h

theorem allCards_addCardToHand (s : GState) (pid : String) (c : RCard) (p : Player)
    (hp : getPlayer s pid = some p) :
    allCards (addCardToHand s pid c) = allCards s + {c} := by
  have h := allCards_players_update s pid (fun q => { q with hand := q.hand ++ [c] }) p hp
  rw [show ((p.hand ++ [c] : List RCard) : Multiset RCard)
      = (p.hand : Multiset RCard) + {c} from by
    rw [← Multiset.coe_add, Multiset.coe_singleton]] at h
  have h2 : allCards s + ((p.hand : Multiset RCard) + {c})
      = (allCards s + {c}) + (p.hand : Multiset RCard) := by abel
  rw [h2] at h
  exact add_right_cancel h

theorem allCards_discard (s : GState) (cards : List RCard) :
    allCards { s with resourceDeck := discardCards s.resourceDeck cards }
      = allCards s + (cards : Multiset RCard) := by
  have h1 : allCards { s with resourceDeck := discardCards s.resourceDeck cards }
      = handsMS s.players + (s.resourceDeck.drawPile : Multiset RCard)
        + ((s.resourceDeck.discardPile ++ cards : List RCard) : Multiset RCard)
        + (auctionPendingCards s : Multiset RCard) := rfl
  have h2 : allCards s
      = handsMS s.players + (s.resourceDeck.drawPile : Multiset RCard)
        + ((s.resourceDeck.discardPile : List RCard) : Multiset RCard)
        + (auctionPendingCards s : Multiset RCard) := rfl
  rw [h1, h2]
  have hc : ((s.resourceDeck.discardPile ++ cards : List RCard) : Multiset RCard)
      = (s.resourceDeck.discardPile : Multiset RCard) + (cards : Multiset RCard) := by
    rw [← Multiset.coe_add]
  rw [hc]
  abel

theorem allCards_adjustPlayerCash (s : GState) (pid : String) (amount : Int) :
    allCards (adjustPlayerCash s pid amount) = allCards s :=
  allCards_players_update_handkeep s pid _ (fun _ => rfl)

theorem allCards_setGoalRevealed (s : GState) (pid gid : String) :
    allCards (setGoalRevealed s pid gid) = allCards s :=
  allCards_players_update_handkeep s pid _ (fun _ => rfl)

theorem allCards_executeSellBonus (s : GState) (pid : String) (bonus : Int) :
    allCards (executeSellBonus s pid bonus) = allCards s :=
  allCards_players_update_handkeep s pid _ (fun _ => rfl)

theorem allCards_setTrading (s : GState) (tr : Option TradingState) :
    allCards (setTrading s tr) = allCards s := rfl

theorem allCards_setSell (s : GState) (sl : Option SellState) :
    allCards (setSell s sl) = allCards s := rfl

theorem allCards_setGoalRes (s : GState) (gr : Option GoalResState) :
    allCards (setGoalRes s gr) = allCards s := rfl

theorem allCards_applyStockChange (s : GState) (gcard : GoalCard) :
    allCards (applyStockChange s gcard) = allCards s := by
  unfold applyStockChange
  split <;> rfl

theorem allCards_advanceToNextPlayer (s : GState) :
    allCards (advanceToNextPlayer s) = allCards s := by
  unfold advanceToNextPlayer
  cases s.phaseState.goalResolution <;> rfl

theorem isSome_getPlayer_adjustPlayerCash (s : GState) (x q : String) (amount : Int) :
    (getPlayer (adjustPlayerCash s x amount) q).isSome = (getPlayer s q).isSome :=
  isSome_getPlayer_update s x q _ (fun _ => rfl)

theorem isSome_getPlayer_addCardToHand (s : GState) (x q : String) (c : RCard) :
    (getPlayer (addCardToHand s x c) q).isSome = (getPlayer s q).isSome :=
  isSome_getPlayer_update s x q _ (fun _ => rfl)

theorem isSome_getPlayer_setHand (s : GState) (x q : String) (h : List RCard) :
    (getPlayer (setHand s x h) q).isSome = (getPlayer s q).isSome :=
  isSome_getPlayer_update s x q _ (fun _ => rfl)

theorem isSome_getPlayer_setGoalRevealed (s : GState) (x q : String) (gid : String) :
    (getPlayer (setGoalRevealed s x gid) q).isSome = (getPlayer s q).isSome :=
  isSome_getPlayer_update s x q _ (fun _ => rfl)

theorem isSome_getPlayer_executeSellBonus (s : GState) (x q : String) (bonus : Int) :
    (getPlayer (executeSellBonus s x bonus) q).isSome = (getPlayer s q).isSome :=
  isSome_getPlayer_update s x q _ (fun _ => rfl)

/-- Transport `WF` across a state change that leaves the auction slot,
the trading slot, the phase tag, the pending queue and player existence
untouched. -/
theorem WF_of_untouched (s s' : GState)
    (hau : s'.phaseState.auction = s.phaseState.auction)
    (htr : s'.phaseState.trading = s.phaseState.trading)
    (hph : s'.currentPhase = s.currentPhase)
    (hpend : auctionPendingCards s' = auctionPendingCards s)
    (hgp : ∀ q, (getPlayer s' q).isSome = (getPlayer s q).isSome)
    (hwf : WF s) : WF s' := by
  refine ⟨?_, ?_, ?_, ?_, ?_⟩
  · intro au h
    exact hwf.auctionCard au (hau ▸ h)
  · intro au h pid hpid
    rw [show ((getPlayer s' pid).isSome = true) = ((getPlayer s pid).isSome = true) from by rw [hgp]]
    exact hwf.auctionBidders au (hau ▸ h) pid hpid
  · intro au h pid hpid
    rw [show ((getPlayer s' pid).isSome = true) = ((getPlayer s pid).isSome = true) from by rw [hgp]]
    exact hwf.auctionHigh au (hau ▸ h) pid hpid
  · intro tr h o ho
    rw [show ((getPlayer s' o.offeringPlayer).isSome = true)
        = ((getPlayer s o.offeringPlayer).isSome = true) from by rw [hgp]]
    exact hwf.offersProposer tr (htr ▸ h) o ho
  · intro h
    rw [hpend]
    exact hwf.auctionStale (by rw [← hph]; exact h)

theorem allCards_setHand_removed (st : GState) (P : String) (p : Player)
    (hp : getPlayer st P = some p) (card : RCard) (restH : List RCard)
    (hsplit : (p.hand : Multiset RCard) = {card} + (restH : Multiset RCard)) :
    allCards (setHand st P restH) + {card} = allCards st := by
  have h0 := allCards_players_update st P (fun q => { q with hand := restH }) p hp
  rw [hsplit] at h0
  have h : allCards (setHand st P restH) + ({card} + (restH : Multiset RCard))
      = allCards st + (restH : Multiset RCard) := h0
  have h2 : allCards (setHand st P restH) + ({card} + (restH : Multiset RCard))
      = (allCards (setHand st P restH) + {card}) + (restH : Multiset RCard) := by abel
  rw [h2] at h
  exact add_right_cancel h

theorem allCards_offeredFoldC (P A : String) :
    ∀ (cids : List String) (st : GState),
      (getPlayer st A).isSome →
      allCards (cids.foldl (fun st2 cid =>
        match (removeCardFromHand st2 P cid).1 with
        | some card => addCardToHand (removeCardFromHand st2 P cid).2 A card
        | none => (removeCardFromHand st2 P cid).2) st) = allCards st ∧
      (∀ q, (getPlayer (cids.foldl (fun st2 cid =>
        match (removeCardFromHand st2 P cid).1 with
        | some card => addCardToHand (removeCardFromHand st2 P cid).2 A card
        | none => (removeCardFromHand st2 P cid).2) st) q).isSome
          = (getPlayer st q).isSome) := by
  intro cids
  induction cids with
  | nil => intro st hA; exact ⟨rfl, fun q => rfl⟩
  | cons cid rest ih =>
    intro st hA
    rw [List.foldl_cons]
    cases hp : getPlayer st P with
    | none =>
      have hstep : (match (removeCardFromHand st P cid).1 with
          | some card => addCardToHand (removeCardFromHand st P cid).2 A card
          | none => (removeCardFromHand st P cid).2) = st := by
        unfold removeCardFromHand
        simp only [hp]
      rw [hstep]
      exact ih st hA
    | some p =>
      cases hrb : removeById p.hand cid with
      | none =>
        have hstep : (match (removeCardFromHand st P cid).1 with
            | some card => addCardToHand (removeCardFromHand st P cid).2 A card
            | none => (removeCardFromHand st P cid).2) = st := by
          unfold removeCardFromHand
          simp only [hp, hrb]
        rw [hstep]
        exact ih st hA
      | some pr =>
        obtain ⟨card, restH⟩ := pr
        have hstep : (match (removeCardFromHand st P cid).1 with
            | some card2 => addCardToHand (removeCardFromHand st P cid).2 A card2
            | none => (removeCardFromHand st P cid).2)
            = addCardToHand (setHand st P restH) A card := by
          unfold removeCardFromHand setHand
          simp only [hp, hrb]
        rw [hstep]
        have hAs : (getPlayer (setHand st P restH) A).isSome = true := by
          rw [isSome_getPlayer_setHand]
          exact hA
        obtain ⟨a, ha⟩ := Option.isSome_iff_exists.mp hAs
        have hsplit : (p.hand : Multiset RCard) = {card} + (restH : Multiset RCard) := by
          have hperm := removeById_perm p.hand cid card restH hrb
          rw [Multiset.coe_eq_coe.mpr hperm, ← Multiset.cons_coe, Multiset.singleton_add]
        have hrem := allCards_setHand_removed st P p hp card restH hsplit
        have hadd := allCards_addCardToHand (setHand st P restH) A card a ha
        have hAs2 : (getPlayer (addCardToHand (setHand st P restH) A card) A).isSome = true := by
          rw [isSome_getPlayer_addCardToHand, isSome_getPlayer_setHand]
          exact hA
        obtain ⟨hcons, hsome⟩ := ih (addCardToHand (setHand st P restH) A card) hAs2
        refine ⟨?_, ?_⟩
        · rw [hcons, hadd, hrem]
        · intro q
          rw [hsome q, isSome_getPlayer_addCardToHand, isSome_getPlayer_setHand]

theorem allCards_addFoldC (P : String) :
    ∀ (cards : List RCard) (st : GState),
      (getPlayer st P).isSome →
      allCards (cards.foldl (fun st2 card => addCardToHand st2 P card) st)
          = allCards st + (cards : Multiset RCard) ∧
      (∀ q, (getPlayer (cards.foldl (fun st2 card => addCardToHand st2 P card) st) q).isSome
          = (getPlayer st q).isSome) := by
  intro cards
  induction cards with
  | nil =>
    intro st hP
    refine ⟨?_, fun q => rfl⟩
    simp
  | cons card rest ih =>
    intro st hP
    rw [List.foldl_cons]
    obtain ⟨p, hp⟩ := Option.isSome_iff_exists.mp hP
    have hadd := allCards_addCardToHand st P card p hp
    have hP2 : (getPlayer (addCardToHand st P card) P).isSome = true := by
      rw [isSome_getPlayer_addCardToHand]
      exact hP
    obtain ⟨hcons, hsome⟩ := ih (addCardToHand st P card) hP2
    refine ⟨?_, ?_⟩
    · rw [hcons, hadd]
      rw [show ((card :: rest : List RCard) : Multiset RCard)
          = {card} + (rest : Multiset RCard) from by
        rw [← Multiset.cons_coe, Multiset.singleton_add]]
      abel
    · intro q
      rw [hsome q, isSome_getPlayer_addCardToHand]

theorem allCards_requestedFoldC (P A : String) :
    ∀ (rqs : List (Color × Nat)) (st : GState),
      (getPlayer st P).isSome →
      allCards (rqs.foldl (fun st2 rq =>
        (removeCardsByColor st2 A rq.1 rq.2).1.foldl
          (fun st3 card => addCardToHand st3 P card)
          (removeCardsByColor st2 A rq.1 rq.2).2) st) = allCards st ∧
      (∀ q, (getPlayer (rqs.foldl (fun st2 rq =>
        (removeCardsByColor st2 A rq.1 rq.2).1.foldl
          (fun st3 card => addCardToHand st3 P card)
          (removeCardsByColor st2 A rq.1 rq.2).2) st) q).isSome
          = (getPlayer st q).isSome) := by
  intro rqs
  induction rqs with
  | nil => intro st hP; exact ⟨rfl, fun q => rfl⟩
  | cons rq rest ih =>
    intro st hP
    rw [List.foldl_cons]
    cases ha : getPlayer st A with
    | none =>
      have hrc : removeCardsByColor st A rq.1 rq.2 = ([], st) := by
        unfold removeCardsByColor
        simp only [ha]
      rw [hrc]
      exact ih st hP
    | some a =>
      have hrc : removeCardsByColor st A rq.1 rq.2
          = ((removeFirstOfColor a.hand rq.1 rq.2).1,
             setHand st A (removeFirstOfColor a.hand rq.1 rq.2).2) := by
        unfold removeCardsByColor setHand
        simp only [ha]
      rw [hrc]
      have hsplitperm := removeFirstOfColor_perm rq.1 a.hand rq.2
      have hsplit : (a.hand : Multiset RCard)
          = ((removeFirstOfColor a.hand rq.1 rq.2).1 : Multiset RCard)
            + ((removeFirstOfColor a.hand rq.1 rq.2).2 : Multiset RCard) := by
        rw [Multiset.coe_eq_coe.mpr hsplitperm, ← Multiset.coe_add]
      have h0 := allCards_players_update st A
        (fun q => { q with hand := (removeFirstOfColor a.hand rq.1 rq.2).2 }) a ha
      have hSH : allCards (setHand st A (removeFirstOfColor a.hand rq.1 rq.2).2)
            + ((removeFirstOfColor a.hand rq.1 rq.2).1 : Multiset RCard)
          = allCards st := by
        have h : allCards (setHand st A (removeFirstOfColor a.hand rq.1 rq.2).2)
              + (a.hand : Multiset RCard)
            = allCards st
              + ((removeFirstOfColor a.hand rq.1 rq.2).2 : Multiset RCard) := h0
        rw [hsplit] at h
        have h2 : allCards (setHand st A (removeFirstOfColor a.hand rq.1 rq.2).2)
              + (((removeFirstOfColor a.hand rq.1 rq.2).1 : Multiset RCard)
                + ((removeFirstOfColor a.hand rq.1 rq.2).2 : Multiset RCard))
            = (allCards (setHand st A (removeFirstOfColor a.hand rq.1 rq.2).2)
                + ((removeFirstOfColor a.hand rq.1 rq.2).1 : Multiset RCard))
              + ((removeFirstOfColor a.hand rq.1 rq.2).2 : Multiset RCard) := by abel
        rw [h2] at h
        exact add_right_cancel h
      have hP1 : (getPlayer (setHand st A (removeFirstOfColor a.hand rq.1 rq.2).2) P).isSome
          = true := by
        rw [isSome_getPlayer_setHand]
        exact hP
      obtain ⟨haf, hafs⟩ := allCards_addFoldC P (removeFirstOfColor a.hand rq.1 rq.2).1
        (setHand st A (removeFirstOfColor a.hand rq.1 rq.2).2) hP1
      have hP2 : (getPlayer ((removeFirstOfColor a.hand rq.1 rq.2).1.foldl
          (fun st3 card => addCardToHand st3 P card)
          (setHand st A (removeFirstOfColor a.hand rq.1 rq.2).2)) P).isSome = true := by
        rw [hafs P, isSome_getPlayer_setHand]
        exact hP
      obtain ⟨hcons, hsome⟩ := ih _ hP2
      refine ⟨?_, ?_⟩
      · rw [hcons, haf]
        have : allCards (setHand st A (removeFirstOfColor a.hand rq.1 rq.2).2)
              + ((removeFirstOfColor a.hand rq.1 rq.2).1 : Multiset RCard)
            = allCards st := hSH
        rw [this]
      · intro q
        rw [hsome q, hafs q, isSome_getPlayer_setHand]

theorem allCards_executeTrade (st : GState) (offer : Offer) (A : String)
    (hP : (getPlayer st offer.offeringPlayer).isSome)
    (hA : (getPlayer st A).isSome) :
    allCards (executeTrade st offer A) = allCards st ∧
    (∀ q, (getPlayer (executeTrade st offer A) q).isSome = (getPlayer st q).isSome) := by
  obtain ⟨h1, h1s⟩ := allCards_offeredFoldC offer.offeringPlayer A offer.offeringCards st hA
  have hP1 : (getPlayer (offer.offeringCards.foldl (fun st2 cid =>
      match (removeCardFromHand st2 offer.offeringPlayer cid).1 with
      | some card => addCardToHand (removeCardFromHand st2 offer.offeringPlayer cid).2 A card
      | none => (removeCardFromHand st2 offer.offeringPlayer cid).2) st)
      offer.offeringPlayer).isSome = true := by
    rw [h1s]
    exact hP
  obtain ⟨h2, h2s⟩ := allCards_requestedFoldC offer.offeringPlayer A offer.requestingCards _ hP1
  refine ⟨?_, ?_⟩
  · show allCards (if offer.requestingCash > 0 then _ else _) = allCards st
    by_cases hb1 : offer.offeringCash > 0 <;> by_cases hb2 : offer.requestingCash > 0 <;>
      simp only [if_pos, if_neg, hb1, hb2, if_true, if_false, allCards_adjustPlayerCash] <;>
      rw [h2, h1]
  · intro q
    show (getPlayer (if offer.requestingCash > 0 then _ else _) q).isSome = _
    by_cases hb1 : offer.offeringCash > 0 <;> by_cases hb2 : offer.requestingCash > 0 <;>
      simp only [if_pos, if_neg, hb1, hb2, if_true, if_false, isSome_getPlayer_adjustPlayerCash] <;>
      rw [h2s, h1s]

theorem allCards_autoCancel (s : GState) (pid : String) :
    allCards (autoCancelInvalidOffers s pid) = allCards s := by
  unfold autoCancelInvalidOffers
  cases s.phaseState.trading with
  | none => rfl
  | some tr =>
    cases getPlayer s pid with
    | none => rfl
    | some player => rfl

theorem isSome_getPlayer_autoCancel (s : GState) (pid q : String) :
    (getPlayer (autoCancelInvalidOffers s pid) q).isSome = (getPlayer s q).isSome := by
  unfold autoCancelInvalidOffers
  cases s.phaseState.trading with
  | none => rfl
  | some tr =>
    cases getPlayer s pid with
    | none => rfl
    | some player => rfl

theorem mem_updateFirstOffer (os : List Offer) (oid : String) (f : Offer → Offer)
    (o' : Offer) (ho : o' ∈ updateFirstOffer os oid f) :
    o' ∈ os ∨ ∃ o ∈ os, o' = f o := by
  induction os with
  | nil => simp [updateFirstOffer] at ho
  | cons a rest ih =>
    by_cases ha : a.offerId = oid
    · simp [updateFirstOffer, ha] at ho
      rcases ho with h | h
      · exact Or.inr ⟨a, List.mem_cons_self a rest, h⟩
      · exact Or.inl (List.mem_cons_of_mem a h)
    · simp [updateFirstOffer, ha] at ho
      rcases ho with h | h
      · exact Or.inl (h ▸ List.mem_cons_self a rest)
      · rcases ih h with h' | ⟨o, hoo, hfo⟩
        · exact Or.inl (List.mem_cons_of_mem a h')
        · exact Or.inr ⟨o, List.mem_cons_of_mem a hoo, hfo⟩

theorem auction_setTrading (s : GState) (tr : Option TradingState) :
    (setTrading s tr).phaseState.auction = s.phaseState.auction := rfl

theorem pending_setTrading (s : GState) (tr : Option TradingState) :
    auctionPendingCards (setTrading s tr) = auctionPendingCards s := rfl

/-- `WF` transport when only the offer list changed, each new offer's
proposer being an existing player. -/
theorem WF_offers_update (s : GState) (tr' : TradingState)
    (hprop : ∀ o ∈ tr'.activeOffers, (getPlayer s o.offeringPlayer).isSome)
    (hwf : WF s) : WF (setTrading s (some tr')) := by
  refine ⟨?_, ?_, ?_, ?_, ?_⟩
  · intro au h
    exact hwf.auctionCard au h
  · intro au h pid hpid
    exact hwf.auctionBidders au h pid hpid
  · intro au h pid hpid
    exact hwf.auctionHigh au h pid hpid
  · intro tr2 h o ho
    have : tr2 = tr' := by
      have h2 : (setTrading s (some tr')).phaseState.trading = some tr' := rfl
      rw [h2] at h
      injection h with h
      exact h.symm
    subst this
    exact hprop o ho
  · intro h
    exact hwf.auctionStale h

theorem mem_playerIds_isSome (s : GState) (pid : String) (h : pid ∈ playerIds s) :
    (getPlayer s pid).isSome := by
  unfold playerIds at h
  rw [List.mem_dedup] at h
  obtain ⟨p, hp, hid⟩ := List.mem_map.mp h
  unfold getPlayer
  rw [List.find?_isSome]
  exact ⟨p, hp, by simpa using hid⟩

/-- Generic `WF` transport: unchanged auction slot, offers whose
proposers exist in the OLD state, unchanged player existence, and a
stale-queue discharge for the new phase. -/
theorem WF_transport (s s' : GState)
    (hau : s'.phaseState.auction = s.phaseState.auction)
    (htr : ∀ tr, s'.phaseState.trading = some tr →
      ∀ o ∈ tr.activeOffers, (getPlayer s o.offeringPlayer).isSome)
    (hgp : ∀ q, (getPlayer s' q).isSome = (getPlayer s q).isSome)
    (hstale : s'.currentPhase ≠ phaseAuction → auctionPendingCards s' = [])
    (hwf : WF s) : WF s' := by
  refine ⟨?_, ?_, ?_, ?_, ?_⟩
  · intro au h
    exact hwf.auctionCard au (hau ▸ h)
  · intro au h pid hpid
    rw [show ((getPlayer s' pid).isSome = true) = ((getPlayer s pid).isSome = true) from by rw [hgp]]
    exact hwf.auctionBidders au (hau ▸ h) pid hpid
  · intro au h pid hpid
    rw [show ((getPlayer s' pid).isSome = true) = ((getPlayer s pid).isSome = true) from by rw [hgp]]
    exact hwf.auctionHigh au (hau ▸ h) pid hpid
  · intro tr h o ho
    rw [show ((getPlayer s' o.offeringPlayer).isSome = true)
        = ((getPlayer s o.offeringPlayer).isSome = true) from by rw [hgp]]
    exact htr tr h o ho
  · exact hstale

theorem pending_nil_of_complete (s : GState) (hc : isAuctionComplete s = true) :
    auctionPendingCards s = [] := by
  unfold isAuctionComplete at hc
  unfold auctionPendingCards
  cases hau : s.phaseState.auction with
  | none => rfl
  | some au =>
    rw [hau] at hc
    simp only [ge_iff_le, decide_eq_true_eq] at hc
    exact List.drop_eq_nil_of_le hc

theorem allCards_setAuction_none (s : GState) (hpend : auctionPendingCards s = []) :
    allCards (setAuction s none) = allCards s := by
  have h1 : allCards (setAuction s none)
      = threeLocCards s + (([] : List RCard) : Multiset RCard) := rfl
  have h2 : allCards s = threeLocCards s + (auctionPendingCards s : Multiset RCard) := rfl
  rw [h1, h2, hpend]

theorem WF_fresh_trading (X : GState) (d : Int) (haun : X.phaseState.auction = none) :
    WF (setTrading X (some { activeOffers := [], timeRemaining := d })) := by
  refine ⟨?_, ?_, ?_, ?_, ?_⟩
  · intro au h
    rw [auction_setTrading, haun] at h
    cases h
  · intro au h
    rw [auction_setTrading, haun] at h
    cases h
  · intro au h
    rw [auction_setTrading, haun] at h
    cases h
  · intro tr h o ho
    have h2 : (setTrading X (some { activeOffers := [], timeRemaining := d })).phaseState.trading
        = some { activeOffers := [], timeRemaining := d } := rfl
    rw [h2] at h
    injection h with h
    rw [← h] at ho
    simp at ho
  · intro h
    rw [pending_setTrading]
    unfold auctionPendingCards
    rw [haun]

theorem allCards_initAuction (s : GState) (hpend : auctionPendingCards s = []) :
    allCards (initAuction s) = allCards s := by
  have h1 : allCards (initAuction s)
      = handsMS s.players
        + ((s.resourceDeck.drawPile.drop (s.players.length + 2) : List RCard) : Multiset RCard)
        + (s.resourceDeck.discardPile : Multiset RCard)
        + ((s.resourceDeck.drawPile.take (s.players.length + 2) : List RCard) : Multiset RCard)
      := rfl
  have h2 : allCards s
      = handsMS s.players + (s.resourceDeck.drawPile : Multiset RCard)
        + (s.resourceDeck.discardPile : Multiset RCard)
        + (auctionPendingCards s : Multiset RCard) := rfl
  have hsplit : (s.resourceDeck.drawPile : Multiset RCard)
      = ((s.resourceDeck.drawPile.take (s.players.length + 2) : List RCard) : Multiset RCard)
        + ((s.resourceDeck.drawPile.drop (s.players.length + 2) : List RCard) : Multiset RCard) := by
    rw [Multiset.coe_add, List.take_append_drop]
  rw [h1, h2, hpend, hsplit]
  rw [show (([] : List RCard) : Multiset RCard) = 0 from rfl]
  abel

theorem WF_initAuction (s : GState)
    (hph : s.currentPhase = phaseAuction)
    (htro : ∀ tr, s.phaseState.trading = some tr →
      ∀ o ∈ tr.activeOffers, (getPlayer s o.offeringPlayer).isSome) :
    WF (initAuction s) := by
  refine ⟨?_, ?_, ?_, ?_, ?_⟩
  · intro au h
    have h2 : (initAuction s).phaseState.auction = some
        { cardsToAuction := s.resourceDeck.drawPile.take (s.players.length + 2)
          currentCardIndex := 0
          currentCard := (s.resourceDeck.drawPile.take (s.players.length + 2)).get? 0
          currentBid := 0
          currentHighBidder := none
          activeBidders := playerIds { s with resourceDeck := (drawCards s.resourceDeck (s.players.length + 2)).2 }
          currentPlayerIndex := ({ s with resourceDeck := (drawCards s.resourceDeck (s.players.length + 2)).2 } : GState).dealerIndex
          lastRaiserIndex := none } := rfl
    rw [h2] at h
    injection h with h
    rw [← h]
  · intro au h pid hpid
    have h2 : (initAuction s).phaseState.auction = some
        { cardsToAuction := s.resourceDeck.drawPile.take (s.players.length + 2)
          currentCardIndex := 0
          currentCard := (s.resourceDeck.drawPile.take (s.players.length + 2)).get? 0
          currentBid := 0
          currentHighBidder := none
          activeBidders := playerIds { s with resourceDeck := (drawCards s.resourceDeck (s.players.length + 2)).2 }
          currentPlayerIndex := ({ s with resourceDeck := (drawCards s.resourceDeck (s.players.length + 2)).2 } : GState).dealerIndex
          lastRaiserIndex := none } := rfl
    rw [h2] at h
    injection h with h
    rw [← h] at hpid
    have hm : pid ∈ playerIds { s with resourceDeck := (drawCards s.resourceDeck (s.players.length + 2)).2 } := hpid
    have := mem_playerIds_isSome _ pid hm
    exact this
  · intro au h pid hpid
    have h2 : (initAuction s).phaseState.auction = some
        { cardsToAuction := s.resourceDeck.drawPile.take (s.players.length + 2)
          currentCardIndex := 0
          currentCard := (s.resourceDeck.drawPile.take (s.players.length + 2)).get? 0
          currentBid := 0
          currentHighBidder := none
          activeBidders := playerIds { s with resourceDeck := (drawCards s.resourceDeck (s.players.length + 2)).2 }
          currentPlayerIndex := ({ s with resourceDeck := (drawCards s.resourceDeck (s.players.length + 2)).2 } : GState).dealerIndex
          lastRaiserIndex := none } := rfl
    rw [h2] at h
    injection h with h
    rw [← h] at hpid
    cases hpid
  · intro tr h o ho
    exact htro tr h o ho
  · intro h
    exact absurd hph h

theorem advancePhase_conserves (s : GState) (hwf : WF s)
    (hcomplete : s.currentPhase = phaseAuction → isAuctionComplete s = true) :
    allCards (advancePhase s) = allCards s ∧ WF (advancePhase s) := by
  by_cases hA : s.currentPhase = phaseAuction
  · have hg : getNextPhase s.currentPhase = some phaseTrading := by
      rw [hA]
      unfold getNextPhase
      rw [if_pos rfl]
    have hpend : auctionPendingCards s = [] := pending_nil_of_complete s (hcomplete hA)
    have hcl : cleanupPhase s s.currentPhase = setAuction s none := by
      unfold cleanupPhase
      rw [hA, if_pos rfl]
    have hadv : advancePhase s
        = setTrading { setAuction s none with currentPhase := phaseTrading }
            (some { activeOffers := [],
                    timeRemaining := ({ setAuction s none with currentPhase := phaseTrading } : GState).config.tradingDuration }) := by
      unfold advancePhase
      simp only [hg]
      unfold transitionToPhase
      rw [hcl]
      unfold initPhase
      rw [if_neg (by decide : ¬ (phaseTrading = phaseAuction)), if_pos rfl]
      rfl
    constructor
    · rw [hadv, allCards_setTrading]
      show allCards (setAuction s none) = allCards s
      exact allCards_setAuction_none s hpend
    · rw [hadv]
      exact WF_fresh_trading _ _ rfl
  · by_cases hT : s.currentPhase = phaseTrading
    · have hg : getNextPhase s.currentPhase = some phaseGoalResolution := by
        rw [hT]
        unfold getNextPhase
        rw [if_neg (by decide), if_pos rfl]
      have hcl : cleanupPhase s s.currentPhase = setTrading s none := by
        unfold cleanupPhase
        rw [hT, if_neg (by decide), if_pos rfl]
      have hadv : advancePhase s
          = setGoalRes { setTrading s none with currentPhase := phaseGoalResolution }
              (some { currentPlayerIndex := 0, revealedGoals := [], pendingRewardExecution := none }) := by
        unfold advancePhase
        simp only [hg]
        unfold transitionToPhase
        rw [hcl]
        unfold initPhase
        rw [if_neg (by decide : ¬ (phaseGoalResolution = phaseAuction)),
          if_neg (by decide : ¬ (phaseGoalResolution = phaseTrading)), if_pos rfl]
        rfl
      constructor
      · rw [hadv]
        rfl
      · rw [hadv]
        refine WF_transport s _ rfl ?_ (fun q => rfl) ?_ hwf
        · intro tr h
          exact Option.noConfusion h
        · intro h
          exact hwf.auctionStale (by rw [hT]; decide)
    · by_cases hG : s.currentPhase = phaseGoalResolution
      · have hg : getNextPhase s.currentPhase = some phaseSell := by
          rw [hG]
          unfold getNextPhase
          rw [if_neg (by decide), if_neg (by decide), if_pos rfl]
        have hcl : cleanupPhase s s.currentPhase = setGoalRes s none := by
          unfold cleanupPhase
          rw [hG, if_neg (by decide), if_neg (by decide), if_pos rfl]
        have hadv : advancePhase s = setSell { setGoalRes s none with currentPhase := phaseSell } (some { playerSelections := (playerIds { setGoalRes s none with currentPhase := phaseSell }).map (fun pid => (pid, { cardsToSell := [], committed := false })), allCommitted := false }) := by
          unfold advancePhase
          simp only [hg]
          unfold transitionToPhase
          rw [hcl]
          unfold initPhase
          rw [if_neg (by decide : ¬ (phaseSell = phaseAuction)),
            if_neg (by decide : ¬ (phaseSell = phaseTrading)),
            if_neg (by decide : ¬ (phaseSell = phaseGoalResolution)), if_pos rfl]
          rfl
        constructor
        · rw [hadv]
          rfl
        · rw [hadv]
          refine WF_transport s _ rfl ?_ (fun q => rfl) ?_ hwf
          · intro tr h
            exact hwf.offersProposer tr h
          · intro h
            exact hwf.auctionStale (by rw [hG]; decide)
      · have hg : getNextPhase s.currentPhase = none := by
          unfold getNextPhase
          rw [if_neg hA, if_neg hT, if_neg hG]
        have hadv0 : advancePhase s = completeRound s := by
          unfold advancePhase
          simp only [hg]
        rw [hadv0]
        unfold completeRound
        by_cases hR : s.currentRound < s.config.totalRounds
        · rw [if_pos hR]
          have hph1 : (advanceRound s).currentPhase = s.currentPhase := rfl
          have hpend : auctionPendingCards s = [] := hwf.auctionStale hA
          by_cases hS : s.currentPhase = phaseSell
          · have hcl : cleanupPhase (advanceRound s) (advanceRound s).currentPhase
                = setSell (advanceRound s) none := by
              unfold cleanupPhase
              rw [hph1, hS, if_neg (by decide : ¬ (phaseSell = phaseAuction)),
                if_neg (by decide : ¬ (phaseSell = phaseTrading)),
                if_neg (by decide : ¬ (phaseSell = phaseGoalResolution)), if_pos rfl]
            have hadv : transitionToPhase (advanceRound s) phaseAuction
                = initAuction { setSell (advanceRound s) none with currentPhase := phaseAuction } := by
              unfold transitionToPhase
              rw [hcl]
              unfold initPhase
              rw [if_pos rfl]
            rw [hadv]
            constructor
            · have h1 : allCards (initAuction { setSell (advanceRound s) none with currentPhase := phaseAuction })
                  = allCards { setSell (advanceRound s) none with currentPhase := phaseAuction } :=
                allCards_initAuction _ hpend
              rw [h1]
              rfl
            · refine WF_initAuction _ rfl ?_
              intro tr h o ho
              exact hwf.offersProposer tr h o ho
          · have hcl : cleanupPhase (advanceRound s) (advanceRound s).currentPhase
                = advanceRound s := by
              unfold cleanupPhase
              rw [hph1, if_neg hA, if_neg hT, if_neg hG, if_neg hS]
            have hadv : transitionToPhase (advanceRound s) phaseAuction
                = initAuction { advanceRound s with currentPhase := phaseAuction } := by
              unfold transitionToPhase
              rw [hcl]
              unfold initPhase
              rw [if_pos rfl]
            rw [hadv]
            constructor
            · have h1 : allCards (initAuction { advanceRound s with currentPhase := phaseAuction })
                  = allCards { advanceRound s with currentPhase := phaseAuction } :=
                allCards_initAuction _ hpend
              rw [h1]
              rfl
            · refine WF_initAuction _ rfl ?_
              intro tr h o ho
              exact hwf.offersProposer tr h o ho
        · rw [if_neg hR]
          constructor
          · rfl
          · refine WF_transport s _ rfl ?_ (fun q => rfl) ?_ hwf
            · intro tr h
              exact hwf.offersProposer tr h
            · intro h
              exact hwf.auctionStale hA

theorem autoAdvance_conserves (s : GState) (hwf : WF s) :
    allCards (autoAdvance s) = allCards s ∧ WF (autoAdvance s) := by
  unfold autoAdvance
  by_cases hc : canAdvancePhase s = true
  · rw [if_pos hc]
    refine advancePhase_conserves s hwf ?_
    intro hA
    unfold canAdvancePhase at hc
    rw [if_pos hA] at hc
    exact hc
  · rw [if_neg hc]
    exact ⟨rfl, hwf⟩

theorem allCards_eq_auction (s : GState) (au : AuctionState)
    (hau : s.phaseState.auction = some au) :
    allCards s = threeLocCards s
      + ((au.cardsToAuction.drop au.currentCardIndex : List RCard) : Multiset RCard) := by
  unfold allCards auctionPendingCards
  rw [hau]

theorem allCards_setAuction_some (s : GState) (au2 : AuctionState) :
    allCards (setAuction s (some au2)) = threeLocCards s
      + ((au2.cardsToAuction.drop au2.currentCardIndex : List RCard) : Multiset RCard) := rfl

theorem allCards_moveToNextCard (s : GState) (au : AuctionState)
    (hau : s.phaseState.auction = some au) :
    allCards (moveToNextCard s) = threeLocCards s
      + ((au.cardsToAuction.drop (au.currentCardIndex + 1) : List RCard) : Multiset RCard) := by
  unfold moveToNextCard
  simp only [hau]
  split <;> rfl

theorem pending_split (au : AuctionState) (c : RCard)
    (hc : au.cardsToAuction.get? au.currentCardIndex = some c) :
    ((au.cardsToAuction.drop au.currentCardIndex : List RCard) : Multiset RCard)
      = {c} + ((au.cardsToAuction.drop (au.currentCardIndex + 1) : List RCard) : Multiset RCard) := by
  rw [List.get?_eq_some] at hc
  obtain ⟨hlt, hget⟩ := hc
  have hd : au.cardsToAuction.drop au.currentCardIndex
      = c :: au.cardsToAuction.drop (au.currentCardIndex + 1) := by
    rw [List.drop_eq_getElem_cons hlt, ← hget]
    rfl
  rw [hd, ← Multiset.cons_coe, Multiset.singleton_add]

theorem pending_drop_nil (au : AuctionState)
    (hc : au.cardsToAuction.get? au.currentCardIndex = none) :
    au.cardsToAuction.drop au.currentCardIndex = [] ∧
    au.cardsToAuction.drop (au.currentCardIndex + 1) = [] := by
  rw [List.get?_eq_none] at hc
  exact ⟨List.drop_eq_nil_of_le hc, List.drop_eq_nil_of_le (le_trans hc (Nat.le_succ _))⟩

theorem trading_moveToNextCard (s : GState) :
    (moveToNextCard s).phaseState.trading = s.phaseState.trading := by
  unfold moveToNextCard
  cases s.phaseState.auction with
  | none => rfl
  | some au =>
    dsimp only
    split <;> rfl

theorem isSome_getPlayer_moveToNextCard (s : GState) (q : String) :
    (getPlayer (moveToNextCard s) q).isSome = (getPlayer s q).isSome := by
  unfold moveToNextCard
  cases s.phaseState.auction with
  | none => rfl
  | some au =>
    dsimp only
    split <;> rfl

theorem addShuffle3 (a b u v d c : Multiset RCard) (h : a + u = b + v) :
    a + d + c + u = b + d + c + v := by
  have h1 : a + d + c + u = (a + u) + (d + c) := by abel
  have h2 : b + d + c + v = (b + v) + (d + c) := by abel
  rw [h1, h2, h]

theorem threeLoc_players_update (s : GState) (x : String) (f : Player → Player) (p : Player)
    (hp : getPlayer s x = some p) :
    threeLocCards { s with players := updateFirstPlayer s.players x f }
        + (p.hand : Multiset RCard)
      = threeLocCards s + ((f p).hand : Multiset RCard) := by
  unfold getPlayer at hp
  have h := handsMS_update s.players x f p hp
  have h1 : threeLocCards { s with players := updateFirstPlayer s.players x f }
      = handsMS (updateFirstPlayer s.players x f)
        + (s.resourceDeck.drawPile : Multiset RCard)
        + (s.resourceDeck.discardPile : Multiset RCard) := rfl
  have h2 : threeLocCards s
      = handsMS s.players + (s.resourceDeck.drawPile : Multiset RCard)
        + (s.resourceDeck.discardPile : Multiset RCard) := rfl
  rw [h1, h2]
  exact addShuffle3 _ _ _ _ _ _ h

theorem threeLoc_adjustPlayerCash (s : GState) (w : String) (amt : Int) :
    threeLocCards (adjustPlayerCash s w amt) = threeLocCards s := by
  cases hp : getPlayer s w with
  | none =>
    unfold getPlayer at hp
    show threeLocCards { s with players := updateFirstPlayer s.players w _ } = threeLocCards s
    rw [updateFirstPlayer_of_find?_none _ _ _ hp]
  | some p =>
    have h := threeLoc_players_update s w
      (fun q => let c := q.cash + amt; { q with cash := if c < 0 then 0 else c }) p hp
    exact add_right_cancel h

theorem threeLoc_addCardToHand (s : GState) (w : String) (c : RCard) (p : Player)
    (hp : getPlayer s w = some p) :
    threeLocCards (addCardToHand s w c) = threeLocCards s + {c} := by
  have h := threeLoc_players_update s w (fun q => { q with hand := q.hand ++ [c] }) p hp
  rw [show ((p.hand ++ [c] : List RCard) : Multiset RCard)
      = (p.hand : Multiset RCard) + {c} from by
    rw [← Multiset.coe_add, Multiset.coe_singleton]] at h
  have h2 : threeLocCards s + ((p.hand : Multiset RCard) + {c})
      = (threeLocCards s + {c}) + (p.hand : Multiset RCard) := by abel
  rw [h2] at h
  exact add_right_cancel h

theorem allCards_completeCCA (s : GState) (au : AuctionState) (w : String)
    (hau : s.phaseState.auction = some au)
    (hcard : au.currentCard = au.cardsToAuction.get? au.currentCardIndex)
    (hw : (match au.currentHighBidder with
           | some h => some h
           | none => au.activeBidders.head?) = some w)
    (hgw : (getPlayer s w).isSome) :
    allCards (completeCurrentCardAuction s) = allCards s := by
  unfold completeCurrentCardAuction
  simp only [hau, hw]
  cases hc : au.currentCard with
  | none =>
    obtain ⟨h1, h2⟩ := pending_drop_nil au (hcard.symm.trans hc)
    have hXau : (adjustPlayerCash s w (-au.currentBid)).phaseState.auction = some au := hau
    rw [allCards_moveToNextCard _ au hXau, h2, allCards_eq_auction s au hau, h1,
      threeLoc_adjustPlayerCash]
  | some c =>
    have hgetc : au.cardsToAuction.get? au.currentCardIndex = some c := hcard.symm.trans hc
    have hYau : (addCardToHand (adjustPlayerCash s w (-au.currentBid)) w c).phaseState.auction
        = some au := hau
    rw [allCards_moveToNextCard _ au hYau]
    have hXw : (getPlayer (adjustPlayerCash s w (-au.currentBid)) w).isSome = true := by
      rw [isSome_getPlayer_adjustPlayerCash]
      exact hgw
    obtain ⟨pw, hpw⟩ := Option.isSome_iff_exists.mp hXw
    have h3 : threeLocCards (addCardToHand (adjustPlayerCash s w (-au.currentBid)) w c)
        = threeLocCards s + {c} := by
      rw [threeLoc_addCardToHand _ w c pw hpw]
      rw [show threeLocCards (adjustPlayerCash s w (-au.currentBid)) = threeLocCards s from
        threeLoc_adjustPlayerCash s w _]
    rw [h3, allCards_eq_auction s au hau, pending_split au c hgetc]
    abel

theorem trading_completeCCA (s : GState) :
    (completeCurrentCardAuction s).phaseState.trading = s.phaseState.trading := by
  unfold completeCurrentCardAuction
  cases s.phaseState.auction with
  | none => rfl
  | some au =>
    dsimp only
    cases (match au.currentHighBidder with
           | some w => some w
           | none => au.activeBidders.head?) with
    | none => exact trading_moveToNextCard _
    | some w =>
      cases au.currentCard with
      | none => exact trading_moveToNextCard _
      | some c => exact trading_moveToNextCard _

theorem isSome_getPlayer_completeCCA (s : GState) (q : String) :
    (getPlayer (completeCurrentCardAuction s) q).isSome = (getPlayer s q).isSome := by
  unfold completeCurrentCardAuction
  cases s.phaseState.auction with
  | none => rfl
  | some au =>
    dsimp only
    cases (match au.currentHighBidder with
           | some w => some w
           | none => au.activeBidders.head?) with
    | none => exact isSome_getPlayer_moveToNextCard _ _
    | some w =>
      cases au.currentCard with
      | none =>
        rw [isSome_getPlayer_moveToNextCard]
        exact isSome_getPlayer_adjustPlayerCash _ _ _ _
      | some c =>
        rw [isSome_getPlayer_moveToNextCard, isSome_getPlayer_addCardToHand]
        exact isSome_getPlayer_adjustPlayerCash _ _ _ _

theorem WF_moveToNextCard (s : GState) (au : AuctionState)
    (hau : s.phaseState.auction = some au)
    (hph : s.currentPhase = phaseAuction)
    (htro : ∀ tr, s.phaseState.trading = some tr →
      ∀ o ∈ tr.activeOffers, (getPlayer s o.offeringPlayer).isSome)
    (hcomp : isAuctionComplete (moveToNextCard s) = false) :
    WF (moveToNextCard s) := by
  by_cases hlt : au.currentCardIndex + 1 < au.cardsToAuction.length
  · have hsl : (moveToNextCard s).phaseState.auction = some { au with currentCardIndex := au.currentCardIndex + 1, currentCard := au.cardsToAuction.get? (au.currentCardIndex + 1), currentBid := 0, currentHighBidder := none, activeBidders := playerIds { s with dealerIndex := (s.dealerIndex + 1) % s.players.length }, currentPlayerIndex := ({ s with dealerIndex := (s.dealerIndex + 1) % s.players.length } : GState).dealerIndex, lastRaiserIndex := none } := by
      unfold moveToNextCard
      simp only [hau]
      rw [if_pos hlt]
      rfl
    refine ⟨?_, ?_, ?_, ?_, ?_⟩
    · intro au2 h
      rw [hsl] at h
      injection h with h
      rw [← h]
    · intro au2 h pid hpid
      rw [hsl] at h
      injection h with h
      rw [← h] at hpid
      have hm := mem_playerIds_isSome { s with dealerIndex := (s.dealerIndex + 1) % s.players.length } pid hpid
      rw [isSome_getPlayer_moveToNextCard]
      exact hm
    · intro au2 h pid hpid
      rw [hsl] at h
      injection h with h
      rw [← h] at hpid
      cases hpid
    · intro tr h o ho
      rw [trading_moveToNextCard] at h
      rw [isSome_getPlayer_moveToNextCard]
      exact htro tr h o ho
    · intro h
      exact absurd (by rw [currentPhase_moveToNextCard]; exact hph) h
  · exfalso
    have hsl : (moveToNextCard s).phaseState.auction
        = some { au with currentCardIndex := au.currentCardIndex + 1 } := by
      unfold moveToNextCard
      simp only [hau]
      rw [if_neg hlt]
      rfl
    have hiac : isAuctionComplete (moveToNextCard s) = true := by
      unfold isAuctionComplete
      rw [hsl]
      simp only [ge_iff_le, decide_eq_true_eq]
      omega
    rw [hiac] at hcomp
    cases hcomp

theorem WF_completeCCA (s : GState) (au : AuctionState)
    (hau : s.phaseState.auction = some au)
    (hph : s.currentPhase = phaseAuction)
    (htro : ∀ tr, s.phaseState.trading = some tr →
      ∀ o ∈ tr.activeOffers, (getPlayer s o.offeringPlayer).isSome)
    (hcomp : isAuctionComplete (completeCurrentCardAuction s) = false) :
    WF (completeCurrentCardAuction s) := by
  unfold completeCurrentCardAuction at hcomp ⊢
  simp only [hau] at hcomp ⊢
  cases hwid : (match au.currentHighBidder with
                | some h => some h
                | none => au.activeBidders.head?) with
  | none =>
    rw [hwid] at hcomp
    exact WF_moveToNextCard s au hau hph htro hcomp
  | some w =>
    rw [hwid] at hcomp
    cases hc : au.currentCard with
    | none =>
      rw [hc] at hcomp
      refine WF_moveToNextCard (adjustPlayerCash s w (-au.currentBid)) au hau hph ?_ hcomp
      intro tr h o ho
      rw [isSome_getPlayer_adjustPlayerCash]
      exact htro tr h o ho
    | some c =>
      rw [hc] at hcomp
      refine WF_moveToNextCard (addCardToHand (adjustPlayerCash s w (-au.currentBid)) w c)
        au hau hph ?_ hcomp
      intro tr h o ho
      rw [isSome_getPlayer_addCardToHand, isSome_getPlayer_adjustPlayerCash]
      exact htro tr h o ho

theorem advancePhase_auction_conserves (s : GState)
    (hA : s.currentPhase = phaseAuction)
    (hcomp : isAuctionComplete s = true) :
    allCards (advancePhase s) = allCards s ∧ WF (advancePhase s) := by
  have hg : getNextPhase s.currentPhase = some phaseTrading := by
    rw [hA]
    unfold getNextPhase
    rw [if_pos rfl]
  have hpend : auctionPendingCards s = [] := pending_nil_of_complete s hcomp
  have hcl : cleanupPhase s s.currentPhase = setAuction s none := by
    unfold cleanupPhase
    rw [hA, if_pos rfl]
  have hadv : advancePhase s
      = setTrading { setAuction s none with currentPhase := phaseTrading }
          (some { activeOffers := [],
                  timeRemaining := ({ setAuction s none with currentPhase := phaseTrading } : GState).config.tradingDuration }) := by
    unfold advancePhase
    simp only [hg]
    unfold transitionToPhase
    rw [hcl]
    unfold initPhase
    rw [if_neg (by decide : ¬ (phaseTrading = phaseAuction)), if_pos rfl]
    rfl
  constructor
  · rw [hadv, allCards_setTrading]
    show allCards (setAuction s none) = allCards s
    exact allCards_setAuction_none s hpend
  · rw [hadv]
    exact WF_fresh_trading _ _ rfl

theorem autoAdvance_conserves_auction (s : GState)
    (hA : s.currentPhase = phaseAuction)
    (hnc : canAdvancePhase s = false → WF s) :
    allCards (autoAdvance s) = allCards s ∧ WF (autoAdvance s) := by
  unfold autoAdvance
  by_cases hc : canAdvancePhase s = true
  · rw [if_pos hc]
    refine advancePhase_auction_conserves s hA ?_
    unfold canAdvancePhase at hc
    rw [if_pos hA] at hc
    exact hc
  · rw [if_neg hc]
    exact ⟨rfl, hnc (Bool.eq_false_iff.mpr hc)⟩

theorem WF_setAuction_like (s : GState) (au au2 : AuctionState)
    (hau : s.phaseState.auction = some au)
    (hph : s.currentPhase = phaseAuction)
    (hcards : au2.cardsToAuction = au.cardsToAuction)
    (hidx : au2.currentCardIndex = au.currentCardIndex)
    (hcur : au2.currentCard = au.currentCard)
    (hbid : ∀ pid ∈ au2.activeBidders, (getPlayer s pid).isSome)
    (hhigh : ∀ pid, au2.currentHighBidder = some pid → (getPlayer s pid).isSome)
    (hwf : WF s) : WF (setAuction s (some au2)) := by
  refine ⟨?_, ?_, ?_, ?_, ?_⟩
  · intro au3 h
    rw [auction_setAuction] at h
    injection h with h
    rw [← h, hcur, hcards, hidx]
    exact hwf.auctionCard au hau
  · intro au3 h pid hpid
    rw [auction_setAuction] at h
    injection h with h
    rw [← h] at hpid
    exact hbid pid hpid
  · intro au3 h pid hpid
    rw [auction_setAuction] at h
    injection h with h
    rw [← h] at hpid
    exact hhigh pid hpid
  · intro tr h o ho
    exact hwf.offersProposer tr h o ho
  · intro h
    exact absurd hph h

theorem stepBid_conserves (s : GState) (pid : String) (amount : Int)
    (hv : validateBid s pid amount = true) (hwf : WF s) :
    allCards (stepBid s pid amount) = allCards s ∧ WF (stepBid s pid amount) := by
  obtain ⟨hph, player, au, hp, hau, hmem, hgt, hcash⟩ := validateBid_spec s pid amount hv
  obtain ⟨i, hshape⟩ := advanceToNextActiveBidder_shape s { au with currentBid := amount, currentHighBidder := some pid, lastRaiserIndex := some au.currentPlayerIndex }
  have hpb : placeBid s pid amount = setAuction s (some { au with currentBid := amount, currentHighBidder := some pid, lastRaiserIndex := some au.currentPlayerIndex, currentPlayerIndex := i }) := by
    unfold placeBid
    simp only [hau]
    rw [hshape]
  have hall : allCards (placeBid s pid amount) = allCards s := by
    rw [hpb, allCards_setAuction_some, allCards_eq_auction s au hau]
  have hph1 : (placeBid s pid amount).currentPhase = phaseAuction := by
    rw [currentPhase_placeBid]
    exact hph
  have hwf1 : canAdvancePhase (placeBid s pid amount) = false → WF (placeBid s pid amount) := by
    intro _
    rw [hpb]
    refine WF_setAuction_like s au _ hau hph rfl rfl rfl ?_ ?_ hwf
    · intro pid2 hpid2
      exact hwf.auctionBidders au hau pid2 hpid2
    · intro pid2 hpid2
      have hpp : pid = pid2 := by
        injection hpid2
      rw [← hpp]
      exact hwf.auctionBidders au hau pid hmem
  have haa := autoAdvance_conserves_auction (placeBid s pid amount) hph1 hwf1
  have hsb : stepBid s pid amount = autoAdvance (placeBid s pid amount) := rfl
  constructor
  · rw [hsb, haa.1, hall]
  · rw [hsb]
    exact haa.2

theorem allCards_discard_move (s2 : GState) (au2 : AuctionState) (c : RCard)
    (hau2 : s2.phaseState.auction = some au2)
    (hgetc : au2.cardsToAuction.get? au2.currentCardIndex = some c) :
    allCards (moveToNextCard { s2 with resourceDeck := discardCards s2.resourceDeck [c] })
      = allCards s2 := by
  have hs3au : ({ s2 with resourceDeck := discardCards s2.resourceDeck [c] } : GState).phaseState.auction
      = some au2 := hau2
  rw [allCards_moveToNextCard _ au2 hs3au]
  have h1 : allCards { s2 with resourceDeck := discardCards s2.resourceDeck [c] }
      = allCards s2 + ({c} : Multiset RCard) := by
    rw [allCards_discard s2 [c], Multiset.coe_singleton]
  have h2 := allCards_eq_auction { s2 with resourceDeck := discardCards s2.resourceDeck [c] }
    au2 hs3au
  have h3 : threeLocCards { s2 with resourceDeck := discardCards s2.resourceDeck [c] }
      + ((au2.cardsToAuction.drop au2.currentCardIndex : List RCard) : Multiset RCard)
      = allCards s2 + ({c} : Multiset RCard) := by
    rw [← h2, h1]
  rw [pending_split au2 c hgetc] at h3
  have h4 : threeLocCards { s2 with resourceDeck := discardCards s2.resourceDeck [c] }
      + (({c} : Multiset RCard)
        + ((au2.cardsToAuction.drop (au2.currentCardIndex + 1) : List RCard) : Multiset RCard))
      = (threeLocCards { s2 with resourceDeck := discardCards s2.resourceDeck [c] }
        + ((au2.cardsToAuction.drop (au2.currentCardIndex + 1) : List RCard) : Multiset RCard))
        + ({c} : Multiset RCard) := by abel
  rw [h4] at h3
  exact add_right_cancel h3

theorem allCards_move_nilcard (s2 : GState) (au2 : AuctionState)
    (hau2 : s2.phaseState.auction = some au2)
    (hgetc : au2.cardsToAuction.get? au2.currentCardIndex = none) :
    allCards (moveToNextCard s2) = allCards s2 := by
  obtain ⟨h1, h2⟩ := pending_drop_nil au2 hgetc
  rw [allCards_moveToNextCard s2 au2 hau2, h2, allCards_eq_auction s2 au2 hau2, h1]

theorem stepPass_conserves (s : GState) (pid : String)
    (hv : validatePass s pid = true) (hwf : WF s) :
    allCards (stepPass s pid) = allCards s ∧ WF (stepPass s pid) := by
  obtain ⟨hph, au, hau, hmem⟩ := validatePass_spec s pid hv
  have hcard : au.currentCard = au.cardsToAuction.get? au.currentCardIndex :=
    hwf.auctionCard au hau
  have hPA : allCards (passAction s pid) = allCards s ∧
      (passAction s pid).currentPhase = phaseAuction ∧
      (isAuctionComplete (passAction s pid) = false → WF (passAction s pid)) := by
    unfold passAction
    simp only [hau]
    split
    case isTrue h1 =>
      obtain ⟨q, hq⟩ := List.length_eq_one.mp h1
      rw [hq]
      have hs2au : (setAuction s (some { au with activeBidders := [q] })).phaseState.auction
          = some { au with activeBidders := [q] } := rfl
      have hall2 : allCards (setAuction s (some { au with activeBidders := [q] }))
          = allCards s := by
        rw [allCards_setAuction_some, allCards_eq_auction s au hau]
      have hqmem : q ∈ au.activeBidders := by
        have h2 : q ∈ au.activeBidders.filter (fun x => x ≠ pid) := by
          rw [hq]
          exact List.mem_singleton_self q
        exact List.mem_of_mem_filter h2
      have hwin : ∃ w, (match au.currentHighBidder with
            | some h => some h
            | none => ([q] : List String).head?) = some w ∧ (getPlayer s w).isSome := by
        cases hhb : au.currentHighBidder with
        | some h0 =>
          refine ⟨h0, by simp only [hhb], ?_⟩
          exact hwf.auctionHigh au hau h0 hhb
        | none =>
          refine ⟨q, by simp only [hhb]; rfl, ?_⟩
          exact hwf.auctionBidders au hau q hqmem
      obtain ⟨w, hw0, hgw0⟩ := hwin
      refine ⟨?_, ?_, ?_⟩
      · rw [allCards_completeCCA (setAuction s (some { au with activeBidders := [q] }))
          { au with activeBidders := [q] } w hs2au hcard hw0 hgw0]
        exact hall2
      · rw [currentPhase_completeCurrentCardAuction]
        exact hph
      · intro hcomp
        refine WF_completeCCA _ { au with activeBidders := [q] } hs2au hph ?_ hcomp
        intro tr h o ho
        exact hwf.offersProposer tr h o ho
    case isFalse h1 =>
      split
      case isTrue h0 =>
        cases hc : au.currentCard with
        | some c =>
          have hgetc : au.cardsToAuction.get? au.currentCardIndex = some c :=
            hcard.symm.trans hc
          have e2 : allCards (setAuction s (some { au with currentCard := some c, activeBidders := au.activeBidders.filter (fun x => x ≠ pid) })) = allCards s := by
            rw [allCards_setAuction_some, allCards_eq_auction s au hau]
          have e1 := allCards_discard_move
            (setAuction s (some { au with currentCard := some c, activeBidders := au.activeBidders.filter (fun x => x ≠ pid) }))
            { au with currentCard := some c, activeBidders := au.activeBidders.filter (fun x => x ≠ pid) }
            c rfl hgetc
          refine ⟨?_, ?_, ?_⟩
          · exact e1.trans e2
          · rw [currentPhase_moveToNextCard]
            exact hph
          · intro hcomp
            exact WF_moveToNextCard _
              { au with currentCard := some c, activeBidders := au.activeBidders.filter (fun x => x ≠ pid) }
              rfl hph (fun tr h o ho => hwf.offersProposer tr h o ho) hcomp
        | none =>
          have hgetc : au.cardsToAuction.get? au.currentCardIndex = none :=
            hcard.symm.trans hc
          have e2 : allCards (setAuction s (some { au with currentCard := none, activeBidders := au.activeBidders.filter (fun x => x ≠ pid) })) = allCards s := by
            rw [allCards_setAuction_some, allCards_eq_auction s au hau]
          have e1 := allCards_move_nilcard
            (setAuction s (some { au with currentCard := none, activeBidders := au.activeBidders.filter (fun x => x ≠ pid) }))
            { au with currentCard := none, activeBidders := au.activeBidders.filter (fun x => x ≠ pid) }
            rfl hgetc
          refine ⟨?_, ?_, ?_⟩
          · exact e1.trans e2
          · rw [currentPhase_moveToNextCard]
            exact hph
          · intro hcomp
            exact WF_moveToNextCard _
              { au with currentCard := none, activeBidders := au.activeBidders.filter (fun x => x ≠ pid) }
              rfl hph (fun tr h o ho => hwf.offersProposer tr h o ho) hcomp
      case isFalse h0 =>
        obtain ⟨i, hshape⟩ := advanceToNextActiveBidder_shape
          (setAuction s (some { au with activeBidders := au.activeBidders.filter (fun x => x ≠ pid) }))
          { au with activeBidders := au.activeBidders.filter (fun x => x ≠ pid) }
        rw [hshape]
        dsimp only
        cases hlr : au.lastRaiserIndex with
        | none =>
          refine ⟨?_, ?_, ?_⟩
          · rw [allCards_setAuction_some, allCards_eq_auction s au hau]
            rfl
          · exact hph
          · intro hcomp
            refine WF_setAuction_like s au _ hau hph rfl rfl rfl ?_ ?_ hwf
            · intro pid2 hpid2
              exact hwf.auctionBidders au hau pid2 (List.mem_of_mem_filter hpid2)
            · intro pid2 hpid2
              exact hwf.auctionHigh au hau pid2 hpid2
        | some lr =>
          dsimp only
          split
          case isTrue hcnd =>
            obtain ⟨heq, hhbs⟩ := hcnd
            obtain ⟨h0b, hh0⟩ := Option.isSome_iff_exists.mp hhbs
            have hw0 : (match au.currentHighBidder with
                | some h => some h
                | none => (au.activeBidders.filter (fun x => x ≠ pid)).head?) = some h0b := by
              simp only [hh0]
            refine ⟨?_, ?_, ?_⟩
            · rw [allCards_completeCCA (setAuction (setAuction s (some { au with activeBidders := au.activeBidders.filter (fun x => x ≠ pid), lastRaiserIndex := some lr })) (some { au with activeBidders := au.activeBidders.filter (fun x => x ≠ pid), currentPlayerIndex := i, lastRaiserIndex := some lr })) { au with activeBidders := au.activeBidders.filter (fun x => x ≠ pid), currentPlayerIndex := i, lastRaiserIndex := some lr } h0b rfl hcard hw0 (hwf.auctionHigh au hau h0b hh0)]
              rw [allCards_setAuction_some, allCards_eq_auction s au hau]
              rfl
            · rw [currentPhase_completeCurrentCardAuction]
              exact hph
            · intro hcomp
              refine WF_completeCCA (setAuction (setAuction s (some { au with activeBidders := au.activeBidders.filter (fun x => x ≠ pid), lastRaiserIndex := some lr })) (some { au with activeBidders := au.activeBidders.filter (fun x => x ≠ pid), currentPlayerIndex := i, lastRaiserIndex := some lr })) { au with activeBidders := au.activeBidders.filter (fun x => x ≠ pid), currentPlayerIndex := i, lastRaiserIndex := some lr } rfl hph ?_ hcomp
              intro tr h o ho
              exact hwf.offersProposer tr h o ho
          case isFalse hcnd =>
            refine ⟨?_, ?_, ?_⟩
            · rw [allCards_setAuction_some, allCards_eq_auction s au hau]
              rfl
            · exact hph
            · intro hcomp
              refine WF_setAuction_like s au _ hau hph rfl rfl rfl ?_ ?_ hwf
              · intro pid2 hpid2
                exact hwf.auctionBidders au hau pid2 (List.mem_of_mem_filter hpid2)
              · intro pid2 hpid2
                exact hwf.auctionHigh au hau pid2 hpid2
  have hph2 : (passAction s pid).currentPhase = phaseAuction := hPA.2.1
  have hlink : canAdvancePhase (passAction s pid) = false → WF (passAction s pid) := by
    intro h
    refine hPA.2.2 ?_
    unfold canAdvancePhase at h
    rw [if_pos hph2] at h
    exact h
  have haa := autoAdvance_conserves_auction (passAction s pid) hph2 hlink
  have hsp : stepPass s pid = autoAdvance (passAction s pid) := rfl
  constructor
  · rw [hsp, haa.1, hPA.1]
  · rw [hsp]
    exact haa.2

theorem Pres_refl (s : GState) : Pres s s :=
  ⟨rfl, fun _ => rfl, rfl, rfl, rfl⟩

theorem Pres_trans (s t u : GState) (h1 : Pres s t) (h2 : Pres t u) : Pres s u := by
  obtain ⟨a1, a2, a3, a4, a5⟩ := h1
  obtain ⟨b1, b2, b3, b4, b5⟩ := h2
  exact ⟨b1.trans a1, fun q => (b2 q).trans (a2 q), b3.trans a3, b4.trans a4, b5.trans a5⟩

theorem WF_of_Pres (s s' : GState) (hp : Pres s s') (hwf : WF s) : WF s' := by
  obtain ⟨h1, h2, h3, h4, h5⟩ := hp
  refine WF_of_untouched s s' h3 h4 h5 ?_ h2 hwf
  unfold auctionPendingCards
  rw [h3]

theorem WF_of_preserve (s s' : GState)
    (hps : s'.phaseState = s.phaseState)
    (hph : s'.currentPhase = s.currentPhase)
    (hgp : ∀ q, (getPlayer s' q).isSome = (getPlayer s q).isSome)
    (hwf : WF s) : WF s' := by
  refine WF_of_untouched s s' (by rw [hps]) (by rw [hps]) hph ?_ hgp hwf
  unfold auctionPendingCards
  rw [hps]

theorem Pres_adjustPlayerCash (s : GState) (pid : String) (amount : Int) :
    Pres s (adjustPlayerCash s pid amount) :=
  ⟨allCards_adjustPlayerCash s pid amount,
   fun q => isSome_getPlayer_adjustPlayerCash s pid q amount, rfl, rfl, rfl⟩

theorem Pres_executeSellBonus (s : GState) (pid : String) (bonus : Int) :
    Pres s (executeSellBonus s pid bonus) :=
  ⟨allCards_executeSellBonus s pid bonus,
   fun q => isSome_getPlayer_executeSellBonus s pid q bonus, rfl, rfl, rfl⟩

theorem Pres_setGoalRevealed (s : GState) (pid gid : String) :
    Pres s (setGoalRevealed s pid gid) :=
  ⟨allCards_setGoalRevealed s pid gid,
   fun q => isSome_getPlayer_setGoalRevealed s pid q gid, rfl, rfl, rfl⟩

theorem Pres_setGoalRes (s : GState) (gr : Option GoalResState) :
    Pres s (setGoalRes s gr) :=
  ⟨allCards_setGoalRes s gr, fun _ => rfl, rfl, rfl, rfl⟩

theorem Pres_applyStockChange (s : GState) (g : GoalCard) :
    Pres s (applyStockChange s g) := by
  unfold applyStockChange
  split
  · exact ⟨rfl, fun _ => rfl, rfl, rfl, rfl⟩
  · exact Pres_refl s

theorem Pres_advanceToNextPlayer (s : GState) : Pres s (advanceToNextPlayer s) := by
  unfold advanceToNextPlayer
  cases s.phaseState.goalResolution with
  | none => exact Pres_refl s
  | some gr => exact Pres_setGoalRes s _

theorem Pres_completeRewardExecution (s : GState) (pid : String) :
    Pres s (completeRewardExecution s pid) := by
  unfold completeRewardExecution
  cases s.phaseState.goalResolution with
  | none => exact Pres_refl s
  | some gr =>
    exact Pres_trans _ _ _ (Pres_setGoalRes s _) (Pres_advanceToNextPlayer _)

theorem proposeTrade_conserves (s : GState) (oid pid : String) (offeringCards : List String)
    (offeringCash : Int) (requestingCards : List (Color × Nat)) (requestingCash : Int)
    (hplayer : (getPlayer s pid).isSome) (hwf : WF s) :
    allCards (proposeTrade s oid pid offeringCards offeringCash requestingCards requestingCash)
      = allCards s ∧
    WF (proposeTrade s oid pid offeringCards offeringCash requestingCards requestingCash) := by
  unfold proposeTrade
  cases htr : s.phaseState.trading with
  | none => exact ⟨rfl, hwf⟩
  | some tr =>
    refine ⟨allCards_setTrading s _, ?_⟩
    refine WF_offers_update s _ ?_ hwf
    intro o ho
    rcases List.mem_append.mp ho with h | h
    · exact hwf.offersProposer tr htr o h
    · rw [List.mem_singleton.mp h]
      exact hplayer

theorem cancelTrade_conserves (s : GState) (oid : String) (hwf : WF s) :
    allCards (cancelTrade s oid) = allCards s ∧ WF (cancelTrade s oid) := by
  unfold cancelTrade
  cases htr : s.phaseState.trading with
  | none => exact ⟨rfl, hwf⟩
  | some tr =>
    dsimp only
    cases hoff : tr.activeOffers.find? (fun o => o.offerId = oid) with
    | none => exact ⟨rfl, hwf⟩
    | some offer =>
      dsimp only
      by_cases hst : offer.status = statusActive
      · rw [if_pos hst]
        refine ⟨allCards_setTrading s _, ?_⟩
        refine WF_offers_update s _ ?_ hwf
        intro o ho
        rcases mem_updateFirstOffer tr.activeOffers oid _ o ho with h | ⟨o0, ho0, heq⟩
        · exact hwf.offersProposer tr htr o h
        · rw [heq]
          exact hwf.offersProposer tr htr o0 ho0
      · rw [if_neg hst]
        exact ⟨rfl, hwf⟩

theorem WF_autoCancel (s : GState) (pid : String) (hwf : WF s) :
    WF (autoCancelInvalidOffers s pid) := by
  unfold autoCancelInvalidOffers
  cases htr : s.phaseState.trading with
  | none => exact hwf
  | some tr =>
    dsimp only
    cases hgp : getPlayer s pid with
    | none => exact hwf
    | some player =>
      refine WF_offers_update s _ ?_ hwf
      intro o ho
      obtain ⟨o0, ho0, hgo⟩ := List.mem_map.mp ho
      have hop : o.offeringPlayer = o0.offeringPlayer := by
        rw [← hgo]
        split
        · split
          · rfl
          · rfl
        · rfl
      rw [hop]
      exact hwf.offersProposer tr htr o0 ho0

theorem foldl_pres2 {α : Type} (g : GState → α → GState)
    (hstep : ∀ st a, (g st a).phaseState = st.phaseState ∧
      (g st a).currentPhase = st.currentPhase) :
    ∀ (l : List α) (st : GState),
      (l.foldl g st).phaseState = st.phaseState ∧
      (l.foldl g st).currentPhase = st.currentPhase := by
  intro l
  induction l with
  | nil =>
    intro st
    exact ⟨rfl, rfl⟩
  | cons a t ih =>
    intro st
    obtain ⟨h1, h2⟩ := hstep st a
    obtain ⟨g1, g2⟩ := ih (g st a)
    exact ⟨g1.trans h1, g2.trans h2⟩

theorem pres2_removeCardFromHand (s : GState) (pid cid : String) :
    (removeCardFromHand s pid cid).2.phaseState = s.phaseState ∧
    (removeCardFromHand s pid cid).2.currentPhase = s.currentPhase := by
  unfold removeCardFromHand
  cases getPlayer s pid with
  | none => exact ⟨rfl, rfl⟩
  | some p =>
    dsimp only
    cases removeById p.hand cid with
    | none => exact ⟨rfl, rfl⟩
    | some pr =>
      obtain ⟨card, rest⟩ := pr
      exact ⟨rfl, rfl⟩

theorem pres2_removeCardsByColor (s : GState) (pid : String) (c : Color) (n : Nat) :
    (removeCardsByColor s pid c n).2.phaseState = s.phaseState ∧
    (removeCardsByColor s pid c n).2.currentPhase = s.currentPhase := by
  unfold removeCardsByColor
  cases getPlayer s pid with
  | none => exact ⟨rfl, rfl⟩
  | some p => exact ⟨rfl, rfl⟩

theorem offeredLam_pres2 (P A : String) (s2 : GState) (cid : String) :
    ((match (removeCardFromHand s2 P cid).1 with
      | some card => addCardToHand (removeCardFromHand s2 P cid).2 A card
      | none => (removeCardFromHand s2 P cid).2) : GState).phaseState = s2.phaseState ∧
    ((match (removeCardFromHand s2 P cid).1 with
      | some card => addCardToHand (removeCardFromHand s2 P cid).2 A card
      | none => (removeCardFromHand s2 P cid).2) : GState).currentPhase = s2.currentPhase := by
  cases h : (removeCardFromHand s2 P cid).1 with
  | none =>
    simp only [h]
    exact pres2_removeCardFromHand s2 P cid
  | some card =>
    simp only [h]
    exact pres2_removeCardFromHand s2 P cid

theorem requestedLam_pres2 (P A : String) (s2 : GState) (rq : Color × Nat) :
    (((removeCardsByColor s2 A rq.1 rq.2).1.foldl
        (fun st2 card => addCardToHand st2 P card)
        (removeCardsByColor s2 A rq.1 rq.2).2) : GState).phaseState = s2.phaseState ∧
    (((removeCardsByColor s2 A rq.1 rq.2).1.foldl
        (fun st2 card => addCardToHand st2 P card)
        (removeCardsByColor s2 A rq.1 rq.2).2) : GState).currentPhase = s2.currentPhase := by
  have hin := foldl_pres2 (fun st2 card => addCardToHand st2 P card)
    (fun _ _ => ⟨rfl, rfl⟩)
    (removeCardsByColor s2 A rq.1 rq.2).1 (removeCardsByColor s2 A rq.1 rq.2).2
  have hrc := pres2_removeCardsByColor s2 A rq.1 rq.2
  exact ⟨hin.1.trans hrc.1, hin.2.trans hrc.2⟩

theorem pres2_executeTrade (st : GState) (offer : Offer) (A : String) :
    (executeTrade st offer A).phaseState = st.phaseState ∧
    (executeTrade st offer A).currentPhase = st.currentPhase := by
  have h1 := foldl_pres2 (fun s2 cid =>
      match (removeCardFromHand s2 offer.offeringPlayer cid).1 with
      | some card => addCardToHand (removeCardFromHand s2 offer.offeringPlayer cid).2 A card
      | none => (removeCardFromHand s2 offer.offeringPlayer cid).2)
    (fun s2 cid => offeredLam_pres2 offer.offeringPlayer A s2 cid) offer.offeringCards st
  have h2 := foldl_pres2 (fun s2 rq =>
      (removeCardsByColor s2 A rq.1 rq.2).1.foldl
        (fun st2 card => addCardToHand st2 offer.offeringPlayer card)
        (removeCardsByColor s2 A rq.1 rq.2).2)
    (fun s2 rq => requestedLam_pres2 offer.offeringPlayer A s2 rq) offer.requestingCards
    (offer.offeringCards.foldl (fun s2 cid =>
      match (removeCardFromHand s2 offer.offeringPlayer cid).1 with
      | some card => addCardToHand (removeCardFromHand s2 offer.offeringPlayer cid).2 A card
      | none => (removeCardFromHand s2 offer.offeringPlayer cid).2) st)
  constructor
  · show ((if offer.requestingCash > 0 then _ else _ : GState)).phaseState = st.phaseState
    by_cases hb1 : offer.offeringCash > 0 <;> by_cases hb2 : offer.requestingCash > 0 <;>
      simp only [if_pos, if_neg, hb1, hb2, if_true, if_false] <;>
      exact h2.1.trans h1.1
  · show ((if offer.requestingCash > 0 then _ else _ : GState)).currentPhase = st.currentPhase
    by_cases hb1 : offer.offeringCash > 0 <;> by_cases hb2 : offer.requestingCash > 0 <;>
      simp only [if_pos, if_neg, hb1, hb2, if_true, if_false] <;>
      exact h2.2.trans h1.2

theorem WF_executeTrade (s : GState) (offer : Offer) (A : String)
    (hP : (getPlayer s offer.offeringPlayer).isSome)
    (hA : (getPlayer s A).isSome) (hwf : WF s) : WF (executeTrade s offer A) := by
  obtain ⟨_, hgp⟩ := allCards_executeTrade s offer A hP hA
  obtain ⟨hps, hcp⟩ := pres2_executeTrade s offer A
  exact WF_of_preserve s _ hps hcp hgp hwf

theorem acceptTail_conserves (S1 s : GState) (offer : Offer) (pid : String)
    (hall : allCards S1 = allCards s)
    (hP : (getPlayer S1 offer.offeringPlayer).isSome = true)
    (hA : (getPlayer S1 pid).isSome = true)
    (hWF1 : WF S1) :
    allCards (autoCancelInvalidOffers (autoCancelInvalidOffers
        (executeTrade S1 offer pid) offer.offeringPlayer) pid) = allCards s ∧
    WF (autoCancelInvalidOffers (autoCancelInvalidOffers
        (executeTrade S1 offer pid) offer.offeringPlayer) pid) := by
  obtain ⟨hE1, _⟩ := allCards_executeTrade S1 offer pid hP hA
  have hWF2 : WF (executeTrade S1 offer pid) := WF_executeTrade S1 offer pid hP hA hWF1
  constructor
  · rw [allCards_autoCancel, allCards_autoCancel, hE1, hall]
  · exact WF_autoCancel _ _ (WF_autoCancel _ _ hWF2)

theorem acceptTrade_conserves (s : GState) (pid oid : String)
    (hv : validateTradeAcceptance s pid oid = true) (hwf : WF s) :
    allCards (acceptTrade s pid oid) = allCards s ∧ WF (acceptTrade s pid oid) := by
  have hex : ∃ tr offer acceptor, s.phaseState.trading = some tr ∧
      tr.activeOffers.find? (fun o => o.offerId = oid) = some offer ∧
      getPlayer s pid = some acceptor := by
    unfold validateTradeAcceptance at hv
    rw [Bool.and_eq_true] at hv
    obtain ⟨h1, h2⟩ := hv
    cases hacc : getPlayer s pid with
    | none =>
      simp only [hacc] at h2
      exact Bool.noConfusion h2
    | some acceptor =>
      cases htr : s.phaseState.trading with
      | none =>
        simp only [hacc, htr] at h2
        exact Bool.noConfusion h2
      | some tr =>
        cases hoff : tr.activeOffers.find? (fun o => o.offerId = oid) with
        | none =>
          simp only [hacc, htr, hoff] at h2
          exact Bool.noConfusion h2
        | some offer => exact ⟨tr, offer, acceptor, rfl, hoff, rfl⟩
  obtain ⟨tr, offer, acceptor, htr, hoff, hacc⟩ := hex
  obtain ⟨hst, hne, hrcb⟩ :=
    validateTradeAcceptance_spec s pid oid tr offer acceptor hv htr hoff hacc
  rw [acceptTrade_eq s pid oid tr offer htr hoff hst]
  refine acceptTail_conserves _ s offer pid (allCards_setTrading s _) ?_ ?_ ?_
  · show (getPlayer s offer.offeringPlayer).isSome = true
    exact hwf.offersProposer tr htr offer (List.mem_of_find?_eq_some hoff)
  · show (getPlayer s pid).isSome = true
    rw [hacc]
    rfl
  · refine WF_offers_update s _ ?_ hwf
    intro o ho
    rcases mem_updateFirstOffer tr.activeOffers oid _ o ho with h | ⟨o0, ho0, heq⟩
    · exact hwf.offersProposer tr htr o h
    · rw [heq]
      exact hwf.offersProposer tr htr o0 ho0

theorem manuallyEndPhase_conserves (s : GState) (hwf : WF s) :
    allCards (manuallyEndPhase s) = allCards s ∧ WF (manuallyEndPhase s) := by
  unfold manuallyEndPhase
  by_cases h : s.currentPhase = phaseTrading
  · rw [if_pos h]
    refine advancePhase_conserves s hwf ?_
    intro hA
    rw [h] at hA
    exact absurd hA (by decide)
  · rw [if_neg h]
    exact ⟨rfl, hwf⟩

theorem selectCards_conserves (s : GState) (pid : String) (cardIds : List String)
    (hwf : WF s) :
    allCards (selectCardsToSell s pid cardIds) = allCards s ∧
    WF (selectCardsToSell s pid cardIds) := by
  unfold selectCardsToSell
  cases hsl : s.phaseState.sell with
  | none => exact ⟨rfl, hwf⟩
  | some sell =>
    dsimp only
    cases hlu : lookupSelection sell.playerSelections pid with
    | none => exact ⟨rfl, hwf⟩
    | some sel0 =>
      exact ⟨rfl, WF_of_untouched s _ rfl rfl rfl rfl (fun _ => rfl) hwf⟩


theorem foldl_Pres {α : Type} (g : GState → α → GState)
    (hstep : ∀ st a, Pres st (g st a)) :
    ∀ (l : List α) (st : GState), Pres st (l.foldl g st) := by
  intro l
  induction l with
  | nil =>
    intro st
    exact Pres_refl st
  | cons a t ih =>
    intro st
    exact Pres_trans _ _ _ (hstep st a) (ih (g st a))

theorem foldl_pair_Pres {α : Type} (g : GState × Option Int → α → GState × Option Int)
    (hstep : ∀ acc a, Pres acc.1 (g acc a).1) :
    ∀ (l : List α) (acc : GState × Option Int), Pres acc.1 (l.foldl g acc).1 := by
  intro l
  induction l with
  | nil =>
    intro acc
    exact Pres_refl _
  | cons a t ih =>
    intro acc
    exact Pres_trans _ _ _ (hstep acc a) (ih (g acc a))

theorem Pres_sellBonusReset (s : GState) (pid : String) :
    Pres s { s with players := updateFirstPlayer s.players pid (fun p => if p.sellBonus > 0 then { p with sellBonus := 0 } else p) } := by
  refine ⟨?_, ?_, rfl, rfl, rfl⟩
  · refine allCards_players_update_handkeep s pid _ ?_
    intro q2
    by_cases hb : q2.sellBonus > 0
    · show (if q2.sellBonus > 0 then { q2 with sellBonus := 0 } else q2).hand = q2.hand
      rw [if_pos hb]
    · show (if q2.sellBonus > 0 then { q2 with sellBonus := 0 } else q2).hand = q2.hand
      rw [if_neg hb]
  · intro q
    refine isSome_getPlayer_update s pid q _ ?_
    intro q2
    by_cases hb : q2.sellBonus > 0
    · show (if q2.sellBonus > 0 then { q2 with sellBonus := 0 } else q2).id = q2.id
      rw [if_pos hb]
    · show (if q2.sellBonus > 0 then { q2 with sellBonus := 0 } else q2).id = q2.id
      rw [if_neg hb]

theorem sellLam_Pres (pid : String) (acc : GState × Option Int) (cid : String) :
    Pres acc.1
      ((((fun (acc : GState × Option Int) (cid : String) => let rm := removeCardFromHand acc.1 pid cid; match rm.1 with | some card => (let st := { rm.2 with resourceDeck := discardCards rm.2.resourceDeck [card] }; let bonus := ((getPlayer st pid).map (fun p => p.sellBonus)).getD 0; (match lookupPrice st.stockPrices card.color with | some price => (let salePrice := if bonus > 0 then price + bonus else price; (st, acc.2.map (fun e => e + salePrice))) | none => (st, none))) | none => (rm.2, acc.2)) : GState × Option Int → String → GState × Option Int) acc cid).1) := by
  dsimp only
  cases hgp : getPlayer acc.1 pid with
  | none =>
    have hrm : removeCardFromHand acc.1 pid cid = (none, acc.1) := by
      unfold removeCardFromHand
      simp only [hgp]
    rw [hrm]
    exact Pres_refl _
  | some p =>
    cases hrb : removeById p.hand cid with
    | none =>
      have hrm : removeCardFromHand acc.1 pid cid = (none, acc.1) := by
        unfold removeCardFromHand
        simp only [hgp, hrb]
      rw [hrm]
      exact Pres_refl _
    | some pr =>
      obtain ⟨card, rest⟩ := pr
      have hrm : removeCardFromHand acc.1 pid cid = (some card, setHand acc.1 pid rest) := by
        unfold removeCardFromHand setHand
        simp only [hgp, hrb]
      rw [hrm]
      dsimp only
      have hsplit : ((p.hand : List RCard) : Multiset RCard)
          = {card} + ((rest : List RCard) : Multiset RCard) := by
        have hperm := removeById_perm p.hand cid card rest hrb
        rw [Multiset.coe_eq_coe.mpr hperm, Multiset.singleton_add, Multiset.cons_coe]
      have h1 : allCards (setHand acc.1 pid rest) + {card} = allCards acc.1 :=
        allCards_setHand_removed acc.1 pid p hgp card rest hsplit
      have h2 : allCards ({ setHand acc.1 pid rest with resourceDeck := discardCards (setHand acc.1 pid rest).resourceDeck [card] } : GState) = allCards (setHand acc.1 pid rest) + {card} := by
        rw [allCards_discard (setHand acc.1 pid rest) [card], Multiset.coe_singleton]
      have hPres : Pres acc.1 ({ setHand acc.1 pid rest with resourceDeck := discardCards (setHand acc.1 pid rest).resourceDeck [card] } : GState) := by
        refine ⟨h2.trans h1, ?_, rfl, rfl, rfl⟩
        intro q
        show (getPlayer (setHand acc.1 pid rest) q).isSome = (getPlayer acc.1 q).isSome
        exact isSome_getPlayer_setHand acc.1 pid q rest
      cases hlp : lookupPrice (setHand acc.1 pid rest).stockPrices card.color with
      | none => exact hPres
      | some price => exact hPres

set_option maxHeartbeats 1000000 in
theorem executeSellsForPlayer_Pres (s : GState) (pid : String) (sel : Selection) :
    Pres s (executeSellsForPlayer s pid sel) := by
  unfold executeSellsForPlayer
  cases hgp : getPlayer s pid with
  | none => exact Pres_refl s
  | some p0 =>
    dsimp only
    have hfold : Pres s (sel.cardsToSell.foldl (fun (acc : GState × Option Int) (cid : String) => let rm := removeCardFromHand acc.1 pid cid; match rm.1 with | some card => (let st := { rm.2 with resourceDeck := discardCards rm.2.resourceDeck [card] }; let bonus := ((getPlayer st pid).map (fun p => p.sellBonus)).getD 0; (match lookupPrice st.stockPrices card.color with | some price => (let salePrice := if bonus > 0 then price + bonus else price; (st, acc.2.map (fun e => e + salePrice))) | none => (st, none))) | none => (rm.2, acc.2)) (s, some 0)).1 :=
      foldl_pair_Pres _ (fun acc cid => sellLam_Pres pid acc cid) sel.cardsToSell (s, some 0)
    have hmid : Pres s (match (sel.cardsToSell.foldl (fun (acc : GState × Option Int) (cid : String) => let rm := removeCardFromHand acc.1 pid cid; match rm.1 with | some card => (let st := { rm.2 with resourceDeck := discardCards rm.2.resourceDeck [card] }; let bonus := ((getPlayer st pid).map (fun p => p.sellBonus)).getD 0; (match lookupPrice st.stockPrices card.color with | some price => (let salePrice := if bonus > 0 then price + bonus else price; (st, acc.2.map (fun e => e + salePrice))) | none => (st, none))) | none => (rm.2, acc.2)) (s, some 0)).2 with | some earnings => (if earnings > 0 then adjustPlayerCash (sel.cardsToSell.foldl (fun (acc : GState × Option Int) (cid : String) => let rm := removeCardFromHand acc.1 pid cid; match rm.1 with | some card => (let st := { rm.2 with resourceDeck := discardCards rm.2.resourceDeck [card] }; let bonus := ((getPlayer st pid).map (fun p => p.sellBonus)).getD 0; (match lookupPrice st.stockPrices card.color with | some price => (let salePrice := if bonus > 0 then price + bonus else price; (st, acc.2.map (fun e => e + salePrice))) | none => (st, none))) | none => (rm.2, acc.2)) (s, some 0)).1 pid earnings else (sel.cardsToSell.foldl (fun (acc : GState × Option Int) (cid : String) => let rm := removeCardFromHand acc.1 pid cid; match rm.1 with | some card => (let st := { rm.2 with resourceDeck := discardCards rm.2.resourceDeck [card] }; let bonus := ((getPlayer st pid).map (fun p => p.sellBonus)).getD 0; (match lookupPrice st.stockPrices card.color with | some price => (let salePrice := if bonus > 0 then price + bonus else price; (st, acc.2.map (fun e => e + salePrice))) | none => (st, none))) | none => (rm.2, acc.2)) (s, some 0)).1) | none => (sel.cardsToSell.foldl (fun (acc : GState × Option Int) (cid : String) => let rm := removeCardFromHand acc.1 pid cid; match rm.1 with | some card => (let st := { rm.2 with resourceDeck := discardCards rm.2.resourceDeck [card] }; let bonus := ((getPlayer st pid).map (fun p => p.sellBonus)).getD 0; (match lookupPrice st.stockPrices card.color with | some price => (let salePrice := if bonus > 0 then price + bonus else price; (st, acc.2.map (fun e => e + salePrice))) | none => (st, none))) | none => (rm.2, acc.2)) (s, some 0)).1) := by
      cases hE : (sel.cardsToSell.foldl (fun (acc : GState × Option Int) (cid : String) => let rm := removeCardFromHand acc.1 pid cid; match rm.1 with | some card => (let st := { rm.2 with resourceDeck := discardCards rm.2.resourceDeck [card] }; let bonus := ((getPlayer st pid).map (fun p => p.sellBonus)).getD 0; (match lookupPrice st.stockPrices card.color with | some price => (let salePrice := if bonus > 0 then price + bonus else price; (st, acc.2.map (fun e => e + salePrice))) | none => (st, none))) | none => (rm.2, acc.2)) (s, some 0)).2 with
      | none => exact hfold
      | some earnings =>
        dsimp only
        by_cases hpos : earnings > 0
        · rw [if_pos hpos]
          exact Pres_trans _ _ _ hfold (Pres_adjustPlayerCash _ pid earnings)
        · rw [if_neg hpos]
          exact hfold
    refine Pres_trans s (match (sel.cardsToSell.foldl (fun (acc : GState × Option Int) (cid : String) => let rm := removeCardFromHand acc.1 pid cid; match rm.1 with | some card => (let st := { rm.2 with resourceDeck := discardCards rm.2.resourceDeck [card] }; let bonus := ((getPlayer st pid).map (fun p => p.sellBonus)).getD 0; (match lookupPrice st.stockPrices card.color with | some price => (let salePrice := if bonus > 0 then price + bonus else price; (st, acc.2.map (fun e => e + salePrice))) | none => (st, none))) | none => (rm.2, acc.2)) (s, some 0)).2 with | some earnings => (if earnings > 0 then adjustPlayerCash (sel.cardsToSell.foldl (fun (acc : GState × Option Int) (cid : String) => let rm := removeCardFromHand acc.1 pid cid; match rm.1 with | some card => (let st := { rm.2 with resourceDeck := discardCards rm.2.resourceDeck [card] }; let bonus := ((getPlayer st pid).map (fun p => p.sellBonus)).getD 0; (match lookupPrice st.stockPrices card.color with | some price => (let salePrice := if bonus > 0 then price + bonus else price; (st, acc.2.map (fun e => e + salePrice))) | none => (st, none))) | none => (rm.2, acc.2)) (s, some 0)).1 pid earnings else (sel.cardsToSell.foldl (fun (acc : GState × Option Int) (cid : String) => let rm := removeCardFromHand acc.1 pid cid; match rm.1 with | some card => (let st := { rm.2 with resourceDeck := discardCards rm.2.resourceDeck [card] }; let bonus := ((getPlayer st pid).map (fun p => p.sellBonus)).getD 0; (match lookupPrice st.stockPrices card.color with | some price => (let salePrice := if bonus > 0 then price + bonus else price; (st, acc.2.map (fun e => e + salePrice))) | none => (st, none))) | none => (rm.2, acc.2)) (s, some 0)).1) | none => (sel.cardsToSell.foldl (fun (acc : GState × Option Int) (cid : String) => let rm := removeCardFromHand acc.1 pid cid; match rm.1 with | some card => (let st := { rm.2 with resourceDeck := discardCards rm.2.resourceDeck [card] }; let bonus := ((getPlayer st pid).map (fun p => p.sellBonus)).getD 0; (match lookupPrice st.stockPrices card.color with | some price => (let salePrice := if bonus > 0 then price + bonus else price; (st, acc.2.map (fun e => e + salePrice))) | none => (st, none))) | none => (rm.2, acc.2)) (s, some 0)).1) _ hmid ?_
    exact Pres_sellBonusReset (match (sel.cardsToSell.foldl (fun (acc : GState × Option Int) (cid : String) => let rm := removeCardFromHand acc.1 pid cid; match rm.1 with | some card => (let st := { rm.2 with resourceDeck := discardCards rm.2.resourceDeck [card] }; let bonus := ((getPlayer st pid).map (fun p => p.sellBonus)).getD 0; (match lookupPrice st.stockPrices card.color with | some price => (let salePrice := if bonus > 0 then price + bonus else price; (st, acc.2.map (fun e => e + salePrice))) | none => (st, none))) | none => (rm.2, acc.2)) (s, some 0)).2 with | some earnings => (if earnings > 0 then adjustPlayerCash (sel.cardsToSell.foldl (fun (acc : GState × Option Int) (cid : String) => let rm := removeCardFromHand acc.1 pid cid; match rm.1 with | some card => (let st := { rm.2 with resourceDeck := discardCards rm.2.resourceDeck [card] }; let bonus := ((getPlayer st pid).map (fun p => p.sellBonus)).getD 0; (match lookupPrice st.stockPrices card.color with | some price => (let salePrice := if bonus > 0 then price + bonus else price; (st, acc.2.map (fun e => e + salePrice))) | none => (st, none))) | none => (rm.2, acc.2)) (s, some 0)).1 pid earnings else (sel.cardsToSell.foldl (fun (acc : GState × Option Int) (cid : String) => let rm := removeCardFromHand acc.1 pid cid; match rm.1 with | some card => (let st := { rm.2 with resourceDeck := discardCards rm.2.resourceDeck [card] }; let bonus := ((getPlayer st pid).map (fun p => p.sellBonus)).getD 0; (match lookupPrice st.stockPrices card.color with | some price => (let salePrice := if bonus > 0 then price + bonus else price; (st, acc.2.map (fun e => e + salePrice))) | none => (st, none))) | none => (rm.2, acc.2)) (s, some 0)).1) | none => (sel.cardsToSell.foldl (fun (acc : GState × Option Int) (cid : String) => let rm := removeCardFromHand acc.1 pid cid; match rm.1 with | some card => (let st := { rm.2 with resourceDeck := discardCards rm.2.resourceDeck [card] }; let bonus := ((getPlayer st pid).map (fun p => p.sellBonus)).getD 0; (match lookupPrice st.stockPrices card.color with | some price => (let salePrice := if bonus > 0 then price + bonus else price; (st, acc.2.map (fun e => e + salePrice))) | none => (st, none))) | none => (rm.2, acc.2)) (s, some 0)).1) pid

set_option maxHeartbeats 8000000 in
theorem executeSells_Pres (s : GState) : Pres s (executeSells s) := by
  unfold executeSells
  cases hsl : s.phaseState.sell with
  | none => exact Pres_refl s
  | some sell =>
    dsimp only
    exact foldl_Pres (fun st kv => executeSellsForPlayer st kv.1 kv.2)
      (fun st kv => executeSellsForPlayer_Pres st kv.1 kv.2) sell.playerSelections s

theorem commitSell_conserves (s : GState) (pid : String) (hwf : WF s) :
    allCards (commitSell s pid) = allCards s ∧ WF (commitSell s pid) := by
  unfold commitSell
  cases hsl : s.phaseState.sell with
  | none => exact ⟨rfl, hwf⟩
  | some sell =>
    dsimp only
    cases hlu : lookupSelection sell.playerSelections pid with
    | none => exact ⟨rfl, hwf⟩
    | some sel0 =>
      dsimp only
      by_cases hall : (updateSelection sell.playerSelections pid
          (fun sel => { sel with committed := true })).all (fun kv => kv.2.committed) = true
      · rw [if_pos hall]
        have hP : Pres s (executeSells (setSell s (some { sell with playerSelections := updateSelection sell.playerSelections pid (fun sel => { sel with committed := true }), allCommitted := true }))) := by
          refine Pres_trans _ _ _ ?_ (executeSells_Pres _)
          exact ⟨allCards_setSell s _, fun q => rfl, rfl, rfl, rfl⟩
        exact ⟨hP.1, WF_of_Pres s _ hP hwf⟩
      · rw [if_neg hall]
        exact ⟨rfl, WF_of_untouched s _ rfl rfl rfl rfl (fun _ => rfl) hwf⟩

theorem allCards_drawPile_removed (s : GState) (card : RCard) (rest : List RCard)
    (hsplit : ((s.resourceDeck.drawPile : List RCard) : Multiset RCard)
      = {card} + ((rest : List RCard) : Multiset RCard)) :
    allCards { s with resourceDeck := { s.resourceDeck with drawPile := rest } } + {card}
      = allCards s := by
  have h1 : allCards { s with resourceDeck := { s.resourceDeck with drawPile := rest } }
      = handsMS s.players + ((rest : List RCard) : Multiset RCard)
        + (s.resourceDeck.discardPile : Multiset RCard)
        + (auctionPendingCards s : Multiset RCard) := rfl
  have h2 : allCards s
      = handsMS s.players + (s.resourceDeck.drawPile : Multiset RCard)
        + (s.resourceDeck.discardPile : Multiset RCard)
        + (auctionPendingCards s : Multiset RCard) := rfl
  rw [h1, h2, hsplit]
  abel

theorem Pres_executeGainLowestStock (s : GState) (pid : String) (rand : Nat)
    (hp : (getPlayer s pid).isSome) : Pres s (executeGainLowestStock s pid rand) := by
  obtain ⟨p, hp'⟩ := Option.isSome_iff_exists.mp hp
  unfold executeGainLowestStock
  dsimp only
  cases hc : (getLowestPriceColors s.stockPrices).get?
      (rand % (getLowestPriceColors s.stockPrices).length) with
  | none => exact Pres_refl s
  | some color =>
    dsimp only
    unfold removeFirstOfColorFromDraw
    dsimp only
    cases hr : (removeFirstOfColor s.resourceDeck.drawPile color 1).1 with
    | nil => exact Pres_refl s
    | cons card tail =>
      cases tail with
      | cons b t2 => exact Pres_refl s
      | nil =>
        have hsplit : ((s.resourceDeck.drawPile : List RCard) : Multiset RCard)
            = {card} + (((removeFirstOfColor s.resourceDeck.drawPile color 1).2 : List RCard) : Multiset RCard) := by
          have hperm := removeFirstOfColor_perm color s.resourceDeck.drawPile 1
          rw [hr] at hperm
          rw [Multiset.coe_eq_coe.mpr hperm, ← Multiset.coe_add, Multiset.coe_singleton]
        have hp2 : getPlayer ({ s with resourceDeck := { s.resourceDeck with drawPile := (removeFirstOfColor s.resourceDeck.drawPile color 1).2 } } : GState) pid = some p := hp'
        exact ⟨(allCards_addCardToHand ({ s with resourceDeck := { s.resourceDeck with drawPile := (removeFirstOfColor s.resourceDeck.drawPile color 1).2 } } : GState) pid card p hp2).trans
            (allCards_drawPile_removed s card _ hsplit),
          fun q => isSome_getPlayer_addCardToHand ({ s with resourceDeck := { s.resourceDeck with drawPile := (removeFirstOfColor s.resourceDeck.drawPile color 1).2 } } : GState) pid q card,
          rfl, rfl, rfl⟩

theorem Pres_executeRewardNoChoice (s : GState) (pid : String) (r : RewardParsed)
    (rand : Nat) (s4 : GState) (hp : (getPlayer s pid).isSome)
    (h : executeRewardNoChoice s pid r rand = some s4) : Pres s s4 := by
  unfold executeRewardNoChoice at h
  by_cases hflags : (r.requiresTarget || r.requiresChoice) = true
  · rw [if_pos hflags] at h
    cases h
  · rw [if_neg hflags] at h
    by_cases h1 : r.rtype = "gain_cash"
    · rw [if_pos h1] at h
      injection h with h'
      subst h'
      exact Pres_adjustPlayerCash s pid _
    · rw [if_neg h1] at h
      by_cases h2 : r.rtype = "sell_bonus"
      · rw [if_pos h2] at h
        injection h with h'
        subst h'
        exact Pres_executeSellBonus s pid _
      · rw [if_neg h2] at h
        by_cases h3 : r.rtype = "gain_lowest_stock"
        · rw [if_pos h3] at h
          injection h with h'
          subst h'
          exact Pres_executeGainLowestStock s pid rand hp
        · rw [if_neg h3] at h
          by_cases h4 : choiceReadingKinds.contains r.rtype
          · rw [if_pos h4] at h
            cases h
          · rw [if_neg h4] at h
            injection h with h'
            subst h'
            exact Pres_refl s

theorem Pres_initiateRewardExecution (s : GState) (pid : String) (gcard : GoalCard)
    (rand : Nat) (hp : (getPlayer s pid).isSome) :
    Pres s (initiateRewardExecution s pid gcard rand) := by
  unfold initiateRewardExecution
  cases hx : executeRewardNoChoice s pid gcard.rewardParsed rand with
  | some s4 =>
    exact Pres_trans _ _ _ (Pres_executeRewardNoChoice s pid _ rand s4 hp hx)
      (Pres_completeRewardExecution s4 pid)
  | none =>
    dsimp only
    cases hgr : s.phaseState.goalResolution with
    | none => exact Pres_refl s
    | some gr => exact Pres_setGoalRes s _

theorem Pres_revealGoal (s : GState) (pid gid : String) (rand : Nat) :
    Pres s (revealGoal s pid gid rand) := by
  unfold revealGoal
  cases hgp : getPlayer s pid with
  | none => exact Pres_refl s
  | some player =>
    dsimp only
    cases hfg : player.goalCards.find? (fun g => g.id = gid) with
    | none => exact Pres_refl s
    | some gcard0 =>
      dsimp only
      have hp1 : (getPlayer s pid).isSome = true := by
        rw [hgp]
        rfl
      have P2 : Pres s (applyStockChange (setGoalRevealed s pid gid) { gcard0 with revealed := true }) :=
        Pres_trans _ _ _ (Pres_setGoalRevealed s pid gid) (Pres_applyStockChange _ _)
      cases hgr : (applyStockChange (setGoalRevealed s pid gid) { gcard0 with revealed := true }).phaseState.goalResolution with
      | none =>
        dsimp only
        by_cases hmet : checkGoal { gcard0 with revealed := true } player.hand = true
        · rw [if_pos hmet]
          refine Pres_trans _ _ _ P2 (Pres_initiateRewardExecution _ pid _ rand ?_)
          rw [P2.2.1 pid]
          exact hp1
        · rw [if_neg hmet]
          exact Pres_trans _ _ _ P2 (Pres_advanceToNextPlayer _)
      | some gr =>
        dsimp only
        have P3 : Pres s (setGoalRes (applyStockChange (setGoalRevealed s pid gid) { gcard0 with revealed := true }) (some { gr with revealedGoals := gr.revealedGoals ++ [{ playerId := pid, goalCard := { gcard0 with revealed := true }, goalMet := checkGoal { gcard0 with revealed := true } player.hand, rewardExecuted := false }] })) :=
          Pres_trans _ _ _ P2 (Pres_setGoalRes _ _)
        by_cases hmet : checkGoal { gcard0 with revealed := true } player.hand = true
        · rw [if_pos hmet]
          refine Pres_trans _ _ _ P3 (Pres_initiateRewardExecution _ pid _ rand ?_)
          rw [P3.2.1 pid]
          exact hp1
        · rw [if_neg hmet]
          exact Pres_trans _ _ _ P3 (Pres_advanceToNextPlayer _)

theorem revealGoal_conserves (s : GState) (pid gid : String) (rand : Nat) (hwf : WF s) :
    allCards (revealGoal s pid gid rand) = allCards s ∧ WF (revealGoal s pid gid rand) := by
  have hP := Pres_revealGoal s pid gid rand
  exact ⟨hP.1, WF_of_Pres s _ hP hwf⟩


theorem removeById_id (hand : List RCard) (cid : String) (c : RCard) (rest : List RCard)
    (h : removeById hand cid = some (c, rest)) : c.id = cid := by
  induction hand generalizing rest with
  | nil => cases h
  | cons a t ih =>
    unfold removeById at h
    by_cases ha : a.id = cid
    · rw [if_pos ha] at h
      injection h with h
      injection h with h1 h2
      subst h1
      exact ha
    · rw [if_neg ha] at h
      cases hr : removeById t cid with
      | none =>
        rw [hr] at h
        cases h
      | some pr =>
        rw [hr] at h
        injection h with h
        injection h with h1 h2
        subst h1
        exact ih pr.2 hr

theorem removeById_eq_of_nodup (hand : List RCard) (tc c : RCard) (rest : List RCard)
    (hmem : tc ∈ hand) (hnod : (hand.map (fun x => x.id)).Nodup)
    (h : removeById hand tc.id = some (c, rest)) : c = tc := by
  have hid : c.id = tc.id := removeById_id hand tc.id c rest h
  have hcmem : c ∈ hand :=
    (removeById_perm hand tc.id c rest h).symm.subset (List.mem_cons_self c rest)
  exact List.inj_on_of_nodup_map hnod hcmem hmem hid

theorem removeById_isSome_of_mem (hand : List RCard) (tc : RCard) (hmem : tc ∈ hand) :
    ∃ c rest, removeById hand tc.id = some (c, rest) := by
  induction hand with
  | nil => cases hmem
  | cons a t ih =>
    unfold removeById
    by_cases ha : a.id = tc.id
    · rw [if_pos ha]
      exact ⟨a, t, rfl⟩
    · rw [if_neg ha]
      rcases List.mem_cons.mp hmem with h | h
      · subst h
        exact absurd rfl ha
      · obtain ⟨c, rest, hcr⟩ := ih h
        rw [hcr]
        exact ⟨c, a :: rest, rfl⟩

theorem allCards_drawPile_msEq (s : GState) (l : List RCard)
    (hm : ((l : List RCard) : Multiset RCard) = (s.resourceDeck.drawPile : Multiset RCard)) :
    allCards { s with resourceDeck := { s.resourceDeck with drawPile := l } } = allCards s := by
  have h1 : allCards { s with resourceDeck := { s.resourceDeck with drawPile := l } }
      = handsMS s.players + ((l : List RCard) : Multiset RCard)
        + (s.resourceDeck.discardPile : Multiset RCard)
        + (auctionPendingCards s : Multiset RCard) := rfl
  have h2 : allCards s
      = handsMS s.players + (s.resourceDeck.drawPile : Multiset RCard)
        + (s.resourceDeck.discardPile : Multiset RCard)
        + (auctionPendingCards s : Multiset RCard) := rfl
  rw [h1, h2, hm]

theorem allCards_swap_top (X : GState) (a top : RCard) (rest2 : List RCard)
    (hdp : X.resourceDeck.drawPile = top :: rest2) :
    allCards { X with resourceDeck := { X.resourceDeck with drawPile := a :: rest2 } } + {top}
      = allCards X + {a} := by
  have h1 : allCards { X with resourceDeck := { X.resourceDeck with drawPile := a :: rest2 } }
      = handsMS X.players + ((a :: rest2 : List RCard) : Multiset RCard)
        + (X.resourceDeck.discardPile : Multiset RCard)
        + (auctionPendingCards X : Multiset RCard) := rfl
  have h2 : allCards X
      = handsMS X.players + (X.resourceDeck.drawPile : Multiset RCard)
        + (X.resourceDeck.discardPile : Multiset RCard)
        + (auctionPendingCards X : Multiset RCard) := rfl
  rw [h1, h2, hdp]
  rw [show ((a :: rest2 : List RCard) : Multiset RCard)
      = {a} + ((rest2 : List RCard) : Multiset RCard) from by
    rw [Multiset.singleton_add, Multiset.cons_coe]]
  rw [show ((top :: rest2 : List RCard) : Multiset RCard)
      = {top} + ((rest2 : List RCard) : Multiset RCard) from by
    rw [Multiset.singleton_add, Multiset.cons_coe]]
  abel

theorem Pres_executeStealCash (s : GState) (pid targetPid : String) (amount : Int) :
    Pres s (executeStealCash s pid targetPid amount) := by
  unfold executeStealCash
  cases hgt : getPlayer s targetPid with
  | none => exact Pres_refl s
  | some target =>
    dsimp only
    exact Pres_trans _ _ _ (Pres_adjustPlayerCash s targetPid _) (Pres_adjustPlayerCash _ pid _)

theorem Pres_executeAdjustStock (s : GState) (color : Color) (direction : Int) :
    Pres s (executeAdjustStock s color direction) :=
  ⟨rfl, fun _ => rfl, rfl, rfl, rfl⟩

theorem Pres_executePeekAndPlace (s : GState) (placement : String) :
    Pres s (executePeekAndPlace s placement) := by
  unfold executePeekAndPlace
  cases hdp : s.resourceDeck.drawPile with
  | nil => exact Pres_refl s
  | cons top rest =>
    dsimp only
    by_cases hb : placement = "bottom"
    · rw [if_pos hb]
      refine ⟨?_, fun _ => rfl, rfl, rfl, rfl⟩
      refine allCards_drawPile_msEq s (rest ++ [top]) ?_
      rw [hdp]
      exact Multiset.coe_eq_coe.mpr (List.perm_append_singleton top rest)
    · rw [if_neg hb]
      exact Pres_refl s

theorem Pres_executeSwapWithDeck (s : GState) (pid cid : String) :
    Pres s (executeSwapWithDeck s pid cid) := by
  unfold executeSwapWithDeck
  dsimp only
  cases hgp : getPlayer s pid with
  | none =>
    have hrm : removeCardFromHand s pid cid = (none, s) := by
      unfold removeCardFromHand
      simp only [hgp]
    rw [hrm]
    exact Pres_refl s
  | some p =>
    cases hrb : removeById p.hand cid with
    | none =>
      have hrm : removeCardFromHand s pid cid = (none, s) := by
        unfold removeCardFromHand
        simp only [hgp, hrb]
      rw [hrm]
      exact Pres_refl s
    | some pr =>
      obtain ⟨card, rest⟩ := pr
      have hrm : removeCardFromHand s pid cid = (some card, setHand s pid rest) := by
        unfold removeCardFromHand setHand
        simp only [hgp, hrb]
      rw [hrm]
      dsimp only
      have hsplit : ((p.hand : List RCard) : Multiset RCard)
          = {card} + ((rest : List RCard) : Multiset RCard) := by
        have hperm := removeById_perm p.hand cid card rest hrb
        rw [Multiset.coe_eq_coe.mpr hperm, Multiset.singleton_add, Multiset.cons_coe]
      have h1 : allCards (setHand s pid rest) + {card} = allCards s :=
        allCards_setHand_removed s pid p hgp card rest hsplit
      have hpX : getPlayer (setHand s pid rest) pid = some { p with hand := rest } :=
        getPlayer_setHand_self s pid rest p hgp
      cases hdp2 : (setHand s pid rest).resourceDeck.drawPile with
      | nil =>
        refine ⟨?_, ?_, rfl, rfl, rfl⟩
        · exact (allCards_addCardToHand (setHand s pid rest) pid card { p with hand := rest } hpX).trans h1
        · intro q
          exact (isSome_getPlayer_addCardToHand (setHand s pid rest) pid q card).trans
            (isSome_getPlayer_setHand s pid q rest)
      | cons topCard rest2 =>
        have hpY : getPlayer ({ (setHand s pid rest) with resourceDeck := { (setHand s pid rest).resourceDeck with drawPile := card :: rest2 } } : GState) pid = some { p with hand := rest } := hpX
        have hstep1 : allCards (addCardToHand ({ (setHand s pid rest) with resourceDeck := { (setHand s pid rest).resourceDeck with drawPile := card :: rest2 } } : GState) pid topCard)
            = allCards ({ (setHand s pid rest) with resourceDeck := { (setHand s pid rest).resourceDeck with drawPile := card :: rest2 } } : GState) + {topCard} :=
          allCards_addCardToHand ({ (setHand s pid rest) with resourceDeck := { (setHand s pid rest).resourceDeck with drawPile := card :: rest2 } } : GState) pid topCard { p with hand := rest } hpY
        have h2 := allCards_swap_top (setHand s pid rest) card topCard rest2 hdp2
        refine ⟨?_, ?_, rfl, rfl, rfl⟩
        · exact hstep1.trans (h2.trans h1)
        · intro q
          exact (isSome_getPlayer_addCardToHand ({ (setHand s pid rest) with resourceDeck := { (setHand s pid rest).resourceDeck with drawPile := card :: rest2 } } : GState) pid q topCard).trans
            (isSome_getPlayer_setHand s pid q rest)

theorem Pres_removeGiveBack (X : GState) (pid tid cid2 : String)
    (ht : (getPlayer X tid).isSome = true) :
    Pres X (match (removeCardFromHand X pid cid2).1 with
      | some cardToGive => addCardToHand (removeCardFromHand X pid cid2).2 tid cardToGive
      | none => (removeCardFromHand X pid cid2).2) := by
  cases hgp : getPlayer X pid with
  | none =>
    have hrm : removeCardFromHand X pid cid2 = (none, X) := by
      unfold removeCardFromHand
      simp only [hgp]
    rw [hrm]
    exact Pres_refl X
  | some p =>
    cases hrb : removeById p.hand cid2 with
    | none =>
      have hrm : removeCardFromHand X pid cid2 = (none, X) := by
        unfold removeCardFromHand
        simp only [hgp, hrb]
      rw [hrm]
      exact Pres_refl X
    | some pr =>
      obtain ⟨g, rest2⟩ := pr
      have hrm : removeCardFromHand X pid cid2 = (some g, setHand X pid rest2) := by
        unfold removeCardFromHand setHand
        simp only [hgp, hrb]
      rw [hrm]
      dsimp only
      have hsplit : ((p.hand : List RCard) : Multiset RCard)
          = {g} + ((rest2 : List RCard) : Multiset RCard) := by
        have hperm := removeById_perm p.hand cid2 g rest2 hrb
        rw [Multiset.coe_eq_coe.mpr hperm, Multiset.singleton_add, Multiset.cons_coe]
      have h1 : allCards (setHand X pid rest2) + {g} = allCards X :=
        allCards_setHand_removed X pid p hgp g rest2 hsplit
      have ht2 : (getPlayer (setHand X pid rest2) tid).isSome = true := by
        rw [isSome_getPlayer_setHand]
        exact ht
      obtain ⟨t, ht3⟩ := Option.isSome_iff_exists.mp ht2
      refine ⟨?_, ?_, rfl, rfl, rfl⟩
      · exact (allCards_addCardToHand (setHand X pid rest2) tid g t ht3).trans h1
      · intro q
        exact (isSome_getPlayer_addCardToHand (setHand X pid rest2) tid q g).trans
          (isSome_getPlayer_setHand X pid q rest2)

theorem reordered_coe_eq (top : List RCard) (order : List String)
    (hlen : top.length = order.length)
    (hnod : order.Nodup)
    (hall : ∀ cid ∈ order, (top.reverse.find? (fun c => c.id = cid)).isSome) :
    ((order.filterMap (fun cid => top.reverse.find? (fun c => c.id = cid)) : List RCard) : Multiset RCard)
      = (top : Multiset RCard) := by
  have hlen2 : (order.filterMap (fun cid => top.reverse.find? (fun c => c.id = cid))).length
      = order.length :=
    length_filterMap_of_isSome _ order hall
  have hmem : ∀ c ∈ order.filterMap (fun cid => top.reverse.find? (fun c => c.id = cid)), c ∈ top := by
    intro c hc
    obtain ⟨cid, hcid, hfc⟩ := List.mem_filterMap.mp hc
    exact List.mem_reverse.mp (List.mem_of_find?_eq_some hfc)
  have hinj : ∀ (a a' : String) (b : RCard),
      b ∈ (fun cid => top.reverse.find? (fun c => c.id = cid)) a →
      b ∈ (fun cid => top.reverse.find? (fun c => c.id = cid)) a' → a = a' := by
    intro a a' b hb hb'
    have h1 : b.id = a := by
      have := List.find?_some hb
      simpa using this
    have h2 : b.id = a' := by
      have := List.find?_some hb'
      simpa using this
    rw [← h1, ← h2]
  have hnd : (order.filterMap (fun cid => top.reverse.find? (fun c => c.id = cid))).Nodup :=
    List.Nodup.filterMap hinj hnod
  have hsub : List.Subperm (order.filterMap (fun cid => top.reverse.find? (fun c => c.id = cid))) top :=
    List.Nodup.subperm hnd hmem
  refine Multiset.eq_of_le_of_card_le (Multiset.coe_le.mpr hsub) ?_
  rw [Multiset.coe_card, Multiset.coe_card, hlen2, hlen]

theorem Pres_executeRearrangeTop5 (s : GState) (newOrder : List String)
    (hnod : newOrder.Nodup) : Pres s (executeRearrangeTop5 s newOrder) := by
  unfold executeRearrangeTop5 rearrangeTop
  dsimp only
  by_cases h1 : (s.resourceDeck.drawPile.take newOrder.length).length ≠ newOrder.length
  · rw [if_pos h1]
    exact Pres_refl s
  · rw [if_neg h1]
    by_cases h2 : newOrder.any (fun cid =>
        ((s.resourceDeck.drawPile.take newOrder.length).find? (fun c => c.id = cid)).isNone) = true
    · rw [if_pos h2]
      exact Pres_refl s
    · rw [if_neg h2]
      dsimp only
      have hlen : (s.resourceDeck.drawPile.take newOrder.length).length = newOrder.length :=
        not_not.mp h1
      have hall : ∀ cid ∈ newOrder,
          ((s.resourceDeck.drawPile.take newOrder.length).reverse.find? (fun c => c.id = cid)).isSome := by
        intro cid hcid
        have hnotnone : ¬ ((s.resourceDeck.drawPile.take newOrder.length).find?
            (fun c => c.id = cid)).isNone = true := by
          intro hn
          exact h2 (List.any_eq_true.mpr ⟨cid, hcid, hn⟩)
        have hs : ((s.resourceDeck.drawPile.take newOrder.length).find?
            (fun c => c.id = cid)).isSome = true := by
          cases hfind : (s.resourceDeck.drawPile.take newOrder.length).find? (fun c => c.id = cid) with
          | none => exact absurd (by rw [hfind]; rfl) hnotnone
          | some c => rfl
        rw [List.find?_isSome] at hs ⊢
        obtain ⟨c, hcmem, hcp⟩ := hs
        exact ⟨c, List.mem_reverse.mpr hcmem, hcp⟩
      refine ⟨?_, fun _ => rfl, rfl, rfl, rfl⟩
      refine allCards_drawPile_msEq s _ ?_
      have hre := reordered_coe_eq (s.resourceDeck.drawPile.take newOrder.length) newOrder
        hlen hnod hall
      have hsplit2 : (((newOrder.filterMap (fun cid => (s.resourceDeck.drawPile.take newOrder.length).reverse.find? (fun c => c.id = cid))) ++ s.resourceDeck.drawPile.drop newOrder.length : List RCard) : Multiset RCard)
          = ((s.resourceDeck.drawPile.take newOrder.length ++ s.resourceDeck.drawPile.drop newOrder.length : List RCard) : Multiset RCard) := by
        rw [← Multiset.coe_add, ← Multiset.coe_add, hre]
      rw [hsplit2, List.take_append_drop]


theorem Pres_executeTakeAndGiveCard (s : GState) (pid : String) (ch : RewardChoices) (rand : Nat)
    (hp : (getPlayer s pid).isSome = true)
    (hnd : ∀ t, getPlayer s ch.targetPlayerId = some t → (t.hand.map (fun c => c.id)).Nodup) :
    Pres s (executeTakeAndGiveCard s pid ch rand) := by
  unfold executeTakeAndGiveCard
  cases hgt : getPlayer s ch.targetPlayerId with
  | none => exact Pres_refl s
  | some target =>
    dsimp only
    cases hidx : target.hand.get? (rand % target.hand.length) with
    | none => exact Pres_refl s
    | some takenCard =>
      dsimp only
      have htcmem : takenCard ∈ target.hand := List.get?_mem hidx
      obtain ⟨c, rest, hrb⟩ := removeById_isSome_of_mem target.hand takenCard htcmem
      have hceq : c = takenCard :=
        removeById_eq_of_nodup target.hand takenCard c rest htcmem (hnd target hgt) hrb
      subst hceq
      have hrm : removeCardFromHand s ch.targetPlayerId c.id
          = (some c, setHand s ch.targetPlayerId rest) := by
        unfold removeCardFromHand setHand
        simp only [hgt, hrb]
      rw [hrm]
      dsimp only
      have hsplit : ((target.hand : List RCard) : Multiset RCard)
          = {c} + ((rest : List RCard) : Multiset RCard) := by
        have hperm := removeById_perm target.hand c.id c rest hrb
        rw [Multiset.coe_eq_coe.mpr hperm, Multiset.singleton_add, Multiset.cons_coe]
      have h1 : allCards (setHand s ch.targetPlayerId rest) + {c} = allCards s :=
        allCards_setHand_removed s ch.targetPlayerId target hgt c rest hsplit
      have hp1 : (getPlayer (setHand s ch.targetPlayerId rest) pid).isSome = true := by
        rw [isSome_getPlayer_setHand]
        exact hp
      obtain ⟨pp, hpp⟩ := Option.isSome_iff_exists.mp hp1
      have hPres2 : Pres s (addCardToHand (setHand s ch.targetPlayerId rest) pid c) := by
        refine ⟨?_, ?_, rfl, rfl, rfl⟩
        · exact (allCards_addCardToHand (setHand s ch.targetPlayerId rest) pid c pp hpp).trans h1
        · intro q
          exact (isSome_getPlayer_addCardToHand (setHand s ch.targetPlayerId rest) pid q c).trans
            (isSome_getPlayer_setHand s ch.targetPlayerId q rest)
      have ht2 : (getPlayer (addCardToHand (setHand s ch.targetPlayerId rest) pid c) ch.targetPlayerId).isSome = true := by
        rw [hPres2.2.1 ch.targetPlayerId, hgt]
        rfl
      exact Pres_trans _ _ _ hPres2
        (Pres_removeGiveBack (addCardToHand (setHand s ch.targetPlayerId rest) pid c) pid ch.targetPlayerId ch.cardIdToGive ht2)

theorem Pres_executeBuyWithDiscount (s : GState) (pid : String) (color : Color) (discount : Int) :
    Pres s (executeBuyWithDiscount s pid color discount) := by
  unfold executeBuyWithDiscount
  cases hgp : getPlayer s pid with
  | none => exact Pres_refl s
  | some player =>
    dsimp only
    have hbuy : ∀ amt : Int, Pres s
        (match (removeFirstOfColorFromDraw s.resourceDeck color).1 with
         | some card => adjustPlayerCash (addCardToHand { s with resourceDeck := (removeFirstOfColorFromDraw s.resourceDeck color).2 } pid card) pid amt
         | none => s) := by
      intro amt
      unfold removeFirstOfColorFromDraw
      dsimp only
      cases hr : (removeFirstOfColor s.resourceDeck.drawPile color 1).1 with
      | nil => exact Pres_refl s
      | cons card tail =>
        cases tail with
        | cons b t2 => exact Pres_refl s
        | nil =>
          have hsplit : ((s.resourceDeck.drawPile : List RCard) : Multiset RCard)
              = {card} + (((removeFirstOfColor s.resourceDeck.drawPile color 1).2 : List RCard) : Multiset RCard) := by
            have hperm := removeFirstOfColor_perm color s.resourceDeck.drawPile 1
            rw [hr] at hperm
            rw [Multiset.coe_eq_coe.mpr hperm, ← Multiset.coe_add, Multiset.coe_singleton]
          have hp2 : getPlayer ({ s with resourceDeck := { s.resourceDeck with drawPile := (removeFirstOfColor s.resourceDeck.drawPile color 1).2 } } : GState) pid = some player := hgp
          refine Pres_trans _ _ _ ?_ (Pres_adjustPlayerCash _ pid amt)
          exact ⟨(allCards_addCardToHand ({ s with resourceDeck := { s.resourceDeck with drawPile := (removeFirstOfColor s.resourceDeck.drawPile color 1).2 } } : GState) pid card player hp2).trans
              (allCards_drawPile_removed s card _ hsplit),
            fun q => isSome_getPlayer_addCardToHand ({ s with resourceDeck := { s.resourceDeck with drawPile := (removeFirstOfColor s.resourceDeck.drawPile color 1).2 } } : GState) pid q card, rfl, rfl, rfl⟩
    cases hlp : lookupPrice s.stockPrices color with
    | some price =>
      dsimp only
      by_cases hc : player.cash < max 0 (price - discount)
      · rw [if_pos hc]
        exact Pres_refl s
      · rw [if_neg hc]
        exact hbuy _
    | none =>
      dsimp only
      exact hbuy 0

theorem Pres_executeRewardWithChoices (s : GState) (pid : String) (r : RewardParsed)
    (ch : RewardChoices) (rand : Nat) (hok : RewardChoicesOK s pid ch) :
    Pres s (executeRewardWithChoices s pid r ch rand) := by
  obtain ⟨hord, hp, hnd⟩ := hok
  unfold executeRewardWithChoices
  by_cases h1 : r.rtype = "gain_cash"
  · rw [if_pos h1]
    exact Pres_adjustPlayerCash s pid _
  · rw [if_neg h1]
    by_cases h2 : r.rtype = "steal_cash"
    · rw [if_pos h2]
      exact Pres_executeStealCash s pid ch.targetPlayerId _
    · rw [if_neg h2]
      by_cases h3 : r.rtype = "adjust_stock"
      · rw [if_pos h3]
        exact Pres_executeAdjustStock s ch.color ch.direction
      · rw [if_neg h3]
        by_cases h4 : r.rtype = "look_at_hand"
        · rw [if_pos h4]
          exact Pres_refl s
        · rw [if_neg h4]
          by_cases h5 : r.rtype = "peek_and_place"
          · rw [if_pos h5]
            exact Pres_executePeekAndPlace s ch.placement
          · rw [if_neg h5]
            by_cases h6 : r.rtype = "swap_with_deck"
            · rw [if_pos h6]
              exact Pres_executeSwapWithDeck s pid ch.cardId
            · rw [if_neg h6]
              by_cases h7 : r.rtype = "rearrange_top_5"
              · rw [if_pos h7]
                exact Pres_executeRearrangeTop5 s ch.newOrder hord
              · rw [if_neg h7]
                by_cases h8 : r.rtype = "take_and_give_card"
                · rw [if_pos h8]
                  exact Pres_executeTakeAndGiveCard s pid ch rand hp hnd
                · rw [if_neg h8]
                  by_cases h9 : r.rtype = "buy_with_discount"
                  · rw [if_pos h9]
                    exact Pres_executeBuyWithDiscount s pid ch.color _
                  · rw [if_neg h9]
                    by_cases h10 : r.rtype = "sell_bonus"
                    · rw [if_pos h10]
                      exact Pres_executeSellBonus s pid _
                    · rw [if_neg h10]
                      by_cases h11 : r.rtype = "gain_lowest_stock"
                      · rw [if_pos h11]
                        exact Pres_executeGainLowestStock s pid rand hp
                      · rw [if_neg h11]
                        exact Pres_refl s

theorem Pres_executeRewardAction (s : GState) (pid : String) (ch : RewardChoices) (rand : Nat)
    (hok : RewardChoicesOK s pid ch) : Pres s (executeRewardAction s pid ch rand) := by
  unfold executeRewardAction
  cases hgr : s.phaseState.goalResolution with
  | none => exact Pres_refl s
  | some gr =>
    dsimp only
    cases hpr : gr.pendingRewardExecution with
    | none => exact Pres_refl s
    | some pending =>
      dsimp only
      exact Pres_trans _ _ _
        (Pres_executeRewardWithChoices s pid pending.goalCard.rewardParsed ch rand hok)
        (Pres_completeRewardExecution _ pid)

theorem executeReward_conserves (s : GState) (pid : String) (ch : RewardChoices) (rand : Nat)
    (hok : RewardChoicesOK s pid ch) (hwf : WF s) :
    allCards (executeRewardAction s pid ch rand) = allCards s ∧
    WF (executeRewardAction s pid ch rand) := by
  have hP := Pres_executeRewardAction s pid ch rand hok
  exact ⟨hP.1, WF_of_Pres s _ hP hwf⟩

theorem cstep_step (s s' : GState) (h : CStep s s') : Step s s' := by
  cases h with
  | bid pid amount hv => exact Step.bid s pid amount hv
  | pass pid hv => exact Step.pass s pid hv
  | proposeTrade oid pid offeringCards offeringCash requestingCards requestingCash hphase hplayer =>
    exact Step.proposeTrade s oid pid offeringCards offeringCash requestingCards requestingCash
      hphase hplayer
  | acceptTrade pid oid hv => exact Step.acceptTrade s pid oid hv
  | cancelTrade oid hphase => exact Step.cancelTrade s oid hphase
  | endTrading => exact Step.endTrading s
  | revealGoal pid gid rand hv => exact Step.revealGoal s pid gid rand hv
  | executeReward pid ch rand hv hok => exact Step.executeReward s pid ch rand hv
  | selectCards pid cardIds hv => exact Step.selectCards s pid cardIds hv
  | commitSell pid hv => exact Step.commitSell s pid hv

theorem step_conserves (s s' : GState) (h : CStep s s') (hwf : WF s) :
    allCards s' = allCards s ∧ WF s' := by
  cases h with
  | bid pid amount hv => exact stepBid_conserves s pid amount hv hwf
  | pass pid hv => exact stepPass_conserves s pid hv hwf
  | proposeTrade oid pid offeringCards offeringCash requestingCards requestingCash hphase hplayer =>
    obtain ⟨h1, h2⟩ := proposeTrade_conserves s oid pid offeringCards offeringCash
      requestingCards requestingCash hplayer hwf
    obtain ⟨h3, h4⟩ := autoAdvance_conserves _ h2
    exact ⟨h3.trans h1, h4⟩
  | acceptTrade pid oid hv =>
    obtain ⟨h1, h2⟩ := acceptTrade_conserves s pid oid hv hwf
    obtain ⟨h3, h4⟩ := autoAdvance_conserves _ h2
    exact ⟨h3.trans h1, h4⟩
  | cancelTrade oid hphase =>
    obtain ⟨h1, h2⟩ := cancelTrade_conserves s oid hwf
    obtain ⟨h3, h4⟩ := autoAdvance_conserves _ h2
    exact ⟨h3.trans h1, h4⟩
  | endTrading =>
    obtain ⟨h1, h2⟩ := manuallyEndPhase_conserves s hwf
    obtain ⟨h3, h4⟩ := autoAdvance_conserves _ h2
    exact ⟨h3.trans h1, h4⟩
  | revealGoal pid gid rand hv =>
    obtain ⟨h1, h2⟩ := revealGoal_conserves s pid gid rand hwf
    obtain ⟨h3, h4⟩ := autoAdvance_conserves _ h2
    exact ⟨h3.trans h1, h4⟩
  | executeReward pid ch rand hv hok =>
    obtain ⟨h1, h2⟩ := executeReward_conserves s pid ch rand hok hwf
    obtain ⟨h3, h4⟩ := autoAdvance_conserves _ h2
    exact ⟨h3.trans h1, h4⟩
  | selectCards pid cardIds hv =>
    obtain ⟨h1, h2⟩ := selectCards_conserves s pid cardIds hwf
    obtain ⟨h3, h4⟩ := autoAdvance_conserves _ h2
    exact ⟨h3.trans h1, h4⟩
  | commitSell pid hv =>
    obtain ⟨h1, h2⟩ := commitSell_conserves s pid hwf
    obtain ⟨h3, h4⟩ := autoAdvance_conserves _ h2
    exact ⟨h3.trans h1, h4⟩

theorem reach_conserves (s0 s : GState) (h : CReach s0 s) (hwf : WF s0) :
    allCards s = allCards s0 ∧ WF s := by
  have h' : Relation.ReflTransGen CStep s0 s := h
  clear h
  induction h' with
  | refl => exact ⟨rfl, hwf⟩
  | tail hr hstep ih =>
    obtain ⟨h1, h2⟩ := ih
    obtain ⟨h3, h4⟩ := step_conserves _ _ hstep h2
    exact ⟨h3.trans h1, h4⟩

theorem c1s0_WF : WF c1s0 := by
  refine ⟨?_, ?_, ?_, ?_, ?_⟩
  · intro au h
    exact Option.noConfusion h
  · intro au h
    exact Option.noConfusion h
  · intro au h
    exact Option.noConfusion h
  · intro tr h
    exact Option.noConfusion h
  · intro h
    rfl

theorem c1r0_WF : WF c1r0 := by
  refine ⟨?_, ?_, ?_, ?_, ?_⟩
  · intro au h
    exact Option.noConfusion h
  · intro au h
    exact Option.noConfusion h
  · intro au h
    exact Option.noConfusion h
  · intro tr h
    exact Option.noConfusion h
  · intro h
    rfl

/-- C1 (corrected): conservative validated actions - every arm of the
engine's dispatch, with an EXECUTE_REWARD's choices satisfying
`RewardChoicesOK` - conserve the multiset of resource cards over FOUR
locations (hands, draw pile, discard pile AND the pending auction
queue, `allCards`), hence per-color totals, and maintain the engine's
bookkeeping invariant `WF` on every reachable state.  Two spec errors
force the corrections witnessed by the counterexample: (1) the
three-location version is false mid-round, because cards drawn for the
auction sit in the auction queue outside all three spec locations until
won or discarded; (2) full conservation over ALL validated actions is
false, because a validated EXECUTE_REWARD for a rearrange-top-5 reward
whose order repeats an id makes `rearrangeTop` silently destroy one top
card and duplicate another (validation never inspects the choices). -/
theorem C1_card_conservation (s0 s : GState) (hwf : WF s0) (hreach : CReach s0 s) :
    allCards s = allCards s0 ∧ WF s ∧
    ∀ c : Color, (allCards s).countP (fun card => card.color = c)
      = (allCards s0).countP (fun card => card.color = c) := by
  obtain ⟨h1, h2⟩ := reach_conserves s0 s hreach hwf
  refine ⟨h1, h2, fun c => ?_⟩
  rw [h1]

/-- C1 counterexample, two parts.  Three-location reading: from a
well-formed sell-phase state, a validated commit-sell completes the
round and deals the next auction, and the freshly drawn queue card is
in no hand, draw pile or discard pile, while the four-location multiset
is conserved.  All-validated-actions reading: from a well-formed
goal-resolution state with a pending rearrange-top-5 reward, a
validated EXECUTE_REWARD whose order repeats the top card's id changes
even the four-location multiset - one card is destroyed and another
duplicated. -/
theorem C1_counterexample :
    (Step c1s0 (stepCommitSell c1s0 "a") ∧ WF c1s0 ∧
      threeLocCards (stepCommitSell c1s0 "a") ≠ threeLocCards c1s0 ∧
      allCards (stepCommitSell c1s0 "a") = allCards c1s0) ∧
    (Step c1r0 (stepExecuteReward c1r0 "a" c1rChoices 0) ∧ WF c1r0 ∧
      allCards (stepExecuteReward c1r0 "a" c1rChoices 0) ≠ allCards c1r0) := by
  refine ⟨⟨Step.commitSell c1s0 "a" (by decide), c1s0_WF, by decide, by decide⟩,
    ⟨Step.executeReward c1r0 "a" c1rChoices 0 (by decide), c1r0_WF, by decide⟩⟩

/-- C1 witness: the corrected conservation applied across one
conservative validated commit-sell step from the fixture state. -/
theorem C1_card_conservation_witness :
    allCards (stepCommitSell c1s0 "a") = allCards c1s0 ∧ WF (stepCommitSell c1s0 "a") ∧
    ∀ c : Color, (allCards (stepCommitSell c1s0 "a")).countP (fun card => card.color = c)
      = (allCards c1s0).countP (fun card => card.color = c) :=
  C1_card_conservation c1s0 (stepCommitSell c1s0 "a") c1s0_WF
    (Relation.ReflTransGen.single (CStep.commitSell c1s0 "a" (by decide)))
